import Mathlib

/-!
# llm-diagrams: a shallow embedding of the generate / render workflow

The development models `main.go` (handler, markup generator, render pipeline)
and `anthropic/client.go` (typed request / response contract and
`CreateMessage`).  Go strings are lists of characters; everything outside the
process (environment, network, filesystem draws, the renderer, the page
template file) is an explicit field of `Env`, and the mutable part of the world
(files and a call trace) is threaded through as `World`.
-/

namespace LLMDiagrams

/-! ## Strings and the pieces of the Go standard library the program calls -/

/-- A Go string, as the sequence of its characters (valid UTF-8 assumed). -/
abbrev GoString := List Char

/-- The byte `'0' + d` for a decimal digit `d`. -/
def digitChar (d : Nat) : Char :=
  match d with
  | 0 => '0' | 1 => '1' | 2 => '2' | 3 => '3' | 4 => '4'
  | 5 => '5' | 6 => '6' | 7 => '7' | 8 => '8' | _ => '9'

/-- The digit loop of `uitoa`: peel decimal digits off `val`, least significant first,
prepending each to the buffer. The first argument bounds the number of iterations. -/
def uitoaLoop : Nat → Nat → GoString → GoString
  | 0, val, buf => digitChar (val % 10) :: buf
  | fuel + 1, val, buf =>
    if val ≥ 10 then uitoaLoop fuel (val / 10) (digitChar (val % 10) :: buf)
    else digitChar val :: buf

/-- Decimal rendering of an unsigned integer (`itoa.Uitoa`). -/
def uitoa (val : Nat) : GoString :=
  if val = 0 then ['0'] else uitoaLoop val val []

/-- Decimal rendering of a signed integer, as `%d` and `strconv.Itoa` print it. -/
def itoa (i : Int) : GoString :=
  if i < 0 then '-' :: uitoa i.natAbs else uitoa i.natAbs

/-- An operand of a formatting call: a string, an `int`, or an `error` (by its message). -/
inductive Arg where
  | str (s : GoString)
  | int (i : Int)
  | err (msg : GoString)
  deriving DecidableEq

/-- The `%v` rendering of an operand. -/
def Arg.value : Arg → GoString
  | .str s => s
  | .int i => itoa i
  | .err m => m

/-- The Go type name printed in a bad-verb diagnostic. -/
def Arg.typeName : Arg → GoString
  | .str _ => "string".toList
  | .int _ => "int".toList
  | .err _ => "*errors.errorString".toList

/-- The diagnostic `%!verb(type=value)` printed for a verb that does not fit its operand. -/
def badVerb (verb : Char) (a : Arg) : GoString :=
  "%!".toList ++ [verb] ++ "(".toList ++ a.typeName ++ "=".toList ++ a.value ++ ")".toList

/-- One verb applied to one operand. `wrap` tells whether `%w` is accepted (`fmt.Errorf`). -/
def formatVerb (wrap : Bool) (verb : Char) (a : Arg) : GoString :=
  if verb = 'v' then a.value
  else if verb = 's' then
    match a with
    | .str s => s
    | .err m => m
    | .int _ => badVerb verb a
  else if verb = 'd' then
    match a with
    | .int i => itoa i
    | _ => badVerb verb a
  else if verb = 'w' then
    match a with
    | .err m => if wrap then m else badVerb verb a
    | _ => badVerb verb a
  else badVerb verb a

/-- The trailer `%!(EXTRA type=value, ...)` for operands no verb consumed. -/
def extraArgs : List Arg → GoString
  | [] => []
  | a :: as =>
    "%!(EXTRA ".toList ++ a.typeName ++ "=".toList ++ a.value
      ++ (as.map fun b => ", ".toList ++ b.typeName ++ "=".toList ++ b.value).flatten
      ++ ")".toList

/-- The formatting loop of `fmt.Sprintf` / `fmt.Errorf` for verbs without flags, width or
precision (the only kind the program uses): literal characters are copied, `%%` prints a
percent sign, every other `%x` consumes the next operand. Operands are inserted as they are
and never scanned for verbs. -/
def sprintfWith (wrap : Bool) : GoString → List Arg → GoString
  | [], args => extraArgs args
  | [c], args => if c = '%' then "%!(NOVERB)".toList ++ extraArgs args else c :: extraArgs args
  | c :: v :: rest, args =>
    if c = '%' then
      if v = '%' then '%' :: sprintfWith wrap rest args
      else
        match args with
        | [] => "%!".toList ++ [v] ++ "(MISSING)".toList ++ sprintfWith wrap rest []
        | a :: as => formatVerb wrap v a ++ sprintfWith wrap rest as
    else c :: sprintfWith wrap (v :: rest) args

/-- Model of `fmt.Sprintf`. -/
def Sprintf (format : GoString) (args : List Arg) : GoString := sprintfWith false format args

/-- Model of `fmt.Errorf` and `errors.Errorf`: the error is represented by its message. -/
def Errorf (format : GoString) (args : List Arg) : GoString := sprintfWith true format args

/-- Model of `errors.Wrap(err, message)`: the message is `message: cause`. -/
def Wrap (err : GoString) (message : GoString) : GoString := message ++ ": ".toList ++ err

/-- The replacement loop of `strings.Replace` for a non-empty `old`: scan left to right; at a
position where `old` matches, emit `new` and resume after the match (`skip` counts the
characters of a match still to be passed over); elsewhere copy the character. -/
def replaceLoop (old new : GoString) : Nat → GoString → GoString
  | _, [] => []
  | skip + 1, _ :: cs => replaceLoop old new skip cs
  | 0, c :: cs =>
    if old.isPrefixOf (c :: cs) then new ++ replaceLoop old new (old.length - 1) cs
    else c :: replaceLoop old new 0 cs

/-- Model of `strings.ReplaceAll`: every non-overlapping occurrence of `old` is replaced by
`new`. For an empty `old` Go inserts `new` before every character and at the end. -/
def ReplaceAll (s old new : GoString) : GoString :=
  if old = new then s
  else if old = [] then new ++ (s.map fun c => c :: new).flatten
  else replaceLoop old new 0 s

/-! ## `encoding/json`: the scanner -/

/-- JSON insignificant whitespace (`isSpace`). -/
def isSpace (c : Char) : Bool := c = ' ' || c = '\t' || c = '\r' || c = '\n'

/-- Drop leading JSON whitespace. -/
def skipSpace : GoString → GoString
  | [] => []
  | c :: cs => if isSpace c then skipSpace cs else c :: cs

/-- What the scanner is in the middle of, one entry per open object or array. -/
inductive ParseState where
  | objectKey
  | objectValue
  | arrayValue
  deriving DecidableEq

/-- The step functions of the scanner (`stateBeginValue`, `stateInString`, `state1`, ...).
`inStringEscU n` has read `n` of the four hex digits; `lit rest` is inside `true`, `false`
or `null` with `rest` still to come. -/
inductive ScanStep where
  | beginValueOrEmpty
  | beginValue
  | beginStringOrEmpty
  | beginString
  | endValue
  | endTop
  | inString
  | inStringEsc
  | inStringEscU (n : Nat)
  | neg
  | s1
  | s0
  | dot
  | dot0
  | e
  | eSign
  | e0
  | lit (rest : GoString)
  deriving DecidableEq

/-- The scanner: current step function and the stack of open composites (innermost first). -/
structure Scanner where
  step : ScanStep
  parseState : List ParseState
  deriving DecidableEq

/-- Nesting limit of the scanner. -/
def maxNestingDepth : Nat := 10000

def isDigit (c : Char) : Bool := '0'.toNat ≤ c.toNat && c.toNat ≤ '9'.toNat

def isDigit19 (c : Char) : Bool := '1'.toNat ≤ c.toNat && c.toNat ≤ '9'.toNat

def isHex (c : Char) : Bool :=
  isDigit c || ('a'.toNat ≤ c.toNat && c.toNat ≤ 'f'.toNat)
    || ('A'.toNat ≤ c.toNat && c.toNat ≤ 'F'.toNat)

/-- Outcome of feeding one character to a number state. -/
inductive NumStep where
  | cont (s : ScanStep)
  | ended
  | bad
  | notNumber
  deriving DecidableEq

/-- The number states `stateNeg`, `state1`, `state0`, `stateDot`, `stateDot0`, `stateE`,
`stateESign`, `stateE0`: `ended` where the Go code falls through to `stateEndValue`. -/
def numStep (st : ScanStep) (c : Char) : NumStep :=
  match st with
  | .neg => if c = '0' then .cont .s0 else if isDigit19 c then .cont .s1 else .bad
  | .s1 =>
    if isDigit c then .cont .s1
    else if c = '.' then .cont .dot
    else if c = 'e' || c = 'E' then .cont .e
    else .ended
  | .s0 =>
    if c = '.' then .cont .dot
    else if c = 'e' || c = 'E' then .cont .e
    else .ended
  | .dot => if isDigit c then .cont .dot0 else .bad
  | .dot0 =>
    if isDigit c then .cont .dot0
    else if c = 'e' || c = 'E' then .cont .e
    else .ended
  | .e => if c = '+' || c = '-' then .cont .eSign else if isDigit c then .cont .e0 else .bad
  | .eSign => if isDigit c then .cont .e0 else .bad
  | .e0 => if isDigit c then .cont .e0 else .ended
  | _ => .notNumber

/-- The state after `popParseState`, given the stack that remains. -/
def popParseState (below : List ParseState) : Scanner :=
  if below = [] then ⟨.endTop, []⟩ else ⟨.endValue, below⟩

/-- After a top-level value only whitespace may follow (`stateEndTop`). -/
def stateEndTop (c : Char) : Option Scanner :=
  if isSpace c then some ⟨.endTop, []⟩ else none

/-- Step taken after a value is complete (`stateEndValue`). -/
def stateEndValue (ps : List ParseState) (c : Char) : Option Scanner :=
  match ps with
  | [] => stateEndTop c
  | top :: below =>
    if isSpace c then some ⟨.endValue, ps⟩
    else
      match top with
      | .objectKey => if c = ':' then some ⟨.beginValue, .objectValue :: below⟩ else none
      | .objectValue =>
        if c = ',' then some ⟨.beginString, .objectKey :: below⟩
        else if c = '}' then some (popParseState below)
        else none
      | .arrayValue =>
        if c = ',' then some ⟨.beginValue, ps⟩
        else if c = ']' then some (popParseState below)
        else none

/-- Push an open composite; fails beyond the nesting limit (`pushParseState`). -/
def pushParseState (ps : List ParseState) (p : ParseState) (next : ScanStep) : Option Scanner :=
  if ps.length + 1 ≤ maxNestingDepth then some ⟨next, p :: ps⟩ else none

/-- Step taken at the start of a value (`stateBeginValue`). -/
def stateBeginValue (ps : List ParseState) (c : Char) : Option Scanner :=
  if isSpace c then some ⟨.beginValue, ps⟩
  else if c = '{' then pushParseState ps .objectKey .beginStringOrEmpty
  else if c = '[' then pushParseState ps .arrayValue .beginValueOrEmpty
  else if c = '"' then some ⟨.inString, ps⟩
  else if c = '-' then some ⟨.neg, ps⟩
  else if c = '0' then some ⟨.s0, ps⟩
  else if c = 't' then some ⟨.lit "rue".toList, ps⟩
  else if c = 'f' then some ⟨.lit "alse".toList, ps⟩
  else if c = 'n' then some ⟨.lit "ull".toList, ps⟩
  else if isDigit19 c then some ⟨.s1, ps⟩
  else none

/-- Step taken where an object key must start (`stateBeginString`). -/
def stateBeginString (ps : List ParseState) (c : Char) : Option Scanner :=
  if isSpace c then some ⟨.beginString, ps⟩
  else if c = '"' then some ⟨.inString, ps⟩
  else none

/-- One step of the scanner on one character; `none` is `scanError`. -/
def Scanner.next (s : Scanner) (c : Char) : Option Scanner :=
  match s.step with
  | .beginValueOrEmpty =>
    if isSpace c then some ⟨.beginValueOrEmpty, s.parseState⟩
    else if c = ']' then stateEndValue s.parseState c
    else stateBeginValue s.parseState c
  | .beginValue => stateBeginValue s.parseState c
  | .beginStringOrEmpty =>
    if isSpace c then some ⟨.beginStringOrEmpty, s.parseState⟩
    else if c = '}' then stateEndValue (.objectValue :: s.parseState.tail) c
    else stateBeginString s.parseState c
  | .beginString => stateBeginString s.parseState c
  | .endValue => stateEndValue s.parseState c
  | .endTop => stateEndTop c
  | .inString =>
    if c = '"' then some ⟨.endValue, s.parseState⟩
    else if c = '\\' then some ⟨.inStringEsc, s.parseState⟩
    else if c.toNat < 32 then none
    else some ⟨.inString, s.parseState⟩
  | .inStringEsc =>
    if c = 'b' || c = 'f' || c = 'n' || c = 'r' || c = 't' || c = '\\' || c = '/' || c = '"'
    then some ⟨.inString, s.parseState⟩
    else if c = 'u' then some ⟨.inStringEscU 0, s.parseState⟩
    else none
  | .inStringEscU n =>
    if isHex c then
      if n ≥ 3 then some ⟨.inString, s.parseState⟩ else some ⟨.inStringEscU (n + 1), s.parseState⟩
    else none
  | .lit rest =>
    match rest with
    | [] => stateEndValue s.parseState c
    | r :: rs =>
      if c = r then (if rs = [] then some ⟨.endValue, s.parseState⟩ else some ⟨.lit rs, s.parseState⟩)
      else none
  | st =>
    match numStep st c with
    | .cont st' => some ⟨st', s.parseState⟩
    | .ended => stateEndValue s.parseState c
    | _ => none

/-- Model of `checkValid`: the whole input is one JSON value, surrounded by optional
whitespace. At the end of the input the scanner is fed one space (`scanner.eof`). -/
def checkValidFrom : Scanner → GoString → Bool
  | s, [] =>
    if s.step = .endTop then true
    else
      match s.next ' ' with
      | some s' => decide (s'.step = .endTop)
      | none => false
  | s, c :: cs =>
    match s.next c with
    | some s' => checkValidFrom s' cs
    | none => false

def checkValid (data : GoString) : Bool := checkValidFrom ⟨.beginValue, []⟩ data

/-- Delimit one value: run the scanner from `s` until the value that was started with `base`
composites open is complete, and return the input that follows it. A number is complete at
the first character that no longer belongs to it. -/
def valueEnd (base : Nat) : Scanner → GoString → Option GoString
  | s, [] => if s.step = .endValue ∧ s.parseState.length ≤ base then some [] else none
  | s, c :: cs =>
    if s.step = .endValue ∧ s.parseState.length ≤ base then some (c :: cs)
    else if numStep s.step c = .ended ∧ s.parseState.length ≤ base then some (c :: cs)
    else
      match s.next c with
      | none => none
      | some s' => valueEnd base s' cs

/-- Split the input, which starts at a value nested inside the composites `ctx`, into the
bytes of that value and the rest. -/
def splitValue (ctx : List ParseState) (input : GoString) : Option (GoString × GoString) :=
  match valueEnd ctx.length ⟨.beginValue, ctx⟩ input with
  | none => none
  | some rest => some (input.take (input.length - rest.length), rest)

/-! ## `encoding/json`: string and number literals -/

/-- Value of a hexadecimal digit (`getu4`). -/
def hexVal (c : Char) : Option Nat :=
  if isDigit c then some (c.toNat - '0'.toNat)
  else if 'a'.toNat ≤ c.toNat && c.toNat ≤ 'f'.toNat then some (c.toNat - 'a'.toNat + 10)
  else if 'A'.toNat ≤ c.toNat && c.toNat ≤ 'F'.toNat then some (c.toNat - 'A'.toNat + 10)
  else none

/-- The rune U+FFFD written for an escape that denotes no character. -/
def replacementChar : Char := Char.ofNat 0xFFFD

/-- Where `unquote` is inside a string body. `hex n acc`: `n` hex digits of a `\u` escape
read so far; the `hi` states carry a pending high surrogate waiting for its low half. -/
inductive UnquoteState where
  | plain
  | esc
  | hex (n acc : Nat)
  | hi (h : Nat)
  | hiEsc (h : Nat)
  | hiHex (h n acc : Nat)

/-- The character a single-letter escape stands for. -/
def simpleEscape (c : Char) : Option Char :=
  if c = '"' || c = '\\' || c = '/' || c = '\'' then some c
  else if c = 'b' then some (Char.ofNat 8)
  else if c = 'f' then some (Char.ofNat 12)
  else if c = 'n' then some '\n'
  else if c = 'r' then some '\r'
  else if c = 't' then some '\t'
  else none

/-- Body of `unquote`: copy plain characters, translate escapes, combine surrogate pairs and
replace lone surrogates by U+FFFD. -/
def unquoteLoop : UnquoteState → GoString → Option GoString
  | .plain, [] => some []
  | .hi _, [] => some [replacementChar]
  | _, [] => none
  | .plain, c :: cs =>
    if c = '\\' then unquoteLoop .esc cs
    else if c = '"' || c.toNat < 32 then none
    else (unquoteLoop .plain cs).map (c :: ·)
  | .esc, c :: cs =>
    if c = 'u' then unquoteLoop (.hex 0 0) cs
    else
      match simpleEscape c with
      | some x => (unquoteLoop .plain cs).map (x :: ·)
      | none => none
  | .hex n acc, c :: cs =>
    match hexVal c with
    | none => none
    | some d =>
      let r := acc * 16 + d
      if n < 3 then unquoteLoop (.hex (n + 1) r) cs
      else if 0xD800 ≤ r ∧ r < 0xDC00 then unquoteLoop (.hi r) cs
      else if 0xDC00 ≤ r ∧ r < 0xE000 then (unquoteLoop .plain cs).map (replacementChar :: ·)
      else (unquoteLoop .plain cs).map (Char.ofNat r :: ·)
  | .hi h, c :: cs =>
    if c = '\\' then unquoteLoop (.hiEsc h) cs
    else if c = '"' || c.toNat < 32 then none
    else (unquoteLoop .plain cs).map (fun out => replacementChar :: c :: out)
  | .hiEsc h, c :: cs =>
    if c = 'u' then unquoteLoop (.hiHex h 0 0) cs
    else
      match simpleEscape c with
      | some x => (unquoteLoop .plain cs).map (fun out => replacementChar :: x :: out)
      | none => none
  | .hiHex h n acc, c :: cs =>
    match hexVal c with
    | none => none
    | some d =>
      let r := acc * 16 + d
      if n < 3 then unquoteLoop (.hiHex h (n + 1) r) cs
      else if 0xDC00 ≤ r ∧ r < 0xE000 then
        (unquoteLoop .plain cs).map
          (Char.ofNat (0x10000 + (h - 0xD800) * 0x400 + (r - 0xDC00)) :: ·)
      else if 0xD800 ≤ r ∧ r < 0xDC00 then
        (unquoteLoop (.hi r) cs).map (replacementChar :: ·)
      else (unquoteLoop .plain cs).map (fun out => replacementChar :: Char.ofNat r :: out)

/-- Model of `unquote`: the text of a quoted JSON string literal. -/
def unquote (lit : GoString) : Option GoString :=
  match lit with
  | '"' :: body =>
    if body.getLast? = some '"' then unquoteLoop .plain body.dropLast else none
  | _ => none

/-- Value of a non-empty run of decimal digits. -/
def parseDigits : Nat → GoString → Option Nat
  | acc, [] => some acc
  | acc, c :: cs => if isDigit c then parseDigits (acc * 10 + (c.toNat - '0'.toNat)) cs else none

/-- Model of `strconv.ParseInt(s, 10, 64)`. -/
def parseInt (s : GoString) : Option Int :=
  let neg := s.head? = some '-'
  let ds := if s.head? = some '-' ∨ s.head? = some '+' then s.tail else s
  if ds = [] then none
  else
    match parseDigits 0 ds with
    | none => none
    | some n =>
      if neg then (if n ≤ 2 ^ 63 then some (-(n : Int)) else none)
      else (if n < 2 ^ 63 then some (n : Int) else none)

/-- The smallest rune of the case-folding orbit of `c` (`foldRune`), for the orbits that
contain an ASCII letter: lower case folds to upper case, and the Kelvin sign and the long s
fold to `K` and `S`. Any other character is left alone. -/
def foldRune (c : Char) : Char :=
  if 'a'.toNat ≤ c.toNat && c.toNat ≤ 'z'.toNat then Char.ofNat (c.toNat - 32)
  else if c.toNat = 0x212A then 'K'
  else if c.toNat = 0x17F then 'S'
  else c

/-- Model of `foldName`. -/
def foldName (name : GoString) : GoString := name.map foldRune

/-- An object key selects the struct field whose name it equals, exactly or after folding. -/
def keyMatches (key name : GoString) : Bool := key = name || foldName key = foldName name

/-! ## `anthropic/client.go`: the typed contract -/

/-- A `float64`, by its IEEE-754 bit pattern. -/
structure Float64 where
  bits : Nat
  deriving DecidableEq

/-- `json.RawMessage`: `none` is the nil slice, `some b` the bytes `b`. -/
abbrev RawMessage := Option GoString

/-- Message represents a single message in the conversation. -/
structure Message where
  Role : GoString
  Content : GoString
  deriving DecidableEq

/-- Tool represents a tool that can be used by the model. -/
structure Tool where
  Name : GoString
  Description : GoString
  InputSchema : RawMessage
  deriving DecidableEq

structure ToolChoice where
  Typ : GoString
  Name : GoString
  deriving DecidableEq

/-- MessageRequest represents the request body for the /v1/messages API. A nil or empty
slice is `[]`, a nil `*ToolChoice` is `none`. -/
structure MessageRequest where
  Model : GoString
  Messages : List Message
  MaxTokens : Int
  Temperature : Float64 := ⟨0⟩
  Tools : List Tool := []
  ToolChoice : Option ToolChoice := none
  deriving DecidableEq

/-- Content represents the content of a message in the response. The Go field `Type` is
spelled `Typ` here and in the other structures, `Type` being reserved. -/
structure Content where
  Typ : GoString := []
  Text : GoString := []
  ID : GoString := []
  Name : GoString := []
  Input : RawMessage := none
  deriving DecidableEq

/-- Usage represents the token usage information. -/
structure Usage where
  InputTokens : Int := 0
  OutputTokens : Int := 0
  deriving DecidableEq

/-- MessageResponse represents the response from the /v1/messages API. -/
structure MessageResponse where
  ID : GoString := []
  Typ : GoString := []
  Role : GoString := []
  Content : List Content := []
  Model : GoString := []
  StopReason : GoString := []
  Usage : Usage := {}
  deriving DecidableEq

def baseURL : GoString := "https://api.anthropic.com/v1".toList
def ModelClaude35Sonnet : GoString := "claude-3-5-sonnet-20241022".toList
def ModelClaude35Haiku : GoString := "claude-3-5-haiku-20241022".toList

/-! ## `encoding/json`: decoding into the response types -/

/-- Decode the value at the head of the input into a `string` field: a string literal sets
it, `null` leaves it alone, any other value is an error. -/
def decodeString (ctx : List ParseState) (old : GoString) (input : GoString) :
    Option (GoString × GoString) :=
  match splitValue ctx input with
  | none => none
  | some (lit, rest) =>
    if lit.head? = some '"' then
      match unquote lit with
      | some s => some (s, rest)
      | none => none
    else if lit.head? = some 'n' then some (old, rest)
    else none

/-- Decode the value at the head of the input into an `int` field. -/
def decodeInt (ctx : List ParseState) (old : Int) (input : GoString) :
    Option (Int × GoString) :=
  match splitValue ctx input with
  | none => none
  | some (lit, rest) =>
    if lit.head? = some 'n' then some (old, rest)
    else if lit.head? = some '-' ∨ (lit.head?.map isDigit) = some true then
      match parseInt lit with
      | some n => some (n, rest)
      | none => none
    else none

/-- Decode the value at the head of the input into a `json.RawMessage` field: the bytes of
the value, whatever it is, are stored as they stand. -/
def decodeRaw (ctx : List ParseState) (input : GoString) : Option (RawMessage × GoString) :=
  match splitValue ctx input with
  | none => none
  | some (raw, rest) => some (some raw, rest)

/-- Pass over the value of a key that names no field. -/
def skipValue (ctx : List ParseState) (acc : σ) (input : GoString) : Option (σ × GoString) :=
  match splitValue ctx input with
  | none => none
  | some (_, rest) => some (acc, rest)

/-- The members of a non-empty object, the input standing at the first key. Each key is
unquoted and handed with the input after the colon to `field`, which decodes the value into
the struct built so far. The first argument bounds the number of members. -/
def decodeMembers (ctx : List ParseState)
    (field : GoString → σ → GoString → Option (σ × GoString)) :
    Nat → σ → GoString → Option (σ × GoString)
  | 0, _, _ => none
  | fuel + 1, acc, input =>
    if input.head? = some '"' then
      match splitValue (.objectKey :: ctx) input with
      | none => none
      | some (lit, rest) =>
        match unquote lit with
        | none => none
        | some key =>
          match skipSpace rest with
          | ':' :: rest1 =>
            match field key acc (skipSpace rest1) with
            | none => none
            | some (acc1, rest2) =>
              match skipSpace rest2 with
              | ',' :: rest3 => decodeMembers ctx field fuel acc1 (skipSpace rest3)
              | '}' :: rest3 => some (acc1, rest3)
              | _ => none
          | _ => none
    else none

/-- Decode the value at the head of the input into a struct: an object is decoded member by
member into `acc`, `null` leaves `acc` alone, any other value is an error. -/
def decodeStruct (ctx : List ParseState)
    (field : GoString → σ → GoString → Option (σ × GoString))
    (fuel : Nat) (acc : σ) (input : GoString) : Option (σ × GoString) :=
  match input with
  | '{' :: rest =>
    match skipSpace rest with
    | '}' :: rest1 => some (acc, rest1)
    | rest1 => decodeMembers ctx field fuel acc rest1
  | 'n' :: _ => skipValue ctx acc input
  | _ => none

/-- A slice while it is decoded into: its elements, and the elements an earlier, longer
decode left in the backing array beyond its length (`SetLen` does not clear them). -/
structure Slice (α : Type) where
  elems : List α
  spare : List α

/-- The elements of a non-empty array, the input standing at the first element. Element `i`
is decoded into the value the backing array holds at index `i` (only the rest of the backing
array, from `i` on, is passed along), and into the zero value beyond the backing array, as
freshly grown memory is zero. -/
def decodeElems (elem : α → GoString → Option (α × GoString)) (zero : α) :
    Nat → List α → GoString → Option (List α × GoString)
  | 0, _, _ => none
  | fuel + 1, backing, input =>
    match elem (backing.headD zero) input with
    | none => none
    | some (a, rest) =>
      match skipSpace rest with
      | ',' :: rest1 =>
        match decodeElems elem zero fuel backing.tail (skipSpace rest1) with
        | none => none
        | some (as, rest2) => some (a :: as, rest2)
      | ']' :: rest1 => some ([a], rest1)
      | _ => none

/-- Decode the value at the head of the input into a slice. The elements of an array are
decoded one by one into the slice's backing array, which is grown as needed, and the slice
is cut to their number; an empty array gives a fresh empty slice, `null` the nil slice; any
other value is an error. -/
def decodeSlice (ctx : List ParseState) (elem : α → GoString → Option (α × GoString))
    (zero : α) (fuel : Nat) (old : Slice α) (input : GoString) :
    Option (Slice α × GoString) :=
  match input with
  | '[' :: rest =>
    match skipSpace rest with
    | ']' :: rest1 => some (⟨[], []⟩, rest1)
    | rest1 =>
      match decodeElems elem zero fuel (old.elems ++ old.spare) rest1 with
      | none => none
      | some (as, rest2) => some (⟨as, (old.elems ++ old.spare).drop as.length⟩, rest2)
  | 'n' :: _ => skipValue ctx ⟨[], []⟩ input
  | _ => none

/-- One member of a `usage` object. -/
def usageField (ctx : List ParseState) (key : GoString) (u : Usage) (input : GoString) :
    Option (Usage × GoString) :=
  if keyMatches key "input_tokens".toList then
    (decodeInt ctx u.InputTokens input).map fun (n, rest) => ({ u with InputTokens := n }, rest)
  else if keyMatches key "output_tokens".toList then
    (decodeInt ctx u.OutputTokens input).map fun (n, rest) => ({ u with OutputTokens := n }, rest)
  else skipValue ctx u input

/-- One member of a content block. -/
def contentField (ctx : List ParseState) (key : GoString) (c : Content) (input : GoString) :
    Option (Content × GoString) :=
  if keyMatches key "type".toList then
    (decodeString ctx c.Typ input).map fun (s, rest) => ({ c with Typ := s }, rest)
  else if keyMatches key "text".toList then
    (decodeString ctx c.Text input).map fun (s, rest) => ({ c with Text := s }, rest)
  else if keyMatches key "id".toList then
    (decodeString ctx c.ID input).map fun (s, rest) => ({ c with ID := s }, rest)
  else if keyMatches key "name".toList then
    (decodeString ctx c.Name input).map fun (s, rest) => ({ c with Name := s }, rest)
  else if keyMatches key "input".toList then
    (decodeRaw ctx input).map fun (r, rest) => ({ c with Input := r }, rest)
  else skipValue ctx c input

/-- The response while it is decoded into: the struct, and what lies in the backing array
of its `Content` slice beyond the slice's length. -/
structure Decoding where
  resp : MessageResponse := {}
  spare : List Content := []

/-- One member of the response object. -/
def responseField (fuel : Nat) (key : GoString) (d : Decoding) (input : GoString) :
    Option (Decoding × GoString) :=
  let ctx : List ParseState := [.objectValue]
  let r := d.resp
  if keyMatches key "id".toList then
    (decodeString ctx r.ID input).map fun (s, rest) => ({ d with resp := { r with ID := s } }, rest)
  else if keyMatches key "type".toList then
    (decodeString ctx r.Typ input).map fun (s, rest) => ({ d with resp := { r with Typ := s } }, rest)
  else if keyMatches key "role".toList then
    (decodeString ctx r.Role input).map fun (s, rest) => ({ d with resp := { r with Role := s } }, rest)
  else if keyMatches key "content".toList then
    (decodeSlice ctx
        (decodeStruct (.arrayValue :: ctx)
          (contentField (.objectValue :: .arrayValue :: ctx)) fuel)
        {} fuel ⟨r.Content, d.spare⟩ input).map
      fun (cs, rest) => ({ resp := { r with Content := cs.elems }, spare := cs.spare }, rest)
  else if keyMatches key "model".toList then
    (decodeString ctx r.Model input).map
      fun (s, rest) => ({ d with resp := { r with Model := s } }, rest)
  else if keyMatches key "stop_reason".toList then
    (decodeString ctx r.StopReason input).map
      fun (s, rest) => ({ d with resp := { r with StopReason := s } }, rest)
  else if keyMatches key "usage".toList then
    (decodeStruct ctx (usageField (.objectValue :: ctx)) fuel r.Usage input).map
      fun (u, rest) => ({ d with resp := { r with Usage := u } }, rest)
  else skipValue ctx d input

/-- Model of `json.Unmarshal(data, &messageResp)` for a zero `messageResp`: the parsed
response, or `none` when the library reports an error (a syntax error anywhere in the input,
or a value of the wrong kind for its field). -/
def Unmarshal (data : GoString) : Option MessageResponse :=
  match skipSpace data with
  | '{' :: rest =>
    match decodeStruct [] (responseField data.length) data.length {} ('{' :: rest) with
    | some (d, tail) => if skipSpace tail = [] then some d.resp else none
    | none => none
  | 'n' :: _ => if checkValid data then some {} else none
  | _ => none

/-! ## `encoding/json`: encoding the request -/

/-- Lower-case hexadecimal digit. -/
def hexDigit (n : Nat) : Char :=
  match n with
  | 10 => 'a' | 11 => 'b' | 12 => 'c' | 13 => 'd' | 14 => 'e' | 15 => 'f'
  | d => digitChar d

/-- How the encoder writes one character of a string (HTML escaping on, as `json.Marshal`
has it): quote and backslash get a backslash, the usual control characters their letter,
other control characters and `<`, `>`, `&` a `\u00XX` escape, U+2028 and U+2029 a `\u202X`
escape, everything else is copied. -/
def encodeChar (c : Char) : GoString :=
  if c = '\\' || c = '"' then ['\\', c]
  else if c.toNat = 8 then ['\\', 'b']
  else if c.toNat = 12 then ['\\', 'f']
  else if c = '\n' then ['\\', 'n']
  else if c = '\r' then ['\\', 'r']
  else if c = '\t' then ['\\', 't']
  else if c.toNat < 32 || c = '<' || c = '>' || c = '&' then
    ['\\', 'u', '0', '0', hexDigit (c.toNat / 16), hexDigit (c.toNat % 16)]
  else if c.toNat = 0x2028 || c.toNat = 0x2029 then
    ['\\', 'u', '2', '0', '2', hexDigit (c.toNat % 16)]
  else [c]

/-- The characters between the quotes of an encoded string. -/
def encodeBody (s : GoString) : GoString := (s.map encodeChar).flatten

/-- A string as a JSON string literal. -/
def encodeString (s : GoString) : GoString := '"' :: (encodeBody s ++ ['"'])

/-- Join the encoded elements of an array or the members of an object with commas. -/
def commaJoin : List GoString → GoString
  | [] => []
  | [x] => x
  | x :: y :: rest => x ++ ',' :: commaJoin (y :: rest)

/-- An object with the given members, each a key and the encoded text of its value. -/
def encodeObject (members : List (GoString × GoString)) : GoString :=
  '{' :: (commaJoin (members.map fun m => encodeString m.1 ++ ':' :: m.2) ++ ['}'])

/-- An array of encoded elements; the empty list, standing for the nil slice, is `null`. -/
def encodeArray (elems : List GoString) : GoString :=
  if elems = [] then "null".toList else '[' :: (commaJoin elems ++ [']'])

/-- Model of `compact` with HTML escaping, on input the scanner accepts: whitespace outside
string literals is dropped, `<`, `>`, `&`, U+2028 and U+2029 are written as escapes. -/
def compactFrom : Scanner → GoString → GoString
  | _, [] => []
  | s, c :: cs =>
    match s.next c with
    | none => []
    | some s' =>
      (if c = '<' || c = '>' || c = '&' then
          ['\\', 'u', '0', '0', hexDigit (c.toNat / 16), hexDigit (c.toNat % 16)]
        else if c.toNat = 0x2028 || c.toNat = 0x2029 then
          ['\\', 'u', '2', '0', '2', hexDigit (c.toNat % 16)]
        else if isSpace c && decide (s.step ≠ .inString) then []
        else [c]) ++ compactFrom s' cs

/-- Encoding of a `json.RawMessage`: nil is `null`, anything else must be valid JSON and is
written compacted. -/
def encodeRaw (m : RawMessage) : Option GoString :=
  match m with
  | none => some "null".toList
  | some b => if checkValid b then some (compactFrom ⟨.beginValue, []⟩ b) else none

def encodeMessage (m : Message) : GoString :=
  encodeObject [("role".toList, encodeString m.Role), ("content".toList, encodeString m.Content)]

def encodeTool (t : Tool) : Option GoString :=
  (encodeRaw t.InputSchema).map fun schema =>
    encodeObject [("name".toList, encodeString t.Name),
      ("description".toList, encodeString t.Description), ("input_schema".toList, schema)]

def encodeToolChoice (t : ToolChoice) : GoString :=
  encodeObject [("type".toList, encodeString t.Typ), ("name".toList, encodeString t.Name)]

/-- A float is an empty value when it equals zero (either sign). -/
def Float64.isZero (f : Float64) : Bool := f.bits % 2 ^ 63 = 0

/-- NaN and the infinities, which the encoder refuses. -/
def Float64.isNaNOrInf (f : Float64) : Bool := f.bits / 2 ^ 52 % 2 ^ 11 = 2047

/-- All-or-nothing collection of optional results. -/
def allSome : List (Option α) → Option (List α)
  | [] => some []
  | none :: _ => none
  | some a :: rest => (allSome rest).map (a :: ·)

/-- The members `json.Marshal` writes for a `MessageRequest`, in struct order: `model`,
`messages` and `max_tokens` always; `temperature`, `tools` and `tool_choice`, tagged
`omitempty`, only when non-zero, non-empty and non-nil. `fmtFloat` is the decimal rendering
of a finite float, which is not modelled. `none` when the encoder reports an error. -/
def marshalFields (fmtFloat : Float64 → GoString) (req : MessageRequest) :
    Option (List (GoString × GoString)) :=
  let required : List (GoString × GoString) :=
    [("model".toList, encodeString req.Model),
     ("messages".toList, encodeArray (req.Messages.map encodeMessage)),
     ("max_tokens".toList, itoa req.MaxTokens)]
  let temperature : Option (List (GoString × GoString)) :=
    if req.Temperature.isZero then some []
    else if req.Temperature.isNaNOrInf then none
    else some [("temperature".toList, fmtFloat req.Temperature)]
  let tools : Option (List (GoString × GoString)) :=
    if req.Tools = [] then some []
    else (allSome (req.Tools.map encodeTool)).map fun ts => [("tools".toList, encodeArray ts)]
  let toolChoice : List (GoString × GoString) :=
    match req.ToolChoice with
    | none => []
    | some t => [("tool_choice".toList, encodeToolChoice t)]
  match temperature, tools with
  | some t, some ts => some (required ++ t ++ ts ++ toolChoice)
  | _, _ => none

/-- Model of `json.Marshal(req)`. -/
def Marshal (fmtFloat : Float64 → GoString) (req : MessageRequest) : Option GoString :=
  (marshalFields fmtFloat req).map encodeObject

/-! ## The world outside the process -/

structure HTTPRequest where
  Method : GoString
  URL : GoString
  Header : List (GoString × GoString)
  Body : GoString
  deriving DecidableEq

/-- A response as `CreateMessage` sees it: the status code and what reading the whole body
gives, the bytes or a read error. -/
structure HTTPResponse where
  StatusCode : Int
  Body : Except GoString GoString

/-- The files on disk: the content stored under each path, if any. -/
abbrev Files := GoString → Option GoString

/-- Store `content` under `name`. -/
def Files.write (fs : Files) (name content : GoString) : Files :=
  fun p => if p = name then some content else fs p

/-- Model of `os.Remove`: the path has no file afterwards. -/
def Files.remove (fs : Files) (name : GoString) : Files :=
  fun p => if p = name then none else fs p

/-- Calls recorded while the program runs. -/
inductive Event where
  | generatePlantUML (input : GoString)
  | createMessage (req : MessageRequest)
  | httpDo (req : HTTPRequest)
  | generateDiagram (code : GoString)
  | exec (argv : List GoString)
  deriving DecidableEq

/-- The mutable world: the files and the calls made so far, oldest first. -/
structure World where
  files : Files
  trace : List Event

def World.log (w : World) (e : Event) : World := { w with trace := w.trace ++ [e] }

structure PageData where
  Input : GoString := []
  DiagramURL : GoString := []
  PlantUMLCode : GoString := []
  deriving DecidableEq

/-- Everything the program depends on and does not control. -/
structure Env where
  /-- Value of `os.Getenv`. -/
  getenv : GoString → GoString
  /-- Outcome of `httpClient.Do` followed by `ioutil.ReadAll`: a transport error, or a status
  with the result of reading the body. -/
  httpDo : HTTPRequest → Except GoString HTTPResponse
  /-- Decimal rendering of a finite float by the encoder. -/
  fmtFloat : Float64 → GoString
  /-- Text of the error `json.Marshal` reports. -/
  marshalError : MessageRequest → GoString
  /-- Text of the error `json.Unmarshal` reports for a body. -/
  unmarshalError : GoString → GoString
  /-- Directory `os.CreateTemp` uses for an empty `dir`. -/
  tempDir : GoString
  /-- The `i`-th random draw of `os.CreateTemp`. -/
  rand : Nat → Nat
  /-- Error of opening a new file under a free name, if the open fails. -/
  openError : GoString → Option GoString
  /-- Error of `WriteString`, if the write fails. -/
  writeError : Option GoString
  /-- Running a command to completion (`cmd.Run`): the files afterwards and the error, if the
  command could not be started or exited with a non-zero status. -/
  run : Files → List GoString → Files × Option GoString
  /-- Outcome of `template.ParseFiles("templates/index.html")`: the parse error when the file
  is missing or malformed, or else what executing the parsed template writes for given data. -/
  template : Except GoString (PageData → GoString)

/-! ## `anthropic/client.go`: `CreateMessage` -/

/-- Client represents an Anthropic API client; its transport is `Env.httpDo`. -/
structure Client where
  apiKey : GoString
  deriving DecidableEq

/-- New creates a new Anthropic API client. -/
def New (apiKey : GoString) : Client := { apiKey := apiKey }

/-- The request `CreateMessage` sends: a POST to `baseURL/messages` carrying the serialized
body and the three headers (`http.NewRequest` cannot fail on this method and URL). -/
def newMessagesRequest (c : Client) (jsonBody : GoString) : HTTPRequest :=
  { Method := "POST".toList
    URL := Sprintf "%s/messages".toList [.str baseURL]
    Header := [("Content-Type".toList, "application/json".toList),
               ("X-Api-Key".toList, c.apiKey),
               ("anthropic-version".toList, "2023-06-01".toList)]
    Body := jsonBody }

/-- The status the client accepts (`http.StatusOK`). -/
def StatusOK : Int := 200

/-- CreateMessage sends a request to the /v1/messages API. -/
def CreateMessage (env : Env) (c : Client) (req : MessageRequest) (w : World) :
    Except GoString MessageResponse × World :=
  let w := w.log (.createMessage req)
  match Marshal env.fmtFloat req with
  | none => (.error (Wrap (env.marshalError req) "marshal request".toList), w)
  | some jsonBody =>
    let httpReq := newMessagesRequest c jsonBody
    let w := w.log (.httpDo httpReq)
    match env.httpDo httpReq with
    | .error err => (.error (Wrap err "send request".toList), w)
    | .ok resp =>
      match resp.Body with
      | .error err => (.error (Wrap err "read response body".toList), w)
      | .ok body =>
        if resp.StatusCode ≠ StatusOK then
          (.error (Errorf "API request failed with status code %d: %s".toList
              [.int resp.StatusCode, .str body]), w)
        else
          match Unmarshal body with
          | none => (.error (Wrap (env.unmarshalError body) "unmarshaling response".toList), w)
          | some messageResp => (.ok messageResp, w)

/-! ## `main.go` -/

def promptTemplate : GoString :=
  "Generate a PlantUML diagram based on the following description. \n".toList ++
  "Only return the PlantUML code without any explanation or additional text.\n".toList ++
  "The code should start with @startuml and end with @enduml.\n".toList ++
  "\n".toList ++
  "Description: %s".toList

/-- The request `generatePlantUMLWithAnthropic` constructs for a description. -/
def messageRequestFor (input : GoString) : MessageRequest :=
  { Model := ModelClaude35Sonnet
    MaxTokens := 1000
    Messages := [{ Role := "user".toList, Content := Sprintf promptTemplate [.str input] }] }

def generatePlantUMLWithAnthropic (env : Env) (input : GoString) (w : World) :
    Except GoString GoString × World :=
  let w := w.log (.generatePlantUML input)
  let apiKey := env.getenv "ANTHROPIC_API_KEY".toList
  if apiKey = [] then
    (.error (Errorf "ANTHROPIC_API_KEY environment variable not set".toList []), w)
  else
    let client := New apiKey
    let req := messageRequestFor input
    match CreateMessage env client req w with
    | (.error err, w) => (.error (Errorf "failed to create message: %w".toList [.err err]), w)
    | (.ok resp, w) =>
      match resp.Content with
      | [] => (.error (Errorf "no content in response".toList []), w)
      | first :: _ => (.ok first.Text, w)

/-- Model of `prefixAndSuffix`: split a pattern at its last `*`; a pattern with a path
separator is refused. -/
def prefixAndSuffix (pattern : GoString) : Except GoString (GoString × GoString) :=
  if '/' ∈ pattern then .error "pattern contains path separator".toList
  else
    let tail := (pattern.reverse.takeWhile (· ≠ '*')).reverse
    if tail.length = pattern.length then .ok (pattern, [])
    else .ok (pattern.take (pattern.length - tail.length - 1), tail)

/-- Model of `joinPath`. -/
def joinPath (dir name : GoString) : GoString :=
  if dir ≠ [] ∧ dir.getLast? = some '/' then dir ++ name else dir ++ '/' :: name

/-- The name `os.CreateTemp` tries for a random draw (`nextRandom` prints the low 32 bits). -/
def tempName (pre suf : GoString) (draw : Nat) : GoString := pre ++ uitoa (draw % 2 ^ 32) ++ suf

/-- The retry loop of `os.CreateTemp`: try the name of each draw in turn, skipping names that
exist, giving up after 10000 collisions. -/
def createTempLoop (env : Env) (fs : Files) (pre suf : GoString) :
    Nat → Nat → Except GoString GoString
  | 0, _ => .error ("createtemp ".toList ++ pre ++ '*' :: suf ++ ": file exists".toList)
  | fuel + 1, i =>
    let name := tempName pre suf (env.rand i)
    if (fs name).isSome then createTempLoop env fs pre suf fuel (i + 1)
    else
      match env.openError name with
      | some err => .error err
      | none => .ok name

/-- Model of `os.CreateTemp(dir, pattern)`: the name of the new, empty file and the files
afterwards. -/
def CreateTemp (env : Env) (fs : Files) (dir pattern : GoString) :
    Except GoString (GoString × Files) :=
  match prefixAndSuffix pattern with
  | .error err => .error err
  | .ok (pre, suf) =>
    let dir := if dir = [] then env.tempDir else dir
    match createTempLoop env fs (joinPath dir pre) suf 10000 0 with
    | .error err => .error err
    | .ok name => .ok (name, fs.write name [])

def generateDiagram (env : Env) (plantUMLCode : GoString) (w : World) :
    Except GoString GoString × World :=
  let w := w.log (.generateDiagram plantUMLCode)
  let dir := "temp".toList
  match CreateTemp env w.files dir "diagram-*.puml".toList with
  | .error err => (.error err, w)
  | .ok (name, fs) =>
    -- the body runs, then the deferred `os.Remove(tmpFile.Name())`
    let (result, w) : Except GoString GoString × World :=
      match env.writeError with
      | some err => (.error err, { w with files := fs })
      | none =>
        let fs := fs.write name plantUMLCode
        let outputFile := ReplaceAll name ".puml".toList ".png".toList
        let argv := ["plantuml".toList, "-tpng".toList, name]
        let w := { w with files := fs }.log (.exec argv)
        match env.run fs argv with
        | (fs, some err) =>
          (.error (Errorf "failed to generate diagram: %v".toList [.err err]),
            { w with files := fs })
        | (fs, none) => (.ok ('/' :: outputFile), { w with files := fs })
    (result, { w with files := w.files.remove name })

/-- An incoming request: its method and the value of each form field. -/
structure Request where
  Method : GoString
  FormValue : GoString → GoString

/-- What the client of the handler gets: the status code and the body the handler wrote, or
no response at all when the handler panicked before writing anything (the server recovers
the panic and drops the connection); `cause` is the value of the panic. -/
inductive Response where
  | written (Status : Nat) (Body : GoString)
  | aborted (cause : GoString)
  deriving DecidableEq

/-- The status code of a response, if one was written. -/
def Response.Status : Response → Option Nat
  | .written status _ => some status
  | .aborted _ => none

def StatusBadRequest : Nat := 400
def StatusMethodNotAllowed : Nat := 405
def StatusInternalServerError : Nat := 500

/-- Model of `http.Error`: the status code and the message on a line of its own. -/
def httpError (error : GoString) (code : Nat) : Response :=
  .written code (error ++ ['\n'])

/-- The two statements `tmpl := template.Must(template.ParseFiles("templates/index.html"))`
and `tmpl.Execute(w, data)`: when the template file is missing or malformed `Must` panics
with the parse error and nothing is written; otherwise the template is executed into a
response that has written nothing yet, so the status is 200. -/
def executeTemplate (env : Env) (data : PageData) : Response :=
  match env.template with
  | .error err => .aborted err
  | .ok page => .written 200 (page data)

def handleGenerate (env : Env) (r : Request) (w : World) : Response × World :=
  if r.Method ≠ "POST".toList then
    (httpError "Method not allowed".toList StatusMethodNotAllowed, w)
  else
    let input := r.FormValue "input".toList
    if input = [] then (httpError "Input is required".toList StatusBadRequest, w)
    else
      match generatePlantUMLWithAnthropic env input w with
      | (.error err, w) => (httpError err StatusInternalServerError, w)
      | (.ok plantUMLCode, w) =>
        match generateDiagram env plantUMLCode w with
        | (.error err, w) => (httpError err StatusInternalServerError, w)
        | (.ok diagramPath, w) =>
          (executeTemplate env
            { Input := input, DiagramURL := diagramPath, PlantUMLCode := plantUMLCode }, w)

def handleIndex (env : Env) (r : Request) (w : World) : Response × World :=
  if r.Method = "GET".toList then (executeTemplate env {}, w)
  else if r.Method = "POST".toList then handleGenerate env r w
  else (httpError "Method not allowed".toList StatusMethodNotAllowed, w)

/-! ## Auxiliary definitions used to state the properties -/

/-- The text of the prompt before the placeholder. -/
def promptPrefix : GoString := promptTemplate.take (promptTemplate.length - 2)

/-- The requests handed to `CreateMessage` in a trace, oldest first. -/
def createMessageCalls : List Event → List MessageRequest
  | [] => []
  | .createMessage req :: rest => req :: createMessageCalls rest
  | _ :: rest => createMessageCalls rest

/-- The markup handed to `generateDiagram` in a trace, oldest first. -/
def generateDiagramCalls : List Event → List GoString
  | [] => []
  | .generateDiagram code :: rest => code :: generateDiagramCalls rest
  | _ :: rest => generateDiagramCalls rest

/-- The descriptions handed to `generatePlantUMLWithAnthropic` in a trace, oldest first. -/
def generatePlantUMLCalls : List Event → List GoString
  | [] => []
  | .generatePlantUML input :: rest => input :: generatePlantUMLCalls rest
  | _ :: rest => generatePlantUMLCalls rest

/-- Model of `filepath.Ext`: the suffix of the last path element from its final dot on. -/
def Ext (path : GoString) : GoString :=
  let tail := path.reverse.takeWhile fun c => c != '.' && c != '/'
  if (path.reverse.drop tail.length).head? = some '.' then '.' :: tail.reverse else []

/-- Replacing the extension of a path, in the words of the specification: the path without
`Ext path`, followed by the new extension. -/
def replaceExt (path ext : GoString) : GoString :=
  path.take (path.length - (Ext path).length) ++ ext

/-- The renderer keeps to its contract when it changes no file other than the image next to
its input: same directory, same base name, extension `.png`. -/
def RendererWritesOnlyImage (env : Env) : Prop :=
  ∀ (fs : Files) (name q : GoString), q ≠ replaceExt name ".png".toList →
    (env.run fs ["plantuml".toList, "-tpng".toList, name]).1 q = fs q

/-! ### Test doubles -/

def stubBody : GoString :=
  "\x7b\"content\":[\x7b\"type\":\"text\",\"text\":\"@startuml\\nA->B\\n@enduml\"\x7d]\x7d".toList

def stubResponse : MessageResponse :=
  { Content := [{ Typ := "text".toList, Text := "@startuml\nA->B\n@enduml".toList }] }

/-- A world double: the credential is set, the service answers 200 with `stubBody`, file
operations succeed and the renderer writes the image next to its input. -/
def stubEnv : Env :=
  { getenv := fun k => if k = "ANTHROPIC_API_KEY".toList then "test-key".toList else []
    httpDo := fun _ => .ok ⟨200, .ok stubBody⟩
    fmtFloat := fun _ => "1".toList
    marshalError := fun _ => "json: unsupported value".toList
    unmarshalError := fun _ => "unexpected end of JSON input".toList
    tempDir := "/tmp".toList
    rand := fun i => 1804289383 + i
    openError := fun _ => none
    writeError := none
    run := fun fs argv =>
      (fs.write (replaceExt (argv.getLastD []) ".png".toList) "PNG".toList, none)
    template := .ok fun d => d.DiagramURL ++ '\n' :: d.PlantUMLCode }

/-- The stub service answering with an empty content sequence. -/
def emptyContentEnv : Env :=
  { stubEnv with httpDo := fun _ => .ok ⟨200, .ok "\x7b\"content\":[]\x7d".toList⟩ }

/-- The stub service answering with the given status and body. -/
def statusEnv (status : Int) (body : GoString) : Env :=
  { stubEnv with httpDo := fun _ => .ok ⟨status, .ok body⟩ }

/-- The stub world with a renderer that exits with a non-zero status. -/
def failingRendererEnv : Env :=
  { stubEnv with run := fun fs _ => (fs, some "exit status 1".toList) }

/-- The stub world without a usable page template. -/
def missingTemplateEnv : Env :=
  { stubEnv with template := .error "open templates/index.html: no such file or directory".toList }

def emptyWorld : World := { files := fun _ => none, trace := [] }

/-! ## JSON texts, for stating what the decoder does

The concrete syntax of JSON values, whitespace included: every text the grammar admits is
the rendering of such a tree, and a tree remembers each byte of its text. -/

/-- One element of the body of a string literal. -/
inductive StrItem where
  | plain (c : Char)
  | escape (c : Char)
  | unicode (a b c d : Char)
  deriving DecidableEq

def StrItem.render : StrItem → GoString
  | .plain c => [c]
  | .escape c => ['\\', c]
  | .unicode a b c d => ['\\', 'u', a, b, c, d]

/-- A plain character is neither a quote, a backslash nor a control character; an escape
letter is one of `"\/bfnrt`; a `\u` escape has four hexadecimal digits. -/
def StrItem.valid : StrItem → Bool
  | .plain c => c != '"' && c != '\\' && decide (32 ≤ c.toNat)
  | .escape c =>
    c = 'b' || c = 'f' || c = 'n' || c = 'r' || c = 't' || c = '\\' || c = '/' || c = '"'
  | .unicode a b c d => isHex a && isHex b && isHex c && isHex d

/-- The characters between the quotes of a string literal. -/
def renderItems (items : List StrItem) : GoString := (items.map StrItem.render).flatten

/-- A number literal: sign, integer part (`lead` followed by `more`), optional fraction
digits, optional exponent (letter, optional sign, digits). -/
structure JNumber where
  neg : Bool
  lead : Char
  more : GoString
  frac : Option GoString
  exp : Option (Char × Option Char × GoString)
  deriving DecidableEq

/-- The fraction part of a number literal. -/
def renderFrac : Option GoString → GoString
  | none => []
  | some ds => '.' :: ds

/-- The exponent part of a number literal. -/
def renderExp : Option (Char × Option Char × GoString) → GoString
  | none => []
  | some (e, none, ds) => e :: ds
  | some (e, some sign, ds) => e :: sign :: ds

def JNumber.render (n : JNumber) : GoString :=
  (if n.neg then ['-'] else []) ++ n.lead :: (n.more ++ (renderFrac n.frac ++ renderExp n.exp))

/-- All characters are decimal digits. -/
def allDigits (ds : GoString) : Bool := ds.all isDigit

/-- All characters are JSON whitespace. -/
def allSpace (ws : GoString) : Bool := ws.all isSpace

/-- The grammar of number literals: no leading zero before further digits, at least one
digit after the point and in the exponent. -/
def validFrac : Option GoString → Bool
  | none => true
  | some ds => !ds.isEmpty && allDigits ds

def validExp : Option (Char × Option Char × GoString) → Bool
  | none => true
  | some (e, sign, ds) =>
    (e = 'e' || e = 'E') && !ds.isEmpty && allDigits ds
      && (match sign with
          | none => true
          | some c => c = '+' || c = '-')

def JNumber.valid (n : JNumber) : Bool :=
  isDigit n.lead && allDigits n.more && (n.lead != '0' || n.more.isEmpty)
    && validFrac n.frac && validExp n.exp

mutual
/-- A JSON value as written. Arrays and objects carry the whitespace between their tokens;
a non-empty array or object is its first element or member followed by the comma-separated
others. -/
inductive JValue where
  | null
  | bool (b : Bool)
  | number (n : JNumber)
  | string (items : List StrItem)
  | emptyArray (ws : GoString)
  | array (wsBefore : GoString) (first : JValue) (wsAfter : GoString) (others : JElems)
  | emptyObject (ws : GoString)
  | object (wsBefore : GoString) (key : List StrItem) (wsKey wsColon : GoString)
      (first : JValue) (wsAfter : GoString) (others : JMembers)
/-- The elements of an array after the first, each written after a comma. -/
inductive JElems where
  | nil
  | cons (wsBefore : GoString) (v : JValue) (wsAfter : GoString) (tail : JElems)
/-- The members of an object after the first, each written after a comma. -/
inductive JMembers where
  | nil
  | cons (wsBefore : GoString) (key : List StrItem) (wsKey wsColon : GoString)
      (v : JValue) (wsAfter : GoString) (tail : JMembers)
end

mutual
/-- The text of a value. -/
def JValue.render : JValue → GoString
  | .null => "null".toList
  | .bool true => "true".toList
  | .bool false => "false".toList
  | .number n => n.render
  | .string items => '"' :: (renderItems items ++ ['"'])
  | .emptyArray ws => '[' :: (ws ++ [']'])
  | .array wsBefore first wsAfter others =>
    '[' :: (wsBefore ++ first.render ++ wsAfter ++ others.render ++ [']'])
  | .emptyObject ws => '{' :: (ws ++ ['}'])
  | .object wsBefore key wsKey wsColon first wsAfter others =>
    '{' :: (wsBefore ++ '"' :: (renderItems key ++ '"' :: (wsKey ++ ':' :: (wsColon
      ++ first.render ++ wsAfter ++ others.render ++ ['}']))))
def JElems.render : JElems → GoString
  | .nil => []
  | .cons wsBefore v wsAfter tail => ',' :: (wsBefore ++ v.render ++ wsAfter ++ tail.render)
def JMembers.render : JMembers → GoString
  | .nil => []
  | .cons wsBefore key wsKey wsColon v wsAfter tail =>
    ',' :: (wsBefore ++ '"' :: (renderItems key ++ '"' :: (wsKey ++ ':' :: (wsColon
      ++ v.render ++ wsAfter ++ tail.render))))
end

mutual
/-- The text obeys the grammar: literals are valid and whitespace is whitespace. -/
def JValue.valid : JValue → Bool
  | .null => true
  | .bool _ => true
  | .number n => n.valid
  | .string items => items.all StrItem.valid
  | .emptyArray ws => allSpace ws
  | .array wsBefore first wsAfter others =>
    allSpace wsBefore && first.valid && allSpace wsAfter && others.valid
  | .emptyObject ws => allSpace ws
  | .object wsBefore key wsKey wsColon first wsAfter others =>
    allSpace wsBefore && key.all StrItem.valid && allSpace wsKey && allSpace wsColon
      && first.valid && allSpace wsAfter && others.valid
def JElems.valid : JElems → Bool
  | .nil => true
  | .cons wsBefore v wsAfter tail =>
    allSpace wsBefore && v.valid && allSpace wsAfter && tail.valid
def JMembers.valid : JMembers → Bool
  | .nil => true
  | .cons wsBefore key wsKey wsColon v wsAfter tail =>
    allSpace wsBefore && key.all StrItem.valid && allSpace wsKey && allSpace wsColon
      && v.valid && allSpace wsAfter && tail.valid
end

mutual
/-- How many arrays and objects are open at the deepest point of the value. -/
def JValue.depth : JValue → Nat
  | .null => 0
  | .bool _ => 0
  | .number _ => 0
  | .string _ => 0
  | .emptyArray _ => 1
  | .array _ first _ others => max first.depth others.depth + 1
  | .emptyObject _ => 1
  | .object _ _ _ _ first _ others => max first.depth others.depth + 1
def JElems.depth : JElems → Nat
  | .nil => 0
  | .cons _ v _ tail => max v.depth tail.depth
def JMembers.depth : JMembers → Nat
  | .nil => 0
  | .cons _ _ _ _ v _ tail => max v.depth tail.depth
end

/-- A character that cannot continue a number literal. -/
def endsNumber (c : Char) : Bool := !isDigit c && c != '.' && c != 'e' && c != 'E'

/-- The text goes on with a character that cannot continue a number literal. -/
def EndsNumberHead (rest : GoString) : Prop := ∃ c cs, rest = c :: cs ∧ endsNumber c = true

/-! ## Response bodies as written

What a response body may look like on the wire: the members of the response object in any
order and under any spelling of their keys, members the contract does not know among them,
any whitespace between the tokens, every string in any spelling the grammar admits. -/

/-- Value of a hexadecimal digit. -/
def hexNat (c : Char) : Nat :=
  if c.toNat ≤ '9'.toNat then c.toNat - '0'.toNat
  else if c.toNat ≤ 'F'.toNat then c.toNat - 'A'.toNat + 10
  else c.toNat - 'a'.toNat + 10

/-- The UTF-16 code unit a `\u` escape names. -/
def codeUnit (a b c d : Char) : Nat :=
  ((hexNat a * 16 + hexNat b) * 16 + hexNat c) * 16 + hexNat d

/-- The character a backslash followed by the given letter stands for. -/
def escapeText (c : Char) : Char :=
  if c = 'b' then Char.ofNat 8
  else if c = 'f' then Char.ofNat 12
  else if c = 'n' then Char.ofNat 10
  else if c = 'r' then Char.ofNat 13
  else if c = 't' then Char.ofNat 9
  else c

def isHighSurrogate (u : Nat) : Bool := decide (0xD800 ≤ u) && decide (u < 0xDC00)

def isLowSurrogate (u : Nat) : Bool := decide (0xDC00 ≤ u) && decide (u < 0xE000)

/-- The character a `\u` escape stands for when it is not half of a surrogate pair: the
character with that code, or U+FFFD for a surrogate without its partner. -/
def unitText (u : Nat) : Char :=
  if isHighSurrogate u || isLowSurrogate u then Char.ofNat 0xFFFD else Char.ofNat u

/-- The character beyond the basic plane a surrogate pair encodes. -/
def pairText (high low : Nat) : Char :=
  Char.ofNat (0x10000 + (high - 0xD800) * 0x400 + (low - 0xDC00))

/-- The text a string literal stands for: a plain character stands for itself, an escape for
its character, a `\u` escape for the character with that code; a high surrogate followed at
once by a low one stands for the character the pair encodes. -/
def stringText : List StrItem → GoString
  | [] => []
  | .plain c :: rest => c :: stringText rest
  | .escape c :: rest => escapeText c :: stringText rest
  | .unicode a b c d :: .unicode a2 b2 c2 d2 :: rest =>
    if isHighSurrogate (codeUnit a b c d) && isLowSurrogate (codeUnit a2 b2 c2 d2) then
      pairText (codeUnit a b c d) (codeUnit a2 b2 c2 d2) :: stringText rest
    else unitText (codeUnit a b c d) :: stringText (.unicode a2 b2 c2 d2 :: rest)
  | .unicode a b c d :: rest => unitText (codeUnit a b c d) :: stringText rest

/-- The text of what follows a high surrogate in a literal: a low surrogate completes the
pair, anything else leaves the high surrogate without its partner. -/
def textAfterHigh (high : Nat) : List StrItem → GoString
  | .unicode a b c d :: rest =>
    if isLowSurrogate (codeUnit a b c d) then
      pairText high (codeUnit a b c d) :: stringText rest
    else Char.ofNat 0xFFFD :: stringText (.unicode a b c d :: rest)
  | items => Char.ofNat 0xFFFD :: stringText items

/-- A string literal as written, quotes included. -/
def renderString (items : List StrItem) : GoString := '"' :: (renderItems items ++ ['"'])

/-- Value of a run of decimal digits. -/
def digitsValue (ds : GoString) : Nat :=
  ds.foldl (fun acc c => acc * 10 + (c.toNat - '0'.toNat)) 0

/-- The integer a number literal without fraction and exponent stands for. -/
def JNumber.intValue (n : JNumber) : Int :=
  if n.neg then -(digitsValue (n.lead :: n.more) : Int) else (digitsValue (n.lead :: n.more) : Int)

/-- The literal is an integer that fits a Go `int`. -/
def JNumber.isInt (n : JNumber) : Bool :=
  n.valid && n.frac.isNone && n.exp.isNone
    && decide (-(2 : Int) ^ 63 ≤ n.intValue) && decide (n.intValue < (2 : Int) ^ 63)

/-- The whitespace around the key and around the value of an object member. -/
structure Gaps where
  beforeKey : GoString := []
  afterKey : GoString := []
  beforeValue : GoString := []
  afterValue : GoString := []

def Gaps.valid (g : Gaps) : Bool :=
  allSpace g.beforeKey && allSpace g.afterKey && allSpace g.beforeValue && allSpace g.afterValue

/-- A member of an object as written: its whitespace, the spelling of its key, and the
field it carries. -/
structure Entry (φ : Type) where
  gaps : Gaps := {}
  key : List StrItem
  field : φ

/-- The text of a member whose value has the given text. -/
def Entry.render (text : φ → GoString) (e : Entry φ) : GoString :=
  e.gaps.beforeKey ++ renderString e.key ++ e.gaps.afterKey
    ++ ':' :: (e.gaps.beforeValue ++ text e.field ++ e.gaps.afterValue)

/-- An object with the given member texts; `inner` is what an object without members has
between its braces. -/
def renderObject (inner : GoString) (members : List GoString) : GoString :=
  '{' :: ((if members.isEmpty then inner else commaJoin members) ++ ['}'])

/-- An array with the given element texts; `inner` is what an array without elements has
between its brackets. -/
def renderArray (inner : GoString) (elems : List GoString) : GoString :=
  '[' :: ((if elems.isEmpty then inner else commaJoin elems) ++ [']'])

/-- The text starts with a character that is not whitespace. -/
def NonSpaceHead (t : GoString) : Prop := ∃ c cs, t = c :: cs ∧ isSpace c = false

/-- The whitespace, the key and the grammar of a member are in order: `keyOK` tells whether
the text of the key fits the field, `fieldOK` whether the value is well formed. -/
def Entry.valid (keyOK : φ → GoString → Bool) (fieldOK : φ → Bool) (e : Entry φ) : Bool :=
  e.gaps.valid && e.key.all StrItem.valid && keyOK e.field (stringText e.key)
    && fieldOK e.field

/-! ### Content blocks -/

/-- What a member of a content block carries: one of the fields of `Content`, or any JSON
value under a key `Content` does not know. -/
inductive BlockField where
  | typ (s : List StrItem)
  | text (s : List StrItem)
  | id (s : List StrItem)
  | name (s : List StrItem)
  | input (v : JValue)
  | other (v : JValue)

/-- The key names no field of `Content`, exactly or after folding. -/
def unknownBlockKey (key : GoString) : Bool :=
  !keyMatches key "type".toList && !keyMatches key "text".toList
    && !keyMatches key "id".toList && !keyMatches key "name".toList
    && !keyMatches key "input".toList

/-- The text of the key fits the field. -/
def BlockField.keyOK : BlockField → GoString → Bool
  | .typ _, key => keyMatches key "type".toList
  | .text _, key => keyMatches key "text".toList
  | .id _, key => keyMatches key "id".toList
  | .name _, key => keyMatches key "name".toList
  | .input _, key => keyMatches key "input".toList
  | .other _, key => unknownBlockKey key

/-- The text of the member's value. -/
def BlockField.render : BlockField → GoString
  | .typ s => renderString s
  | .text s => renderString s
  | .id s => renderString s
  | .name s => renderString s
  | .input v => v.render
  | .other v => v.render

/-- The value obeys the grammar and, sitting three composites deep in the body, stays within
the scanner's nesting limit. -/
def BlockField.valid : BlockField → Bool
  | .typ s => s.all StrItem.valid
  | .text s => s.all StrItem.valid
  | .id s => s.all StrItem.valid
  | .name s => s.all StrItem.valid
  | .input v => v.valid && decide (v.depth + 3 ≤ maxNestingDepth)
  | .other v => v.valid && decide (v.depth + 3 ≤ maxNestingDepth)

/-- What the member says about the block: a string field takes the text of the literal,
`Input` the bytes of the value as written; a member under an unknown key says nothing. -/
def BlockField.assign (c : Content) : BlockField → Content
  | .typ s => { c with Typ := stringText s }
  | .text s => { c with Text := stringText s }
  | .id s => { c with ID := stringText s }
  | .name s => { c with Name := stringText s }
  | .input v => { c with Input := some v.render }
  | .other _ => c

/-- A content block as written: an object, with whitespace before and after it inside the
`content` array. -/
structure Block where
  before : GoString := []
  inner : GoString := []
  members : List (Entry BlockField)
  after : GoString := []

/-- The text of the block, without the whitespace around it. -/
def Block.object (b : Block) : GoString :=
  renderObject b.inner (b.members.map (Entry.render BlockField.render))

def Block.render (b : Block) : GoString := b.before ++ b.object ++ b.after

/-- The `Content` a block stands for: what its members say, in order, about the zero
value. -/
def Block.content (b : Block) : Content :=
  b.members.foldl (fun c e => BlockField.assign c e.field) {}

def Block.wellFormed (b : Block) : Bool :=
  allSpace b.before && allSpace b.inner && allSpace b.after
    && b.members.all (Entry.valid BlockField.keyOK BlockField.valid)

/-! ### The usage object -/

/-- What a member of the `usage` object carries. -/
inductive UsageField where
  | inputTokens (n : JNumber)
  | outputTokens (n : JNumber)
  | other (v : JValue)

/-- The key names no field of `Usage`, exactly or after folding. -/
def unknownUsageKey (key : GoString) : Bool :=
  !keyMatches key "input_tokens".toList && !keyMatches key "output_tokens".toList

def UsageField.keyOK : UsageField → GoString → Bool
  | .inputTokens _, key => keyMatches key "input_tokens".toList
  | .outputTokens _, key => keyMatches key "output_tokens".toList
  | .other _, key => unknownUsageKey key

def UsageField.render : UsageField → GoString
  | .inputTokens n => n.render
  | .outputTokens n => n.render
  | .other v => v.render

def UsageField.valid : UsageField → Bool
  | .inputTokens n => n.isInt
  | .outputTokens n => n.isInt
  | .other v => v.valid && decide (v.depth + 2 ≤ maxNestingDepth)

def UsageField.assign (u : Usage) : UsageField → Usage
  | .inputTokens n => { u with InputTokens := n.intValue }
  | .outputTokens n => { u with OutputTokens := n.intValue }
  | .other _ => u

/-! ### The response object -/

/-- What a member of the response object carries: one of the fields of the contract, or any
JSON value under a key the contract does not know. -/
inductive Field where
  | id (s : List StrItem)
  | typ (s : List StrItem)
  | role (s : List StrItem)
  | content (inner : GoString) (blocks : List Block)
  | model (s : List StrItem)
  | stopReason (s : List StrItem)
  | usage (inner : GoString) (members : List (Entry UsageField))
  | other (v : JValue)

/-- The key names no field of `MessageResponse`, exactly or after folding. -/
def unknownKey (key : GoString) : Bool :=
  !keyMatches key "id".toList && !keyMatches key "type".toList
    && !keyMatches key "role".toList && !keyMatches key "content".toList
    && !keyMatches key "model".toList && !keyMatches key "stop_reason".toList
    && !keyMatches key "usage".toList

def Field.keyOK : Field → GoString → Bool
  | .id _, key => keyMatches key "id".toList
  | .typ _, key => keyMatches key "type".toList
  | .role _, key => keyMatches key "role".toList
  | .content _ _, key => keyMatches key "content".toList
  | .model _, key => keyMatches key "model".toList
  | .stopReason _, key => keyMatches key "stop_reason".toList
  | .usage _ _, key => keyMatches key "usage".toList
  | .other _, key => unknownKey key

/-- The text of the member's value. -/
def Field.render : Field → GoString
  | .id s => renderString s
  | .typ s => renderString s
  | .role s => renderString s
  | .content inner blocks => renderArray inner (blocks.map Block.render)
  | .model s => renderString s
  | .stopReason s => renderString s
  | .usage inner members => renderObject inner (members.map (Entry.render UsageField.render))
  | .other v => v.render

def Field.valid : Field → Bool
  | .id s => s.all StrItem.valid
  | .typ s => s.all StrItem.valid
  | .role s => s.all StrItem.valid
  | .content inner blocks => allSpace inner && blocks.all Block.wellFormed
  | .model s => s.all StrItem.valid
  | .stopReason s => s.all StrItem.valid
  | .usage inner members =>
    allSpace inner && members.all (Entry.valid UsageField.keyOK UsageField.valid)
  | .other v => v.valid && decide (v.depth + 1 ≤ maxNestingDepth)

/-- What the member says about the response: a string field takes the text of the literal,
`Content` the blocks of the array in order, the counters of `Usage` what the members of the
object say; a member under an unknown key says nothing. -/
def Field.assign (r : MessageResponse) : Field → MessageResponse
  | .id s => { r with ID := stringText s }
  | .typ s => { r with Typ := stringText s }
  | .role s => { r with Role := stringText s }
  | .content _ blocks => { r with Content := blocks.map Block.content }
  | .model s => { r with Model := stringText s }
  | .stopReason s => { r with StopReason := stringText s }
  | .usage _ members =>
    { r with Usage := members.foldl (fun u e => UsageField.assign u e.field) r.Usage }
  | .other _ => r

/-- The state of the decoder after a member that leaves the backing array of `Content`
as it is. -/
def Decoding.assign (d : Decoding) (f : Field) : Decoding :=
  { d with resp := Field.assign d.resp f }

def Field.isContent : Field → Bool
  | .content _ _ => true
  | _ => false

/-- A response body as written: whitespace, the response object, whitespace. -/
structure Body where
  before : GoString := []
  inner : GoString := []
  members : List (Entry Field)
  after : GoString := []

/-- The bytes of the body. -/
def Body.render (b : Body) : GoString :=
  b.before ++ renderObject b.inner (b.members.map (Entry.render Field.render)) ++ b.after

/-- The blocks a member carries: those of its array for a `content` member, none for any
other member. -/
def Field.blocks : Field → List Block
  | .content _ blocks => blocks
  | _ => []

/-- The blocks of the body's `content` member, none if it has no such member. -/
def Body.blocks (b : Body) : List Block :=
  (b.members.map fun e => e.field.blocks).flatten

/-- A body is well formed when it obeys the JSON grammar within the scanner's nesting limit,
every member under the key of a field of the contract has a value of that field's kind
(strings for the string fields, integers that fit a Go `int` for the counters, an array of
objects for `content`), and `content` is not given twice. -/
def Body.wellFormed (b : Body) : Bool :=
  allSpace b.before && allSpace b.inner && allSpace b.after
    && b.members.all (Entry.valid Field.keyOK Field.valid)
    && decide ((b.members.filter fun e => e.field.isContent).length ≤ 1)

/-- What a body says about the response: its members' statements, in order, about the zero
value. -/
def Body.response (b : Body) : MessageResponse :=
  b.members.foldl (fun r e => Field.assign r e.field) {}

/-! ### Sample bodies -/

/-- The literal that spells every character of a text plainly. -/
def plainItems (s : GoString) : List StrItem := s.map StrItem.plain

/-- A member written without whitespace under the plain spelling of its key. -/
def Entry.plain (key : GoString) (field : φ) : Entry φ :=
  { key := plainItems key, field := field }

/-- The body `{"content":[{"type":"text","text":"@startuml\nA->B\n@enduml"}]}` the stub service
answers with: the line breaks are escapes, the `>` is written as it is. -/
def fixtureBody : Body :=
  { members :=
      [.plain "content".toList
        (.content []
          [{ members :=
              [.plain "type".toList (.typ (plainItems "text".toList)),
               .plain "text".toList
                 (.text (plainItems "@startuml".toList ++ .escape 'n' ::
                   (plainItems "A->B".toList ++ .escape 'n' :: plainItems "@enduml".toList)))] }])] }

/-- The input of the sample tool invocation: `{ "a" : [1, -2.5e+3, "xé"] , "b":null}`. -/
def sampleInput : JValue :=
  .object [' '] [.plain 'a'] [' '] [' ']
    (.array [] (.number ⟨false, '1', [], none, none⟩) []
      (.cons [' '] (.number ⟨true, '2', [], some ['5'], some ('e', some '+', ['3'])⟩) []
        (.cons [' '] (.string [.plain 'x', .unicode '0' '0' 'e' '9']) [] .nil)))
    [' ']
    (.cons [] [.plain 'b'] [] [] .null [] .nil)

/-- A sample response body that uses the liberties of the grammar: members out of the order
of the contract, whitespace between tokens, keys in another case or spelled with an escape,
members the contract does not know, a character beyond the basic plane written as a
surrogate pair, and a tool invocation next to the text block. -/
def sampleBody : Body :=
  { before := [' ']
    members :=
      [{ gaps := { beforeKey := ['\n', ' '], afterKey := [' '], beforeValue := [' '] }
         key := plainItems "usage".toList
         field := .usage [' ']
           [{ gaps := { beforeKey := [' '], afterValue := [' '] }
              key := plainItems "output_tokens".toList
              field := .outputTokens ⟨false, '3', ['4'], none, none⟩ },
            .plain "cache_creation".toList
              (.other (.array [] (.number ⟨false, '0', [], some ['5'], none⟩) [] .nil)),
            { gaps := { beforeKey := [' '], beforeValue := ['\t'], afterValue := [' '] }
              key := plainItems "Input_Tokens".toList
              field := .inputTokens ⟨false, '1', ['2'], none, none⟩ }] },
       { gaps := { beforeKey := ['\n', ' '], beforeValue := [' '] }
         key := plainItems "stop_sequence".toList
         field := .other .null },
       { gaps := { beforeKey := ['\n', ' '] }
         key := plainItems "MODEL".toList
         field := .model (plainItems "claude-3-5-sonnet-20241022".toList) },
       { gaps := { beforeKey := ['\n', ' '], beforeValue := [' '], afterValue := ['\r', '\n'] }
         key := plainItems "content".toList
         field := .content []
           [{ before := [' ']
              members :=
                [.plain "type".toList (.typ (plainItems "text".toList)),
                 .plain "citations".toList (.other .null),
                 { gaps := { beforeKey := [' '], afterKey := [' '], beforeValue := [' '] }
                   key := plainItems "text".toList
                   field := .text (plainItems "@startuml".toList ++ .escape 'n' ::
                     (plainItems "A->B ".toList ++ .unicode 'd' '8' '3' 'd' ::
                       .unicode 'D' 'E' '0' '0' :: .escape 'n' ::
                         plainItems "@enduml".toList)) }]
              after := [' '] },
            { before := ['\n', ' ', ' ']
              inner := []
              members :=
                [{ gaps := { beforeKey := [' '], afterKey := [' '], beforeValue := [' '] }
                   key := plainItems "input".toList
                   field := .input sampleInput },
                 .plain "name".toList (.name (plainItems "render".toList)),
                 .plain "id".toList (.id (plainItems "toolu_01".toList)),
                 { gaps := { afterValue := [' '] }
                   key := plainItems "type".toList
                   field := .typ (plainItems "tool".toList ++ .unicode '0' '0' '5' 'f' ::
                     plainItems "use".toList) }]
              after := [' '] }] },
       { key := [.plain 'i', .unicode '0' '0' '6' '4']
         field := .id (plainItems "msg_01".toList) },
       .plain "role".toList (.role (plainItems "assistant".toList)),
       .plain "type".toList (.typ (plainItems "message".toList)),
       { gaps := { afterValue := ['\n'] }
         key := plainItems "stop_reason".toList
         field := .stopReason (plainItems "tool_use".toList) }]
    after := ['\n'] }

/-! ## Lemmas and theorems -/

set_option maxRecDepth 100000

theorem sprintfWith_cons_ne (wrap : Bool) (c : Char) (hc : c ≠ '%') (s : GoString)
    (args : List Arg) : sprintfWith wrap (c :: s) args = c :: sprintfWith wrap s args := by
  cases s with
  | nil => simp [sprintfWith, hc]
  | cons v rest => simp [sprintfWith, hc]

theorem sprintfWith_front (wrap : Bool) (pre : GoString) (hpre : ∀ c ∈ pre, c ≠ '%')
    (s : GoString) (args : List Arg) :
    sprintfWith wrap (pre ++ s) args = pre ++ sprintfWith wrap s args := by
  induction pre with
  | nil => rfl
  | cons c pre ih =>
    have hc : c ≠ '%' := hpre c (List.mem_cons_self _ _)
    have ih' := ih (fun x hx => hpre x (List.mem_cons_of_mem _ hx))
    simp only [List.cons_append]
    rw [sprintfWith_cons_ne wrap c hc, ih']

theorem sprintfWith_verb (wrap : Bool) (v : Char) (hv : v ≠ '%') (rest : GoString) (a : Arg)
    (as : List Arg) :
    sprintfWith wrap ('%' :: v :: rest) (a :: as)
      = formatVerb wrap v a ++ sprintfWith wrap rest as := by
  simp [sprintfWith, hv]

theorem promptTemplate_split : promptTemplate = promptPrefix ++ ['%', 's'] := by decide

theorem promptPrefix_plain : ∀ c ∈ promptPrefix, c ≠ '%' := by decide

theorem sprintf_promptTemplate (d : GoString) :
    Sprintf promptTemplate [.str d] = promptPrefix ++ d := by
  rw [promptTemplate_split]
  unfold Sprintf
  rw [sprintfWith_front false promptPrefix promptPrefix_plain,
    sprintfWith_verb false 's' (by decide)]
  simp [formatVerb, sprintfWith, extraArgs]

theorem createMessageCalls_append (a b : List Event) :
    createMessageCalls (a ++ b) = createMessageCalls a ++ createMessageCalls b := by
  induction a with
  | nil => rfl
  | cons e a ih => cases e <;> simp [createMessageCalls, ih]

theorem errorf_status (s : Int) (b : GoString) :
    Errorf "API request failed with status code %d: %s".toList [.int s, .str b]
      = "API request failed with status code ".toList ++ itoa s ++ ": ".toList ++ b := by
  have hsplit : "API request failed with status code %d: %s".toList
      = "API request failed with status code ".toList ++ '%' :: 'd' :: (": ".toList ++ ['%', 's']) := by
    decide
  rw [hsplit]
  unfold Errorf
  rw [sprintfWith_front true _ (by decide), sprintfWith_verb true 'd' (by decide),
    sprintfWith_front true _ (by decide), sprintfWith_verb true 's' (by decide)]
  simp [formatVerb, sprintfWith, extraArgs]

theorem CreateMessage_trace (env : Env) (c : Client) (req : MessageRequest) (w : World) :
    createMessageCalls (CreateMessage env c req w).2.trace = createMessageCalls w.trace ++ [req]
      ∧ (CreateMessage env c req w).2.files = w.files := by
  unfold CreateMessage
  cases hm : Marshal env.fmtFloat req with
  | none => simp [World.log, createMessageCalls_append, createMessageCalls]
  | some jsonBody =>
    simp only []
    cases hdo : env.httpDo (newMessagesRequest c jsonBody) with
    | error err => simp [World.log, createMessageCalls_append, createMessageCalls]
    | ok resp =>
      simp only []
      cases hb : resp.Body with
      | error err => simp [World.log, createMessageCalls_append, createMessageCalls]
      | ok body =>
        simp only []
        split
        · simp [World.log, createMessageCalls_append, createMessageCalls]
        · cases hu : Unmarshal body <;>
            simp [World.log, createMessageCalls_append, createMessageCalls]

theorem CreateMessage_status_ne_ok (env : Env) (c : Client) (req : MessageRequest) (w : World)
    (jsonBody : GoString) (s : Int) (b : GoString)
    (hm : Marshal env.fmtFloat req = some jsonBody)
    (hdo : env.httpDo (newMessagesRequest c jsonBody) = .ok ⟨s, .ok b⟩)
    (hs : s ≠ 200) :
    (CreateMessage env c req w).1
        = .error ("API request failed with status code ".toList ++ itoa s ++ ": ".toList ++ b) := by
  have hne : s ≠ StatusOK := hs
  unfold CreateMessage
  simp only [hm, hdo, hne, ne_eq, not_false_eq_true, if_true, errorf_status]

theorem errorf_plain (fmt : GoString) (h : ∀ c ∈ fmt, c ≠ '%') : Errorf fmt [] = fmt := by
  have := sprintfWith_front true fmt h [] []
  simpa [Errorf, sprintfWith, extraArgs] using this

theorem generate_trace (env : Env) (d : GoString) (w : World)
    (hkey : env.getenv "ANTHROPIC_API_KEY".toList ≠ []) :
    createMessageCalls (generatePlantUMLWithAnthropic env d w).2.trace
        = createMessageCalls w.trace ++ [messageRequestFor d]
      ∧ (messageRequestFor d).Messages
        = [{ Role := "user".toList, Content := promptPrefix ++ d }]
      ∧ d <:+: promptPrefix ++ d := by
  refine ⟨?_, ?_, ⟨promptPrefix, [], by simp⟩⟩
  · unfold generatePlantUMLWithAnthropic
    simp only [hkey, if_false]
    have h := CreateMessage_trace env (New (env.getenv "ANTHROPIC_API_KEY".toList))
      (messageRequestFor d) (w.log (.generatePlantUML d))
    rcases hcm : CreateMessage env (New (env.getenv "ANTHROPIC_API_KEY".toList))
      (messageRequestFor d) (w.log (.generatePlantUML d)) with ⟨r, w1⟩
    rw [hcm] at h
    have h1 : createMessageCalls w1.trace = createMessageCalls w.trace ++ [messageRequestFor d] := by
      rw [h.1]; simp [World.log, createMessageCalls_append, createMessageCalls]
    cases r with
    | error e => simpa using h1
    | ok resp =>
      simp only []
      split <;> simpa using h1
  · simp [messageRequestFor, sprintf_promptTemplate]


theorem CreateMessage_ok (env : Env) (c : Client) (req : MessageRequest) (w : World)
    (jsonBody body : GoString) (resp : MessageResponse)
    (hm : Marshal env.fmtFloat req = some jsonBody)
    (hdo : env.httpDo (newMessagesRequest c jsonBody) = .ok ⟨200, .ok body⟩)
    (hparse : Unmarshal body = some resp) :
    (CreateMessage env c req w).1 = .ok resp := by
  unfold CreateMessage
  simp [hm, hdo, hparse, StatusOK]


/-! ### The scratch file name and the render pipeline -/

theorem digitChar_isDigit (d : Nat) : isDigit (digitChar d) = true := by
  unfold digitChar
  split <;> decide

theorem uitoaLoop_digits : ∀ (fuel val : Nat) (buf : GoString),
    (∀ c ∈ buf, isDigit c = true) → ∀ c ∈ uitoaLoop fuel val buf, isDigit c = true := by
  intro fuel
  induction fuel with
  | zero =>
    intro val buf hbuf c hc
    simp only [uitoaLoop, List.mem_cons] at hc
    rcases hc with rfl | hc
    · exact digitChar_isDigit _
    · exact hbuf c hc
  | succ fuel ih =>
    intro val buf hbuf c hc
    simp only [uitoaLoop] at hc
    split at hc
    · refine ih _ _ ?_ c hc
      intro x hx
      rcases List.mem_cons.mp hx with rfl | hx
      · exact digitChar_isDigit _
      · exact hbuf x hx
    · rcases List.mem_cons.mp hc with rfl | hc
      · exact digitChar_isDigit _
      · exact hbuf c hc

theorem uitoaLoop_ne_nil : ∀ (fuel val : Nat) (buf : GoString), uitoaLoop fuel val buf ≠ [] := by
  intro fuel
  induction fuel with
  | zero => intro val buf; simp [uitoaLoop]
  | succ fuel ih =>
    intro val buf
    simp only [uitoaLoop]
    split
    · exact ih _ _
    · simp

theorem uitoa_digits (n : Nat) : ∀ c ∈ uitoa n, isDigit c = true := by
  unfold uitoa
  split
  · intro c hc
    rw [List.mem_singleton.mp hc]
    decide
  · exact uitoaLoop_digits n n [] (by simp)

theorem uitoa_ne_nil (n : Nat) : uitoa n ≠ [] := by
  unfold uitoa
  split
  · simp
  · exact uitoaLoop_ne_nil n n []

theorem isDigit_ne_dot {c : Char} (h : isDigit c = true) : c ≠ '.' := by
  rintro rfl
  revert h
  decide

theorem replaceLoop_front (pre : GoString) (hpre : ∀ c ∈ pre, c ≠ '.') (s : GoString) :
    replaceLoop ".puml".toList ".png".toList 0 (pre ++ s)
      = pre ++ replaceLoop ".puml".toList ".png".toList 0 s := by
  induction pre with
  | nil => rfl
  | cons c pre ih =>
    have hc : c ≠ '.' := hpre c (List.mem_cons_self _ _)
    have hc' : ('.' == c) = false := by
      simp only [beq_eq_false_iff_ne, ne_eq]
      exact fun h => hc h.symm
    have ih' := ih (fun x hx => hpre x (List.mem_cons_of_mem _ hx))
    have hnp : List.isPrefixOf ".puml".toList (c :: (pre ++ s)) = false := by
      show List.isPrefixOf ('.' :: "puml".toList) (c :: (pre ++ s)) = false
      simp [List.isPrefixOf, hc']
    simp only [List.cons_append, replaceLoop, List.append_eq, hnp, ih', Bool.false_eq_true, if_false]

theorem ReplaceAll_scratch (ds : GoString) (hds : ∀ c ∈ ds, isDigit c = true) :
    ReplaceAll ("temp/diagram-".toList ++ ds ++ ".puml".toList) ".puml".toList ".png".toList
      = "temp/diagram-".toList ++ ds ++ ".png".toList := by
  unfold ReplaceAll
  rw [if_neg (by decide), if_neg (by decide)]
  rw [replaceLoop_front ("temp/diagram-".toList ++ ds)]
  · congr 1
  · intro c hc
    rcases List.mem_append.mp hc with h | h
    · have hpre : ∀ x ∈ "temp/diagram-".toList, x ≠ '.' := by decide
      exact hpre c h
    · exact isDigit_ne_dot (hds c h)

theorem Ext_scratch (ds : GoString) :
    Ext ("temp/diagram-".toList ++ ds ++ ".puml".toList) = ".puml".toList := by
  unfold Ext
  have hrev : ("temp/diagram-".toList ++ ds ++ ".puml".toList).reverse
      = 'l' :: 'm' :: 'u' :: 'p' :: '.' :: (ds.reverse ++ "temp/diagram-".toList.reverse) := by
    simp [List.reverse_append]
  rw [hrev]
  simp [List.takeWhile]

theorem replaceExt_scratch (ds : GoString) :
    replaceExt ("temp/diagram-".toList ++ ds ++ ".puml".toList) ".png".toList
      = "temp/diagram-".toList ++ ds ++ ".png".toList := by
  unfold replaceExt
  rw [Ext_scratch ds]
  congr 1
  have hlen : ("temp/diagram-".toList ++ ds ++ ".puml".toList).length - ".puml".toList.length
      = ("temp/diagram-".toList ++ ds).length := by
    simp
  rw [hlen, List.take_left']
  rfl

theorem createTempLoop_ok (env : Env) (fs : Files) (pre suf : GoString) :
    ∀ (fuel i : Nat) (name : GoString), createTempLoop env fs pre suf fuel i = .ok name →
      (∃ j, name = tempName pre suf (env.rand j)) ∧ fs name = none := by
  intro fuel
  induction fuel with
  | zero => intro i name h; simp [createTempLoop] at h
  | succ fuel ih =>
    intro i name h
    simp only [createTempLoop] at h
    split at h
    · exact ih _ _ h
    · rename_i hfree
      split at h
      · cases h
      · injection h with h
        subst h
        refine ⟨⟨i, rfl⟩, ?_⟩
        simpa using hfree

theorem CreateTemp_scratch (env : Env) (fs fs1 : Files) (name : GoString)
    (h : CreateTemp env fs "temp".toList "diagram-*.puml".toList = .ok (name, fs1)) :
    (∃ n, name = "temp/diagram-".toList ++ uitoa n ++ ".puml".toList)
      ∧ fs name = none ∧ fs1 = fs.write name [] := by
  unfold CreateTemp at h
  have hps : prefixAndSuffix "diagram-*.puml".toList = .ok ("diagram-".toList, ".puml".toList) := by
    rfl
  rw [hps] at h
  simp only [] at h
  have hj : joinPath (if "temp".toList = [] then env.tempDir else "temp".toList) "diagram-".toList
      = "temp/diagram-".toList := by
    rw [if_neg (by decide)]
    decide
  rw [hj] at h
  split at h
  · cases h
  · rename_i nm hloop
    injection h with h
    injection h with h1 h2
    subst h1
    obtain ⟨⟨j, hjn⟩, hfree⟩ := createTempLoop_ok env fs _ _ _ _ _ hloop
    exact ⟨⟨env.rand j % 2 ^ 32, hjn⟩, hfree, h2.symm⟩

theorem generateDiagram_createTemp_error (env : Env) (code : GoString) (w : World)
    (err : GoString)
    (h : CreateTemp env w.files "temp".toList "diagram-*.puml".toList = .error err) :
    generateDiagram env code w = (.error err, w.log (.generateDiagram code)) := by
  unfold generateDiagram
  simp only [World.log, h]

theorem generateDiagram_write_error (env : Env) (code : GoString) (w : World)
    (name : GoString) (fs1 : Files) (err : GoString)
    (h : CreateTemp env w.files "temp".toList "diagram-*.puml".toList = .ok (name, fs1))
    (hw : env.writeError = some err) :
    generateDiagram env code w
      = (.error err, { files := fs1.remove name, trace := w.trace ++ [.generateDiagram code] }) := by
  unfold generateDiagram
  simp only [World.log, h, hw]

theorem generateDiagram_run (env : Env) (code : GoString) (w : World)
    (name : GoString) (fs1 fs2 : Files) (res : Option GoString)
    (h : CreateTemp env w.files "temp".toList "diagram-*.puml".toList = .ok (name, fs1))
    (hw : env.writeError = none)
    (hrun : env.run (fs1.write name code) ["plantuml".toList, "-tpng".toList, name] = (fs2, res)) :
    generateDiagram env code w
      = ((match res with
          | some err => .error (Errorf "failed to generate diagram: %v".toList [.err err])
          | none => .ok ('/' :: ReplaceAll name ".puml".toList ".png".toList)),
        { files := fs2.remove name,
          trace := w.trace ++ [.generateDiagram code,
            .exec ["plantuml".toList, "-tpng".toList, name]] }) := by
  unfold generateDiagram
  simp only [World.log, h, hw, hrun]
  cases res <;> simp

theorem generateDiagram_files (env : Env) (code : GoString) (w : World)
    (name : GoString) (fs1 : Files)
    (h : CreateTemp env w.files "temp".toList "diagram-*.puml".toList = .ok (name, fs1)) :
    (generateDiagram env code w).2.files
      = (match env.writeError with
         | some _ => fs1.remove name
         | none =>
           (env.run (fs1.write name code)
              ["plantuml".toList, "-tpng".toList, name]).1.remove name) := by
  cases hw : env.writeError with
  | some err => rw [generateDiagram_write_error env code w name fs1 err h hw]
  | none =>
    rcases hrun : env.run (fs1.write name code) ["plantuml".toList, "-tpng".toList, name]
      with ⟨fs2, res⟩
    rw [generateDiagram_run env code w name fs1 fs2 res h hw hrun]

theorem CreateMessage_world (env : Env) (c : Client) (req : MessageRequest) (w : World) :
    (CreateMessage env c req w).2
      = { files := w.files,
          trace := w.trace ++ .createMessage req ::
            (match Marshal env.fmtFloat req with
             | none => []
             | some jsonBody => [.httpDo (newMessagesRequest c jsonBody)]) } := by
  unfold CreateMessage
  cases hm : Marshal env.fmtFloat req with
  | none => simp [World.log]
  | some jsonBody =>
    simp only []
    cases hdo : env.httpDo (newMessagesRequest c jsonBody) with
    | error err => simp [World.log]
    | ok resp =>
      simp only []
      cases hb : resp.Body with
      | error err => simp [World.log]
      | ok body =>
        simp only []
        split
        · simp [World.log]
        · cases hu : Unmarshal body <;> simp [World.log]

theorem generatePlantUML_world (env : Env) (input : GoString) (w : World) :
    (generatePlantUMLWithAnthropic env input w).2
      = if env.getenv "ANTHROPIC_API_KEY".toList = [] then w.log (.generatePlantUML input)
        else (CreateMessage env (New (env.getenv "ANTHROPIC_API_KEY".toList))
          (messageRequestFor input) (w.log (.generatePlantUML input))).2 := by
  unfold generatePlantUMLWithAnthropic
  simp only []
  split
  · rfl
  · rcases hcm : CreateMessage env (New (env.getenv "ANTHROPIC_API_KEY".toList))
      (messageRequestFor input) (w.log (.generatePlantUML input)) with ⟨res, w1⟩
    cases res with
    | error e => rfl
    | ok resp =>
      simp only []
      split <;> rfl

theorem generateDiagramCalls_append (a b : List Event) :
    generateDiagramCalls (a ++ b) = generateDiagramCalls a ++ generateDiagramCalls b := by
  induction a with
  | nil => rfl
  | cons e a ih => cases e <;> simp [generateDiagramCalls, ih]

theorem generatePlantUML_no_render (env : Env) (input : GoString) (w : World) :
    generateDiagramCalls (generatePlantUMLWithAnthropic env input w).2.trace
      = generateDiagramCalls w.trace := by
  rw [generatePlantUML_world]
  split
  · simp [World.log, generateDiagramCalls_append, generateDiagramCalls]
  · rw [CreateMessage_world]
    cases Marshal env.fmtFloat (messageRequestFor input) <;>
      simp [World.log, generateDiagramCalls_append, generateDiagramCalls]

theorem handleIndex_post (env : Env) (r : Request) (w : World)
    (hpost : r.Method = "POST".toList) :
    handleIndex env r w
      = if r.FormValue "input".toList = [] then
          (httpError "Input is required".toList 400, w)
        else
          match generatePlantUMLWithAnthropic env (r.FormValue "input".toList) w with
          | (.error err, w) => (httpError err 500, w)
          | (.ok plantUMLCode, w) =>
            match generateDiagram env plantUMLCode w with
            | (.error err, w) => (httpError err 500, w)
            | (.ok diagramPath, w) =>
              (executeTemplate env
                { Input := r.FormValue "input".toList, DiagramURL := diagramPath,
                  PlantUMLCode := plantUMLCode }, w) := by
  unfold handleIndex
  rw [if_neg (by rw [hpost]; decide), if_pos hpost]
  unfold handleGenerate
  rw [if_neg (not_not.mpr hpost)]
  rfl

theorem handleIndex_other (env : Env) (r : Request) (w : World)
    (hget : r.Method ≠ "GET".toList) (hpost : r.Method ≠ "POST".toList) :
    handleIndex env r w = (httpError "Method not allowed".toList 405, w) := by
  unfold handleIndex
  rw [if_neg hget, if_neg hpost]
  rfl

/-- Executing the page template answers 200 exactly when the template file parses. -/
theorem executeTemplate_status (env : Env) (data : PageData) :
    (executeTemplate env data).Status = some 200 ↔ ∃ page, env.template = .ok page := by
  unfold executeTemplate
  cases env.template with
  | error e =>
    refine ⟨fun h => ?_, fun h => ?_⟩
    · cases h
    · obtain ⟨page, hpage⟩ := h
      cases hpage
  | ok page => exact ⟨fun _ => ⟨page, rfl⟩, fun _ => rfl⟩

/-! ### The scanner on JSON texts -/

theorem valueEnd_deep (base : Nat) (s : Scanner) (c : Char) (cs : GoString)
    (h : base < s.parseState.length) :
    valueEnd base s (c :: cs)
      = match s.next c with
        | none => none
        | some s' => valueEnd base s' cs := by
  have h' : ¬ s.parseState.length ≤ base := Nat.not_le.mpr h
  simp [valueEnd, h']

theorem valueEnd_inner (base : Nat) (s : Scanner) (c : Char) (cs : GoString)
    (h1 : s.step ≠ .endValue) (h2 : numStep s.step c ≠ .ended) :
    valueEnd base s (c :: cs)
      = match s.next c with
        | none => none
        | some s' => valueEnd base s' cs := by
  simp [valueEnd, h1, h2]

theorem valueEnd_endValue_top (base : Nat) (ps : List ParseState) (rest : GoString)
    (h : ps.length ≤ base) : valueEnd base ⟨.endValue, ps⟩ rest = some rest := by
  cases rest <;> simp [valueEnd, h]

theorem isSpace_cases {c : Char} (h : isSpace c = true) :
    c = ' ' ∨ c = '\t' ∨ c = '\r' ∨ c = '\n' := by
  simpa [isSpace, or_assoc] using h

theorem valueEnd_space_begin (base : Nat) (st : ScanStep) (ps : List ParseState)
    (hst : st = .beginValue ∨ st = .beginValueOrEmpty ∨ st = .beginString
      ∨ st = .beginStringOrEmpty)
    (ws rest : GoString) (hws : allSpace ws = true) :
    valueEnd base ⟨st, ps⟩ (ws ++ rest) = valueEnd base ⟨st, ps⟩ rest := by
  induction ws with
  | nil => rfl
  | cons c ws ih =>
    have hc : isSpace c = true := by
      simp only [allSpace, List.all_cons, Bool.and_eq_true] at hws
      exact hws.1
    have hws' : allSpace ws = true := by
      simp only [allSpace, List.all_cons, Bool.and_eq_true] at hws
      exact hws.2
    rw [List.cons_append, valueEnd_inner]
    · rcases hst with rfl | rfl | rfl | rfl <;>
        simp [Scanner.next, stateBeginValue, stateBeginString, hc, ih hws']
    · rcases hst with rfl | rfl | rfl | rfl <;> simp
    · rcases hst with rfl | rfl | rfl | rfl <;> simp [numStep]

theorem valueEnd_space_end (base : Nat) (p : ParseState) (ps : List ParseState)
    (hdeep : base < (p :: ps).length)
    (ws rest : GoString) (hws : allSpace ws = true) :
    valueEnd base ⟨.endValue, p :: ps⟩ (ws ++ rest) = valueEnd base ⟨.endValue, p :: ps⟩ rest := by
  induction ws with
  | nil => rfl
  | cons c ws ih =>
    have hc : isSpace c = true := by
      simp only [allSpace, List.all_cons, Bool.and_eq_true] at hws
      exact hws.1
    have hws' : allSpace ws = true := by
      simp only [allSpace, List.all_cons, Bool.and_eq_true] at hws
      exact hws.2
    rw [List.cons_append, valueEnd_deep _ _ _ _ hdeep]
    simp [Scanner.next, stateEndValue, hc, ih hws']

theorem valueEnd_next (base : Nat) (s s' : Scanner) (c : Char) (cs : GoString)
    (h1 : s.step ≠ .endValue) (h2 : numStep s.step c ≠ .ended) (hn : s.next c = some s') :
    valueEnd base s (c :: cs) = valueEnd base s' cs := by
  rw [valueEnd_inner _ _ _ _ h1 h2, hn]

theorem valueEnd_next_deep (base : Nat) (s s' : Scanner) (c : Char) (cs : GoString)
    (h : base < s.parseState.length) (hn : s.next c = some s') :
    valueEnd base s (c :: cs) = valueEnd base s' cs := by
  rw [valueEnd_deep _ _ _ _ h, hn]

theorem valueEnd_item (base : Nat) (ps : List ParseState) (it : StrItem) (rest : GoString)
    (h : it.valid = true) :
    valueEnd base ⟨.inString, ps⟩ (it.render ++ rest) = valueEnd base ⟨.inString, ps⟩ rest := by
  cases it with
  | plain c =>
    simp only [StrItem.valid, Bool.and_eq_true, bne_iff_ne, ne_eq, decide_eq_true_eq] at h
    obtain ⟨⟨h1, h2⟩, h3⟩ := h
    have h3' : ¬ c.toNat < 32 := Nat.not_lt.mpr h3
    simp only [StrItem.render, List.cons_append, List.nil_append]
    rw [valueEnd_next _ _ ⟨.inString, ps⟩ _ _ (by simp) (by simp [numStep])
      (by simp [Scanner.next, h1, h2, h3'])]
  | escape c =>
    simp only [StrItem.valid] at h
    simp only [StrItem.render, List.cons_append, List.nil_append]
    rw [valueEnd_next _ _ ⟨.inStringEsc, ps⟩ _ _ (by simp) (by simp [numStep])
      (by simp [Scanner.next])]
    rw [valueEnd_next _ _ ⟨.inString, ps⟩ _ _ (by simp) (by simp [numStep])
      (by simp only [Scanner.next, h, if_true])]
  | unicode a b c d =>
    simp only [StrItem.valid, Bool.and_eq_true] at h
    obtain ⟨⟨⟨ha, hb⟩, hc⟩, hd⟩ := h
    simp only [StrItem.render, List.cons_append, List.nil_append]
    rw [valueEnd_next _ _ ⟨.inStringEsc, ps⟩ _ _ (by simp) (by simp [numStep])
      (by simp [Scanner.next])]
    rw [valueEnd_next _ _ ⟨.inStringEscU 0, ps⟩ _ _ (by simp) (by simp [numStep])
      (by simp [Scanner.next])]
    rw [valueEnd_next _ _ ⟨.inStringEscU 1, ps⟩ _ _ (by simp) (by simp [numStep])
      (by simp [Scanner.next, ha])]
    rw [valueEnd_next _ _ ⟨.inStringEscU 2, ps⟩ _ _ (by simp) (by simp [numStep])
      (by simp [Scanner.next, hb])]
    rw [valueEnd_next _ _ ⟨.inStringEscU 3, ps⟩ _ _ (by simp) (by simp [numStep])
      (by simp [Scanner.next, hc])]
    rw [valueEnd_next _ _ ⟨.inString, ps⟩ _ _ (by simp) (by simp [numStep])
      (by simp [Scanner.next, hd])]

theorem valueEnd_items (base : Nat) (ps : List ParseState) (items : List StrItem)
    (rest : GoString) (h : items.all StrItem.valid = true) :
    valueEnd base ⟨.inString, ps⟩ (renderItems items ++ '"' :: rest)
      = valueEnd base ⟨.endValue, ps⟩ rest := by
  induction items with
  | nil =>
    simp only [renderItems, List.map_nil, List.flatten_nil, List.nil_append]
    rw [valueEnd_next _ _ ⟨.endValue, ps⟩ _ _ (by simp) (by simp [numStep])
      (by simp [Scanner.next])]
  | cons it items ih =>
    simp only [List.all_cons, Bool.and_eq_true] at h
    have : renderItems (it :: items) ++ '"' :: rest
        = it.render ++ (renderItems items ++ '"' :: rest) := by
      simp [renderItems]
    rw [this, valueEnd_item _ _ _ _ h.1, ih h.2]

theorem isDigit_ne {c : Char} (h : isDigit c = true) (k : Char) (hk : isDigit k = false) :
    c ≠ k := by
  rintro rfl
  rw [h] at hk
  cases hk

theorem isDigit_not_space {c : Char} (h : isDigit c = true) : isSpace c = false := by
  cases hs : isSpace c with
  | false => rfl
  | true =>
    rcases isSpace_cases hs with rfl | rfl | rfl | rfl <;> revert h <;> decide

theorem isDigit19_isDigit {c : Char} (h : isDigit19 c = true) : isDigit c = true := by
  simp only [isDigit19, isDigit, Bool.and_eq_true, decide_eq_true_eq] at *
  have : '0'.toNat ≤ '1'.toNat := by decide
  omega

theorem isDigit19_of_ne_zero {c : Char} (h : isDigit c = true) (h0 : c ≠ '0') :
    isDigit19 c = true := by
  simp only [isDigit19, isDigit, Bool.and_eq_true, decide_eq_true_eq] at *
  refine ⟨?_, h.2⟩
  have h48 : '0'.toNat = 48 := by decide
  have h49 : '1'.toNat = 49 := by decide
  have hne : c.toNat ≠ 48 := by
    intro heq
    apply h0
    apply Char.ext
    apply UInt32.ext
    have : c.val.toNat = 48 := heq
    simpa using this
  omega

theorem next_digit (st : ScanStep) (hst : st = .s1 ∨ st = .dot0 ∨ st = .e0)
    (ps : List ParseState) (c : Char) (hc : isDigit c = true) :
    numStep st c = .cont st ∧ Scanner.next ⟨st, ps⟩ c = some ⟨st, ps⟩ := by
  rcases hst with rfl | rfl | rfl <;> simp [Scanner.next, numStep, hc]

theorem valueEnd_digits (base : Nat) (st : ScanStep) (hst : st = .s1 ∨ st = .dot0 ∨ st = .e0)
    (ps : List ParseState) (ds rest : GoString) (hds : allDigits ds = true) :
    valueEnd base ⟨st, ps⟩ (ds ++ rest) = valueEnd base ⟨st, ps⟩ rest := by
  induction ds with
  | nil => rfl
  | cons d ds ih =>
    simp only [allDigits, List.all_cons, Bool.and_eq_true] at hds
    obtain ⟨h1, h2⟩ := next_digit st hst ps d hds.1
    rw [List.cons_append, valueEnd_next _ _ ⟨st, ps⟩ _ _
      (by rcases hst with rfl | rfl | rfl <;> simp) (by rw [h1]; simp) h2]
    exact ih hds.2

theorem endsNumber_facts {c : Char} (h : endsNumber c = true) :
    isDigit c = false ∧ c ≠ '.' ∧ c ≠ 'e' ∧ c ≠ 'E' := by
  simpa [endsNumber, and_assoc] using h

theorem valueEnd_number_end (base : Nat) (st : ScanStep)
    (hst : st = .s0 ∨ st = .s1 ∨ st = .dot0 ∨ st = .e0) (ps : List ParseState)
    (c : Char) (cs : GoString) (hc : endsNumber c = true) :
    valueEnd base ⟨st, ps⟩ (c :: cs) = valueEnd base ⟨.endValue, ps⟩ (c :: cs) := by
  obtain ⟨h1, h2, h3, h4⟩ := endsNumber_facts hc
  have hn : numStep st c = .ended := by
    rcases hst with rfl | rfl | rfl | rfl <;> simp [numStep, h1, h2, h3, h4]
  have hnext : Scanner.next ⟨st, ps⟩ c = stateEndValue ps c := by
    rcases hst with rfl | rfl | rfl | rfl <;> simp [Scanner.next, hn]
  have hne : st ≠ .endValue := by
    rcases hst with rfl | rfl | rfl | rfl <;> simp
  by_cases hb : ps.length ≤ base
  · simp [valueEnd, hn, hb]
  · simp only [valueEnd, hn, hb, hne, and_false, and_true, if_false, false_and, hnext]
    simp [numStep, Scanner.next]

theorem valueEnd_exp (base : Nat) (st : ScanStep) (hst : st = .s0 ∨ st = .s1 ∨ st = .dot0)
    (ps : List ParseState) (exp : Option (Char × Option Char × GoString))
    (c : Char) (cs : GoString) (hv : validExp exp = true) (hc : endsNumber c = true) :
    valueEnd base ⟨st, ps⟩ (renderExp exp ++ c :: cs)
      = valueEnd base ⟨.endValue, ps⟩ (c :: cs) := by
  have hst_ne : st ≠ .endValue := by rcases hst with rfl | rfl | rfl <;> simp
  rcases exp with _ | ⟨e, sign, ds⟩
  · exact valueEnd_number_end base st (by tauto) ps c cs hc
  · simp only [validExp, Bool.and_eq_true, Bool.or_eq_true, decide_eq_true_eq,
      Bool.not_eq_true', List.isEmpty_eq_false] at hv
    obtain ⟨⟨⟨he, hne⟩, hds⟩, hsign⟩ := hv
    rcases ds with _ | ⟨d, ds⟩
    · simp at hne
    have hds' := hds
    simp only [allDigits, List.all_cons, Bool.and_eq_true] at hds'
    obtain ⟨hd, hdsr⟩ := hds'
    have hstep_e : numStep st e = .cont .e := by
      rcases hst with rfl | rfl | rfl <;> rcases he with rfl | rfl <;>
        simp [numStep, isDigit]
    have hnext_e : Scanner.next ⟨st, ps⟩ e = some ⟨.e, ps⟩ := by
      rcases hst with rfl | rfl | rfl <;> simp [Scanner.next, hstep_e]
    have hplus : d ≠ '+' := isDigit_ne hd _ (by decide)
    have hminus : d ≠ '-' := isDigit_ne hd _ (by decide)
    rcases sign with _ | sg
    · simp only [renderExp, List.cons_append]
      rw [valueEnd_next _ _ ⟨.e, ps⟩ _ _ hst_ne (by rw [hstep_e]; simp) hnext_e]
      rw [valueEnd_next _ _ ⟨.e0, ps⟩ _ _ (by simp)
        (by simp [numStep, hd, hplus, hminus])
        (by simp [Scanner.next, numStep, hd, hplus, hminus])]
      rw [valueEnd_digits base .e0 (by tauto) ps ds _ hdsr]
      exact valueEnd_number_end base .e0 (by tauto) ps c cs hc
    · simp only [Bool.or_eq_true, decide_eq_true_eq] at hsign
      simp only [renderExp, List.cons_append]
      rw [valueEnd_next _ _ ⟨.e, ps⟩ _ _ hst_ne (by rw [hstep_e]; simp) hnext_e]
      rw [valueEnd_next _ _ ⟨.eSign, ps⟩ _ _ (by simp)
        (by rcases hsign with rfl | rfl <;> simp [numStep])
        (by rcases hsign with rfl | rfl <;> simp [Scanner.next, numStep])]
      rw [valueEnd_next _ _ ⟨.e0, ps⟩ _ _ (by simp)
        (by simp [numStep, hd])
        (by simp [Scanner.next, numStep, hd])]
      rw [valueEnd_digits base .e0 (by tauto) ps ds _ hdsr]
      exact valueEnd_number_end base .e0 (by tauto) ps c cs hc

theorem valueEnd_frac (base : Nat) (st : ScanStep) (hst : st = .s0 ∨ st = .s1)
    (ps : List ParseState) (frac : Option GoString)
    (exp : Option (Char × Option Char × GoString))
    (c : Char) (cs : GoString) (hf : validFrac frac = true) (hv : validExp exp = true)
    (hc : endsNumber c = true) :
    valueEnd base ⟨st, ps⟩ (renderFrac frac ++ (renderExp exp ++ c :: cs))
      = valueEnd base ⟨.endValue, ps⟩ (c :: cs) := by
  have hst_ne : st ≠ .endValue := by rcases hst with rfl | rfl <;> simp
  rcases frac with _ | ds
  · simp only [renderFrac, List.nil_append]
    exact valueEnd_exp base st (by tauto) ps exp c cs hv hc
  · simp only [validFrac, Bool.and_eq_true, Bool.not_eq_true', List.isEmpty_eq_false] at hf
    obtain ⟨hne, hds⟩ := hf
    rcases ds with _ | ⟨d, ds⟩
    · simp at hne
    simp only [allDigits, List.all_cons, Bool.and_eq_true] at hds
    obtain ⟨hd, hdsr⟩ := hds
    have hstep : numStep st '.' = .cont .dot := by
      rcases hst with rfl | rfl <;> simp [numStep, isDigit]
    simp only [renderFrac, List.cons_append]
    rw [valueEnd_next _ _ ⟨.dot, ps⟩ _ _ hst_ne (by rw [hstep]; simp)
      (by rcases hst with rfl | rfl <;> simp [Scanner.next, hstep])]
    rw [valueEnd_next _ _ ⟨.dot0, ps⟩ _ _ (by simp) (by simp [numStep, hd])
      (by simp [Scanner.next, numStep, hd])]
    rw [valueEnd_digits base .dot0 (by tauto) ps ds _ hdsr]
    exact valueEnd_exp base .dot0 (by tauto) ps exp c cs hv hc

theorem valueEnd_int (base : Nat) (st : ScanStep)
    (hst : st = .beginValue ∨ st = .beginValueOrEmpty ∨ st = .neg)
    (ps : List ParseState) (lead : Char) (more tail : GoString)
    (hlead : isDigit lead = true) (hmore : allDigits more = true)
    (hzero : (lead != '0' || more.isEmpty) = true) :
    ∃ st', (st' = .s0 ∨ st' = .s1)
      ∧ valueEnd base ⟨st, ps⟩ (lead :: (more ++ tail)) = valueEnd base ⟨st', ps⟩ tail := by
  have hsp := isDigit_not_space hlead
  have hst_ne : st ≠ .endValue := by rcases hst with rfl | rfl | rfl <;> simp
  have hnum : numStep st lead ≠ .ended := by
    rcases hst with rfl | rfl | rfl
    · simp [numStep]
    · simp [numStep]
    · simp only [numStep]
      split
      · simp
      · split <;> simp
  by_cases h0 : lead = '0'
  · subst h0
    have hm : more = [] := by simpa using hzero
    subst hm
    refine ⟨.s0, Or.inl rfl, ?_⟩
    rw [List.nil_append, valueEnd_next _ _ ⟨.s0, ps⟩ _ _ hst_ne hnum
      (by rcases hst with rfl | rfl | rfl <;>
        simp [Scanner.next, stateBeginValue, numStep, isSpace])]
  · have h19 := isDigit19_of_ne_zero hlead h0
    refine ⟨.s1, Or.inr rfl, ?_⟩
    have h1 : lead ≠ '{' := isDigit_ne hlead _ (by decide)
    have h2 : lead ≠ '[' := isDigit_ne hlead _ (by decide)
    have h3 : lead ≠ '"' := isDigit_ne hlead _ (by decide)
    have h4 : lead ≠ '-' := isDigit_ne hlead _ (by decide)
    have h5 : lead ≠ 't' := isDigit_ne hlead _ (by decide)
    have h6 : lead ≠ 'f' := isDigit_ne hlead _ (by decide)
    have h7 : lead ≠ 'n' := isDigit_ne hlead _ (by decide)
    have h8 : lead ≠ ']' := isDigit_ne hlead _ (by decide)
    rw [valueEnd_next _ _ ⟨.s1, ps⟩ _ _ hst_ne hnum
      (by rcases hst with rfl | rfl | rfl <;>
        simp [Scanner.next, stateBeginValue, numStep, hsp, h0, h1, h2, h3, h4, h5, h6, h7, h8,
          h19])]
    exact valueEnd_digits base .s1 (by tauto) ps more tail hmore

theorem valueEnd_number (base : Nat) (st : ScanStep)
    (hst : st = .beginValue ∨ st = .beginValueOrEmpty)
    (ps : List ParseState) (n : JNumber) (c : Char) (cs : GoString)
    (hn : n.valid = true) (hc : endsNumber c = true) :
    valueEnd base ⟨st, ps⟩ (n.render ++ c :: cs)
      = valueEnd base ⟨.endValue, ps⟩ (c :: cs) := by
  simp only [JNumber.valid, Bool.and_eq_true] at hn
  obtain ⟨⟨⟨⟨hlead, hmore⟩, hzero⟩, hf⟩, hv⟩ := hn
  have hst_ne : st ≠ .endValue := by rcases hst with rfl | rfl <;> simp
  have key : ∀ st0, (st0 = .beginValue ∨ st0 = .beginValueOrEmpty ∨ st0 = .neg) →
      valueEnd base ⟨st0, ps⟩
          (n.lead :: (n.more ++ (renderFrac n.frac ++ (renderExp n.exp ++ c :: cs))))
        = valueEnd base ⟨.endValue, ps⟩ (c :: cs) := by
    intro st0 hst0
    obtain ⟨st', hst', heq⟩ := valueEnd_int base st0 hst0 ps n.lead n.more
      (renderFrac n.frac ++ (renderExp n.exp ++ c :: cs)) hlead hmore hzero
    rw [heq]
    exact valueEnd_frac base st' hst' ps n.frac n.exp c cs hf hv hc
  unfold JNumber.render
  cases hneg : n.neg with
  | false =>
    simp only [Bool.false_eq_true, if_false, List.nil_append, List.cons_append,
      List.append_assoc]
    exact key st (by tauto)
  | true =>
    simp only [if_true, List.cons_append, List.nil_append, List.append_assoc]
    rw [valueEnd_next _ _ ⟨.neg, ps⟩ _ _ hst_ne
      (by rcases hst with rfl | rfl <;> simp [numStep])
      (by rcases hst with rfl | rfl <;> simp [Scanner.next, stateBeginValue, isSpace])]
    exact key .neg (by tauto)

theorem endsNumber_of_space {c : Char} (h : isSpace c = true) : endsNumber c = true := by
  rcases isSpace_cases h with rfl | rfl | rfl | rfl <;> decide

theorem endsNumberHead_cons (c : Char) (cs : GoString) (h : endsNumber c = true) :
    EndsNumberHead (c :: cs) := ⟨c, cs, rfl, h⟩

theorem endsNumberHead_space (ws rest : GoString) (hws : allSpace ws = true)
    (h : EndsNumberHead rest) : EndsNumberHead (ws ++ rest) := by
  cases ws with
  | nil => exact h
  | cons c ws =>
    simp only [allSpace, List.all_cons, Bool.and_eq_true] at hws
    exact ⟨c, ws ++ rest, rfl, endsNumber_of_space hws.1⟩

theorem JElems.elems_render_head (es : JElems) (rest : GoString) :
    EndsNumberHead (es.render ++ ']' :: rest) := by
  cases es with
  | nil => exact ⟨']', rest, by simp [JElems.render], by decide⟩
  | cons wsBefore v wsAfter tail =>
    exact ⟨',', wsBefore ++ v.render ++ wsAfter ++ tail.render ++ ']' :: rest,
      by simp [JElems.render], by decide⟩

theorem JMembers.members_render_head (ms : JMembers) (rest : GoString) :
    EndsNumberHead (ms.render ++ '}' :: rest) := by
  cases ms with
  | nil => exact ⟨'}', rest, by simp [JMembers.render], by decide⟩
  | cons wsBefore key wsKey wsColon v wsAfter tail =>
    exact ⟨',', wsBefore ++ '"' :: (renderItems key ++ '"' :: (wsKey ++ ':' :: (wsColon
      ++ v.render ++ wsAfter ++ tail.render))) ++ '}' :: rest,
      by simp [JMembers.render], by decide⟩

theorem valueEnd_number_rest (base : Nat) (st : ScanStep)
    (hst : st = .beginValue ∨ st = .beginValueOrEmpty)
    (ps : List ParseState) (n : JNumber) (rest : GoString)
    (hn : n.valid = true) (hrest : EndsNumberHead rest) :
    valueEnd base ⟨st, ps⟩ (n.render ++ rest) = valueEnd base ⟨.endValue, ps⟩ rest := by
  obtain ⟨c, cs, rfl, hc⟩ := hrest
  exact valueEnd_number base st hst ps n c cs hn hc

/-- Key, colon and the whitespace around them, up to the start of the member's value. -/
theorem valueEnd_key (base : Nat) (st : ScanStep)
    (hst : st = .beginString ∨ st = .beginStringOrEmpty)
    (stack : List ParseState) (hdeep : base < stack.length + 1)
    (wsBefore : GoString) (key : List StrItem) (wsKey wsColon rest : GoString)
    (h1 : allSpace wsBefore = true) (h2 : key.all StrItem.valid = true)
    (h3 : allSpace wsKey = true) (h4 : allSpace wsColon = true) :
    valueEnd base ⟨st, .objectKey :: stack⟩
        (wsBefore ++ '"' :: (renderItems key ++ '"' :: (wsKey ++ ':' :: (wsColon ++ rest))))
      = valueEnd base ⟨.beginValue, .objectValue :: stack⟩ rest := by
  rw [valueEnd_space_begin base st _ (by tauto) wsBefore _ h1]
  rw [valueEnd_next _ _ ⟨.inString, .objectKey :: stack⟩ _ _
    (by rcases hst with rfl | rfl <;> simp) (by rcases hst with rfl | rfl <;> simp [numStep])
    (by rcases hst with rfl | rfl <;> simp [Scanner.next, stateBeginString, isSpace])]
  rw [valueEnd_items _ _ _ _ h2]
  rw [valueEnd_space_end base _ _ (by simpa using hdeep) wsKey _ h3]
  rw [valueEnd_next_deep _ _ ⟨.beginValue, .objectValue :: stack⟩ _ _ (by simpa using hdeep)
    (by simp [Scanner.next, stateEndValue, isSpace])]
  rw [valueEnd_space_begin base .beginValue _ (by tauto) wsColon _ h4]

mutual
theorem JValue.scan_value : ∀ (v : JValue) (base : Nat) (st : ScanStep)
    (_ : st = .beginValue ∨ st = .beginValueOrEmpty)
    (p : ParseState) (ps : List ParseState) (rest : GoString),
    v.valid = true → base ≤ (p :: ps).length →
    (p :: ps).length + v.depth ≤ maxNestingDepth → EndsNumberHead rest →
    valueEnd base ⟨st, p :: ps⟩ (v.render ++ rest) = valueEnd base ⟨.endValue, p :: ps⟩ rest
  | .null, base, st, hst, p, ps, rest, _, _, _, _ => by
    simp only [JValue.render, String.toList, List.cons_append, List.nil_append]
    rw [valueEnd_next _ _ ⟨.lit "ull".toList, p :: ps⟩ _ _
      (by rcases hst with rfl | rfl <;> simp) (by rcases hst with rfl | rfl <;> simp [numStep])
      (by rcases hst with rfl | rfl <;> simp [Scanner.next, stateBeginValue, isSpace])]
    rw [valueEnd_next _ _ ⟨.lit "ll".toList, p :: ps⟩ _ _ (by simp) (by simp [numStep])
      (by simp [Scanner.next])]
    rw [valueEnd_next _ _ ⟨.lit "l".toList, p :: ps⟩ _ _ (by simp) (by simp [numStep])
      (by simp [Scanner.next])]
    rw [valueEnd_next _ _ ⟨.endValue, p :: ps⟩ _ _ (by simp) (by simp [numStep])
      (by simp [Scanner.next])]
  | .bool true, base, st, hst, p, ps, rest, _, _, _, _ => by
    simp only [JValue.render, String.toList, List.cons_append, List.nil_append]
    rw [valueEnd_next _ _ ⟨.lit "rue".toList, p :: ps⟩ _ _
      (by rcases hst with rfl | rfl <;> simp) (by rcases hst with rfl | rfl <;> simp [numStep])
      (by rcases hst with rfl | rfl <;> simp [Scanner.next, stateBeginValue, isSpace])]
    rw [valueEnd_next _ _ ⟨.lit "ue".toList, p :: ps⟩ _ _ (by simp) (by simp [numStep])
      (by simp [Scanner.next])]
    rw [valueEnd_next _ _ ⟨.lit "e".toList, p :: ps⟩ _ _ (by simp) (by simp [numStep])
      (by simp [Scanner.next])]
    rw [valueEnd_next _ _ ⟨.endValue, p :: ps⟩ _ _ (by simp) (by simp [numStep])
      (by simp [Scanner.next])]
  | .bool false, base, st, hst, p, ps, rest, _, _, _, _ => by
    simp only [JValue.render, String.toList, List.cons_append, List.nil_append]
    rw [valueEnd_next _ _ ⟨.lit "alse".toList, p :: ps⟩ _ _
      (by rcases hst with rfl | rfl <;> simp) (by rcases hst with rfl | rfl <;> simp [numStep])
      (by rcases hst with rfl | rfl <;> simp [Scanner.next, stateBeginValue, isSpace])]
    rw [valueEnd_next _ _ ⟨.lit "lse".toList, p :: ps⟩ _ _ (by simp) (by simp [numStep])
      (by simp [Scanner.next])]
    rw [valueEnd_next _ _ ⟨.lit "se".toList, p :: ps⟩ _ _ (by simp) (by simp [numStep])
      (by simp [Scanner.next])]
    rw [valueEnd_next _ _ ⟨.lit "e".toList, p :: ps⟩ _ _ (by simp) (by simp [numStep])
      (by simp [Scanner.next])]
    rw [valueEnd_next _ _ ⟨.endValue, p :: ps⟩ _ _ (by simp) (by simp [numStep])
      (by simp [Scanner.next])]
  | .number n, base, st, hst, p, ps, rest, hv, _, _, hrest => by
    simp only [JValue.valid] at hv
    simp only [JValue.render]
    exact valueEnd_number_rest base st hst (p :: ps) n rest hv hrest
  | .string items, base, st, hst, p, ps, rest, hv, _, _, _ => by
    simp only [JValue.valid] at hv
    simp only [JValue.render, List.cons_append, List.append_assoc, List.nil_append]
    rw [valueEnd_next _ _ ⟨.inString, p :: ps⟩ _ _
      (by rcases hst with rfl | rfl <;> simp) (by rcases hst with rfl | rfl <;> simp [numStep])
      (by rcases hst with rfl | rfl <;> simp [Scanner.next, stateBeginValue, isSpace])]
    exact valueEnd_items base (p :: ps) items rest hv
  | .emptyArray ws, base, st, hst, p, ps, rest, hv, hbase, hdepth, _ => by
    simp only [JValue.valid] at hv
    simp only [JValue.depth] at hdepth
    have hlen' : ps.length + 1 + 1 ≤ maxNestingDepth := by simpa using hdepth
    simp only [JValue.render, List.cons_append, List.append_assoc, List.nil_append]
    rw [valueEnd_next _ _ ⟨.beginValueOrEmpty, .arrayValue :: p :: ps⟩ _ _
      (by rcases hst with rfl | rfl <;> simp) (by rcases hst with rfl | rfl <;> simp [numStep])
      (by rcases hst with rfl | rfl <;>
        simp [Scanner.next, stateBeginValue, isSpace, pushParseState, hlen'])]
    rw [valueEnd_space_begin base .beginValueOrEmpty _ (by tauto) ws _ hv]
    rw [valueEnd_next _ _ ⟨.endValue, p :: ps⟩ _ _ (by simp) (by simp [numStep])
      (by simp [Scanner.next, stateEndValue, isSpace, popParseState])]
  | .array wsBefore first wsAfter others, base, st, hst, p, ps, rest, hv, hbase, hdepth, _ => by
    simp only [JValue.valid, Bool.and_eq_true] at hv
    obtain ⟨⟨⟨hv1, hv2⟩, hv3⟩, hv4⟩ := hv
    simp only [JValue.depth] at hdepth
    have hd1 : first.depth ≤ max first.depth others.depth := Nat.le_max_left _ _
    have hd2 : others.depth ≤ max first.depth others.depth := Nat.le_max_right _ _
    have hlen : (p :: ps).length + 1 ≤ maxNestingDepth := by omega
    have hlen' : ps.length + 1 + 1 ≤ maxNestingDepth := by simpa using hlen
    have hdeep : base ≤ (ParseState.arrayValue :: p :: ps).length := by
      simp only [List.length_cons] at hbase ⊢
      omega
    simp only [JValue.render, List.cons_append, List.append_assoc, List.nil_append]
    rw [valueEnd_next _ _ ⟨.beginValueOrEmpty, .arrayValue :: p :: ps⟩ _ _
      (by rcases hst with rfl | rfl <;> simp) (by rcases hst with rfl | rfl <;> simp [numStep])
      (by rcases hst with rfl | rfl <;>
        simp [Scanner.next, stateBeginValue, isSpace, pushParseState, hlen'])]
    rw [valueEnd_space_begin base .beginValueOrEmpty _ (by tauto) wsBefore _ hv1]
    rw [JValue.scan_value first base .beginValueOrEmpty (by tauto) .arrayValue (p :: ps) _ hv2 hdeep
      (by simp only [List.length_cons] at hdepth ⊢; omega)
      (endsNumberHead_space _ _ hv3 (JElems.elems_render_head others rest))]
    rw [valueEnd_space_end base _ _ (by simp only [List.length_cons] at hbase ⊢; omega)
      wsAfter _ hv3]
    exact JElems.scan_elems others base p ps rest hv4 hbase
      (by simp only [List.length_cons] at hdepth ⊢; omega)
  | .emptyObject ws, base, st, hst, p, ps, rest, hv, hbase, hdepth, _ => by
    simp only [JValue.valid] at hv
    simp only [JValue.depth] at hdepth
    have hlen' : ps.length + 1 + 1 ≤ maxNestingDepth := by simpa using hdepth
    simp only [JValue.render, List.cons_append, List.append_assoc, List.nil_append]
    rw [valueEnd_next _ _ ⟨.beginStringOrEmpty, .objectKey :: p :: ps⟩ _ _
      (by rcases hst with rfl | rfl <;> simp) (by rcases hst with rfl | rfl <;> simp [numStep])
      (by rcases hst with rfl | rfl <;>
        simp [Scanner.next, stateBeginValue, isSpace, pushParseState, hlen'])]
    rw [valueEnd_space_begin base .beginStringOrEmpty _ (by tauto) ws _ hv]
    rw [valueEnd_next _ _ ⟨.endValue, p :: ps⟩ _ _ (by simp) (by simp [numStep])
      (by simp [Scanner.next, stateEndValue, isSpace, popParseState])]
  | .object wsBefore key wsKey wsColon first wsAfter others, base, st, hst, p, ps, rest, hv,
      hbase, hdepth, _ => by
    simp only [JValue.valid, Bool.and_eq_true] at hv
    obtain ⟨⟨⟨⟨⟨⟨hv1, hv2⟩, hv3⟩, hv4⟩, hv5⟩, hv6⟩, hv7⟩ := hv
    simp only [JValue.depth] at hdepth
    have hd1 : first.depth ≤ max first.depth others.depth := Nat.le_max_left _ _
    have hd2 : others.depth ≤ max first.depth others.depth := Nat.le_max_right _ _
    have hlen : (p :: ps).length + 1 ≤ maxNestingDepth := by omega
    have hlen' : ps.length + 1 + 1 ≤ maxNestingDepth := by simpa using hlen
    simp only [JValue.render, List.cons_append, List.append_assoc, List.nil_append]
    rw [valueEnd_next _ _ ⟨.beginStringOrEmpty, .objectKey :: p :: ps⟩ _ _
      (by rcases hst with rfl | rfl <;> simp) (by rcases hst with rfl | rfl <;> simp [numStep])
      (by rcases hst with rfl | rfl <;>
        simp [Scanner.next, stateBeginValue, isSpace, pushParseState, hlen'])]
    rw [valueEnd_key base .beginStringOrEmpty (by tauto) (p :: ps)
      (by simp only [List.length_cons] at hbase ⊢; omega) wsBefore key wsKey wsColon _
      hv1 hv2 hv3 hv4]
    rw [JValue.scan_value first base .beginValue (by tauto) .objectValue (p :: ps) _ hv5
      (by simp only [List.length_cons] at hbase ⊢; omega)
      (by simp only [List.length_cons] at hdepth ⊢; omega)
      (endsNumberHead_space _ _ hv6 (JMembers.members_render_head others rest))]
    rw [valueEnd_space_end base _ _ (by simp only [List.length_cons] at hbase ⊢; omega)
      wsAfter _ hv6]
    exact JMembers.scan_members others base p ps rest hv7 hbase
      (by simp only [List.length_cons] at hdepth ⊢; omega)
theorem JElems.scan_elems : ∀ (es : JElems) (base : Nat) (p : ParseState) (ps : List ParseState)
    (rest : GoString),
    es.valid = true → base ≤ (p :: ps).length →
    (p :: ps).length + 1 + es.depth ≤ maxNestingDepth →
    valueEnd base ⟨.endValue, .arrayValue :: p :: ps⟩ (es.render ++ ']' :: rest)
      = valueEnd base ⟨.endValue, p :: ps⟩ rest
  | .nil, base, p, ps, rest, _, hbase, _ => by
    simp only [JElems.render, List.nil_append]
    rw [valueEnd_next_deep _ _ ⟨.endValue, p :: ps⟩ _ _
      (by simp only [List.length_cons] at hbase ⊢; omega)
      (by simp [Scanner.next, stateEndValue, isSpace, popParseState])]
  | .cons wsBefore v wsAfter tail, base, p, ps, rest, hv, hbase, hdepth => by
    simp only [JElems.valid, Bool.and_eq_true] at hv
    obtain ⟨⟨⟨hv1, hv2⟩, hv3⟩, hv4⟩ := hv
    simp only [JElems.depth] at hdepth
    have hd1 : v.depth ≤ max v.depth tail.depth := Nat.le_max_left _ _
    have hd2 : tail.depth ≤ max v.depth tail.depth := Nat.le_max_right _ _
    have hdeep : base < (ParseState.arrayValue :: p :: ps).length := by
      simp only [List.length_cons] at hbase ⊢
      omega
    simp only [JElems.render, List.cons_append, List.append_assoc]
    rw [valueEnd_next_deep _ _ ⟨.beginValue, .arrayValue :: p :: ps⟩ _ _ hdeep
      (by simp [Scanner.next, stateEndValue, isSpace])]
    rw [valueEnd_space_begin base .beginValue _ (by tauto) wsBefore _ hv1]
    rw [JValue.scan_value v base .beginValue (by tauto) .arrayValue (p :: ps) _ hv2 (Nat.le_of_lt hdeep)
      (by simp only [List.length_cons] at hdepth ⊢; omega)
      (endsNumberHead_space _ _ hv3 (JElems.elems_render_head tail rest))]
    rw [valueEnd_space_end base _ _ hdeep wsAfter _ hv3]
    exact JElems.scan_elems tail base p ps rest hv4 hbase
      (by simp only [List.length_cons] at hdepth ⊢; omega)
theorem JMembers.scan_members : ∀ (ms : JMembers) (base : Nat) (p : ParseState)
    (ps : List ParseState) (rest : GoString),
    ms.valid = true → base ≤ (p :: ps).length →
    (p :: ps).length + 1 + ms.depth ≤ maxNestingDepth →
    valueEnd base ⟨.endValue, .objectValue :: p :: ps⟩ (ms.render ++ '}' :: rest)
      = valueEnd base ⟨.endValue, p :: ps⟩ rest
  | .nil, base, p, ps, rest, _, hbase, _ => by
    simp only [JMembers.render, List.nil_append]
    rw [valueEnd_next_deep _ _ ⟨.endValue, p :: ps⟩ _ _
      (by simp only [List.length_cons] at hbase ⊢; omega)
      (by simp [Scanner.next, stateEndValue, isSpace, popParseState])]
  | .cons wsBefore key wsKey wsColon v wsAfter tail, base, p, ps, rest, hv, hbase, hdepth => by
    simp only [JMembers.valid, Bool.and_eq_true] at hv
    obtain ⟨⟨⟨⟨⟨⟨hv1, hv2⟩, hv3⟩, hv4⟩, hv5⟩, hv6⟩, hv7⟩ := hv
    simp only [JMembers.depth] at hdepth
    have hd1 : v.depth ≤ max v.depth tail.depth := Nat.le_max_left _ _
    have hd2 : tail.depth ≤ max v.depth tail.depth := Nat.le_max_right _ _
    have hdeep : base < (ParseState.objectValue :: p :: ps).length := by
      simp only [List.length_cons] at hbase ⊢
      omega
    simp only [JMembers.render, List.cons_append, List.append_assoc]
    rw [valueEnd_next_deep _ _ ⟨.beginString, .objectKey :: p :: ps⟩ _ _ hdeep
      (by simp [Scanner.next, stateEndValue, isSpace])]
    rw [valueEnd_key base .beginString (by tauto) (p :: ps)
      (by simp only [List.length_cons] at hbase ⊢; omega) wsBefore key wsKey wsColon _
      hv1 hv2 hv3 hv4]
    rw [JValue.scan_value v base .beginValue (by tauto) .objectValue (p :: ps) _ hv5
      (Nat.le_of_lt hdeep)
      (by simp only [List.length_cons] at hdepth ⊢; omega)
      (endsNumberHead_space _ _ hv6 (JMembers.members_render_head tail rest))]
    rw [valueEnd_space_end base _ _ hdeep wsAfter _ hv6]
    exact JMembers.scan_members tail base p ps rest hv7 hbase
      (by simp only [List.length_cons] at hdepth ⊢; omega)
end

/-! ### String and number literals -/

theorem take_append_left (xs rest : GoString) :
    (xs ++ rest).take ((xs ++ rest).length - rest.length) = xs := by
  have : (xs ++ rest).length - rest.length = xs.length := by simp
  rw [this, List.take_left']
  rfl

theorem splitValue_render (v : JValue) (p : ParseState) (ps : List ParseState)
    (rest : GoString) (hv : v.valid = true)
    (hdepth : (p :: ps).length + v.depth ≤ maxNestingDepth) (hrest : EndsNumberHead rest) :
    splitValue (p :: ps) (v.render ++ rest) = some (v.render, rest) := by
  unfold splitValue
  rw [JValue.scan_value v _ .beginValue (by tauto) p ps rest hv (Nat.le_refl _) hdepth hrest,
    valueEnd_endValue_top _ _ _ (Nat.le_refl _)]
  simp only [take_append_left]

theorem hexVal_hexNat (c : Char) (h : isHex c = true) : hexVal c = some (hexNat c) := by
  have h0 : '0'.toNat = 48 := by decide
  have h9 : '9'.toNat = 57 := by decide
  have ha : 'a'.toNat = 97 := by decide
  have hf : 'f'.toNat = 102 := by decide
  have hA : 'A'.toNat = 65 := by decide
  have hF : 'F'.toNat = 70 := by decide
  simp only [isHex, isDigit, h0, h9, ha, hf, hA, hF, Bool.or_eq_true, Bool.and_eq_true,
    decide_eq_true_eq] at h
  unfold hexVal hexNat
  simp only [isDigit, h0, h9, ha, hf, hA, hF, Bool.and_eq_true, decide_eq_true_eq]
  rcases h with (h | h) | h
  · rw [if_pos h, if_pos h.2]
  · rw [if_neg (by omega), if_pos h, if_neg (by omega), if_neg (by omega)]
  · rw [if_neg (by omega), if_neg (by omega), if_pos h, if_neg (by omega), if_pos h.2]

theorem StrItem.unicode_hex {a b c d : Char} (h : (StrItem.unicode a b c d).valid = true) :
    hexVal a = some (hexNat a) ∧ hexVal b = some (hexNat b) ∧ hexVal c = some (hexNat c)
      ∧ hexVal d = some (hexNat d) := by
  simp only [StrItem.valid, Bool.and_eq_true] at h
  exact ⟨hexVal_hexNat a h.1.1.1, hexVal_hexNat b h.1.1.2, hexVal_hexNat c h.1.2,
    hexVal_hexNat d h.2⟩

/-- A `\u` escape met outside a surrogate pair. -/
theorem unquoteLoop_plain_unicode (a b c d : Char) (rest : GoString)
    (h : (StrItem.unicode a b c d).valid = true) :
    unquoteLoop .plain ('\\' :: 'u' :: a :: b :: c :: d :: rest)
      = if isHighSurrogate (codeUnit a b c d) then unquoteLoop (.hi (codeUnit a b c d)) rest
        else (unquoteLoop .plain rest).map (unitText (codeUnit a b c d) :: ·) := by
  obtain ⟨ha, hb, hc, hd⟩ := StrItem.unicode_hex h
  simp only [unquoteLoop, ha, hb, hc, hd, codeUnit, isHighSurrogate, unitText, isLowSurrogate,
    replacementChar, Bool.and_eq_true, Bool.or_eq_true, decide_eq_true_eq]
  simp only [show ((0 : Nat) < 3) = True by simp, show ((1 : Nat) < 3) = True by simp,
    show ((2 : Nat) < 3) = True by simp, show ((3 : Nat) < 3) = False by simp,
    show ¬ (('u' : Char) = '\\') by decide, if_true, if_false, Nat.zero_mul, Nat.zero_add,
    Bool.false_eq_true, Bool.or_self, if_false, Char.reduceEq]
  by_cases h1 : 0xD800 ≤ ((hexNat a * 16 + hexNat b) * 16 + hexNat c) * 16 + hexNat d
      ∧ ((hexNat a * 16 + hexNat b) * 16 + hexNat c) * 16 + hexNat d < 0xDC00
  · simp only [h1, and_self, if_true]
  · by_cases h2 : 0xDC00 ≤ ((hexNat a * 16 + hexNat b) * 16 + hexNat c) * 16 + hexNat d
        ∧ ((hexNat a * 16 + hexNat b) * 16 + hexNat c) * 16 + hexNat d < 0xE000
    · simp only [h1, h2, if_false, if_true, false_or, or_true, and_self]
    · simp only [h1, h2, if_false, or_self]

/-- A `\u` escape met right after a high surrogate. -/
theorem unquoteLoop_hi_unicode (high : Nat) (a b c d : Char) (rest : GoString)
    (h : (StrItem.unicode a b c d).valid = true) :
    unquoteLoop (.hi high) ('\\' :: 'u' :: a :: b :: c :: d :: rest)
      = if isLowSurrogate (codeUnit a b c d) then
          (unquoteLoop .plain rest).map (pairText high (codeUnit a b c d) :: ·)
        else if isHighSurrogate (codeUnit a b c d) then
          (unquoteLoop (.hi (codeUnit a b c d)) rest).map (Char.ofNat 0xFFFD :: ·)
        else (unquoteLoop .plain rest).map
          (fun out => Char.ofNat 0xFFFD :: Char.ofNat (codeUnit a b c d) :: out) := by
  obtain ⟨ha, hb, hc, hd⟩ := StrItem.unicode_hex h
  simp only [unquoteLoop, ha, hb, hc, hd, codeUnit, isHighSurrogate, pairText, isLowSurrogate,
    replacementChar, Bool.and_eq_true, decide_eq_true_eq]
  simp only [show ((0 : Nat) < 3) = True by simp, show ((1 : Nat) < 3) = True by simp,
    show ((2 : Nat) < 3) = True by simp, show ((3 : Nat) < 3) = False by simp,
    if_true, if_false, Nat.zero_mul, Nat.zero_add, Char.reduceEq]

theorem renderItems_cons (it : StrItem) (items : List StrItem) :
    renderItems (it :: items) = it.render ++ renderItems items := by
  simp [renderItems]

theorem stringText_unicode (a b c d : Char) (rest : List StrItem) :
    stringText (.unicode a b c d :: rest)
      = if isHighSurrogate (codeUnit a b c d) then textAfterHigh (codeUnit a b c d) rest
        else unitText (codeUnit a b c d) :: stringText rest := by
  by_cases hh : isHighSurrogate (codeUnit a b c d) = true
  · rw [if_pos hh]
    have hu : unitText (codeUnit a b c d) = Char.ofNat 0xFFFD := by simp [unitText, hh]
    cases rest with
    | nil => simp [stringText, textAfterHigh, hu]
    | cons it rest =>
      cases it with
      | plain x => simp [stringText, textAfterHigh, hu]
      | escape x => simp [stringText, textAfterHigh, hu]
      | unicode a2 b2 c2 d2 =>
        simp only [stringText, textAfterHigh, hh, Bool.true_and, hu]
  · rw [if_neg hh]
    cases rest with
    | nil => simp [stringText]
    | cons it rest =>
      cases it with
      | plain x => simp [stringText]
      | escape x => simp [stringText]
      | unicode a2 b2 c2 d2 =>
        simp only [Bool.not_eq_true] at hh
        simp only [stringText, hh, Bool.false_and, Bool.false_eq_true, if_false]

theorem simpleEscape_escapeText (c : Char) (h : (StrItem.escape c).valid = true) :
    c ≠ 'u' ∧ simpleEscape c = some (escapeText c) := by
  simp only [StrItem.valid, Bool.or_eq_true, decide_eq_true_eq] at h
  rcases h with ((((((rfl | rfl) | rfl) | rfl) | rfl) | rfl) | rfl) | rfl <;> decide

theorem unquoteLoop_plain_char (x : Char) (rest : GoString)
    (h : (StrItem.plain x).valid = true) :
    unquoteLoop .plain (x :: rest) = (unquoteLoop .plain rest).map (x :: ·)
      ∧ ∀ high, unquoteLoop (.hi high) (x :: rest)
          = (unquoteLoop .plain rest).map (fun out => replacementChar :: x :: out) := by
  simp only [StrItem.valid, Bool.and_eq_true, bne_iff_ne, ne_eq, decide_eq_true_eq] at h
  have hq : ¬ ((decide (x = '"') || decide (x.toNat < 32)) = true) := by
    simp only [Bool.or_eq_true, decide_eq_true_eq]
    rintro (hq | hq)
    · exact h.1.1 hq
    · omega
  constructor
  · rw [unquoteLoop, if_neg h.1.2, if_neg hq]
  · intro high
    rw [unquoteLoop, if_neg h.1.2, if_neg hq]

theorem unquoteLoop_escape_char (x : Char) (rest : GoString)
    (h : (StrItem.escape x).valid = true) :
    unquoteLoop .plain ('\\' :: x :: rest) = (unquoteLoop .plain rest).map (escapeText x :: ·)
      ∧ ∀ high, unquoteLoop (.hi high) ('\\' :: x :: rest)
          = (unquoteLoop .plain rest).map (fun out => replacementChar :: escapeText x :: out) := by
  obtain ⟨hu, hs⟩ := simpleEscape_escapeText x h
  constructor
  · rw [unquoteLoop, if_pos rfl, unquoteLoop, if_neg hu, hs]
  · intro high
    rw [unquoteLoop, if_pos rfl, unquoteLoop, if_neg hu, hs]

/-- Unquoting the body of a string literal gives the text it stands for, from the start and
after a pending high surrogate. -/
theorem unquoteLoop_items : ∀ items : List StrItem, items.all StrItem.valid = true →
    unquoteLoop .plain (renderItems items) = some (stringText items)
      ∧ ∀ high, unquoteLoop (.hi high) (renderItems items) = some (textAfterHigh high items) := by
  intro items
  induction items with
  | nil => intro _; exact ⟨rfl, fun _ => rfl⟩
  | cons it rest ih =>
    intro h
    simp only [List.all_cons, Bool.and_eq_true] at h
    obtain ⟨ih1, ih2⟩ := ih h.2
    rw [renderItems_cons]
    cases it with
    | plain x =>
      obtain ⟨h1, h2⟩ := unquoteLoop_plain_char x (renderItems rest) h.1
      constructor
      · show unquoteLoop .plain (x :: renderItems rest) = _
        rw [h1, ih1]
        rfl
      · intro high
        show unquoteLoop (.hi high) (x :: renderItems rest) = _
        rw [h2, ih1]
        rfl
    | escape x =>
      obtain ⟨h1, h2⟩ := unquoteLoop_escape_char x (renderItems rest) h.1
      constructor
      · show unquoteLoop .plain ('\\' :: x :: renderItems rest) = _
        rw [h1, ih1]
        rfl
      · intro high
        show unquoteLoop (.hi high) ('\\' :: x :: renderItems rest) = _
        rw [h2, ih1]
        rfl
    | unicode a b c d =>
      constructor
      · show unquoteLoop .plain ('\\' :: 'u' :: a :: b :: c :: d :: renderItems rest) = _
        rw [unquoteLoop_plain_unicode a b c d _ h.1, stringText_unicode]
        by_cases hh : isHighSurrogate (codeUnit a b c d) = true
        · rw [if_pos hh, if_pos hh, ih2]
        · rw [if_neg hh, if_neg hh, ih1]
          rfl
      · intro high
        show unquoteLoop (.hi high) ('\\' :: 'u' :: a :: b :: c :: d :: renderItems rest) = _
        rw [unquoteLoop_hi_unicode high a b c d _ h.1]
        by_cases hl : isLowSurrogate (codeUnit a b c d) = true
        · rw [if_pos hl, ih1]
          simp only [textAfterHigh, hl, if_true, Option.map_some']
        · rw [if_neg hl]
          simp only [textAfterHigh, hl, Bool.false_eq_true, if_false]
          rw [stringText_unicode]
          by_cases hh : isHighSurrogate (codeUnit a b c d) = true
          · rw [if_pos hh, if_pos hh, ih2]
            rfl
          · rw [if_neg hh, if_neg hh, ih1]
            simp only [Bool.not_eq_true] at hh hl
            simp only [unitText, hh, hl, Bool.or_self, Bool.false_eq_true, if_false,
              Option.map_some']

/-- Unquoting a string literal gives the text it stands for. -/
theorem unquote_renderString (items : List StrItem) (h : items.all StrItem.valid = true) :
    unquote (renderString items) = some (stringText items) := by
  unfold unquote renderString
  simp only [List.dropLast_concat]
  rw [if_pos (by simp)]
  exact (unquoteLoop_items items h).1

theorem parseDigits_value : ∀ (ds : GoString) (acc : Nat), allDigits ds = true →
    parseDigits acc ds
      = some (ds.foldl (fun acc c => acc * 10 + (c.toNat - '0'.toNat)) acc) := by
  intro ds
  induction ds with
  | nil => intro acc _; rfl
  | cons d ds ih =>
    intro acc h
    simp only [allDigits, List.all_cons, Bool.and_eq_true] at h
    simp only [parseDigits, h.1, if_true, List.foldl_cons]
    exact ih _ h.2

/-- An integer literal that fits a Go `int` parses to its value. -/
theorem parseInt_render (n : JNumber) (h : n.isInt = true) :
    parseInt n.render = some n.intValue := by
  simp only [JNumber.isInt, Bool.and_eq_true, decide_eq_true_eq, Option.isNone_iff_eq_none] at h
  obtain ⟨⟨⟨⟨hv, hfrac⟩, hexp⟩, hlo⟩, hhi⟩ := h
  simp only [JNumber.valid, Bool.and_eq_true] at hv
  obtain ⟨⟨⟨⟨hlead, hmore⟩, -⟩, -⟩, -⟩ := hv
  have hdm : n.lead ≠ '-' := isDigit_ne hlead _ (by decide)
  have hdp : n.lead ≠ '+' := isDigit_ne hlead _ (by decide)
  have hds : allDigits (n.lead :: n.more) = true := by
    simp only [allDigits, List.all_cons, Bool.and_eq_true] at hmore ⊢
    exact ⟨hlead, hmore⟩
  have hp := parseDigits_value (n.lead :: n.more) 0 hds
  have hrender : n.render = (if n.neg then ['-'] else []) ++ n.lead :: n.more := by
    simp [JNumber.render, hfrac, hexp, renderFrac, renderExp]
  rw [hrender]
  unfold JNumber.intValue digitsValue at *
  unfold parseInt
  by_cases hn : n.neg = true
  · simp only [hn, if_true, List.singleton_append, List.head?_cons, List.tail_cons, true_or] at *
    rw [if_neg (by simp), hp]
    simp only [decide_True, if_true]
    rw [if_pos (by omega)]
  · simp only [hn, Bool.false_eq_true, if_false, List.nil_append, List.head?_cons,
      Option.some.injEq, hdm, hdp, or_self, decide_False] at *
    rw [if_neg (by simp), hp]
    simp only [Bool.false_eq_true, if_false]
    rw [if_pos (by omega)]

/-! ### The decoder on written values -/

theorem decodeString_render (p : ParseState) (ps : List ParseState) (old : GoString)
    (s : List StrItem) (rest : GoString) (hs : s.all StrItem.valid = true)
    (hdepth : (p :: ps).length ≤ maxNestingDepth) (hrest : EndsNumberHead rest) :
    decodeString (p :: ps) old (renderString s ++ rest) = some (stringText s, rest) := by
  have hsplit := splitValue_render (.string s) p ps rest (by simpa [JValue.valid] using hs)
    (by simpa [JValue.depth] using hdepth) hrest
  have hr : (JValue.string s).render = renderString s := rfl
  rw [hr] at hsplit
  unfold decodeString
  rw [hsplit]
  simp only []
  rw [if_pos (by simp [renderString]), unquote_renderString s hs]

theorem JNumber.render_head (n : JNumber) (h : n.valid = true) :
    ∃ c cs, n.render = c :: cs ∧ (c = '-' ∨ isDigit c = true) := by
  simp only [JNumber.valid, Bool.and_eq_true] at h
  by_cases hn : n.neg = true
  · exact ⟨'-', n.lead :: (n.more ++ (renderFrac n.frac ++ renderExp n.exp)),
      by simp [JNumber.render, hn], Or.inl rfl⟩
  · exact ⟨n.lead, n.more ++ (renderFrac n.frac ++ renderExp n.exp),
      by simp [JNumber.render, hn], Or.inr h.1.1.1.1⟩

theorem decodeInt_render (p : ParseState) (ps : List ParseState) (old : Int) (n : JNumber)
    (rest : GoString) (hn : n.isInt = true)
    (hdepth : (p :: ps).length ≤ maxNestingDepth) (hrest : EndsNumberHead rest) :
    decodeInt (p :: ps) old (n.render ++ rest) = some (n.intValue, rest) := by
  have hv : n.valid = true := by
    simp only [JNumber.isInt, Bool.and_eq_true] at hn
    exact hn.1.1.1.1
  have hsplit := splitValue_render (.number n) p ps rest (by simpa [JValue.valid] using hv)
    (by simpa [JValue.depth] using hdepth) hrest
  have hr : (JValue.number n).render = n.render := rfl
  rw [hr] at hsplit
  obtain ⟨c, cs, hc, hhead⟩ := JNumber.render_head n hv
  have hcn : c ≠ 'n' := by
    rcases hhead with rfl | hd
    · decide
    · exact isDigit_ne hd _ (by decide)
  unfold decodeInt
  rw [hsplit]
  simp only []
  rw [if_neg (by rw [hc]; simpa using hcn),
    if_pos (by rw [hc]; rcases hhead with rfl | hd <;> simp [*]), parseInt_render n hn]

theorem decodeRaw_render (p : ParseState) (ps : List ParseState) (v : JValue)
    (rest : GoString) (hv : v.valid = true)
    (hdepth : (p :: ps).length + v.depth ≤ maxNestingDepth) (hrest : EndsNumberHead rest) :
    decodeRaw (p :: ps) (v.render ++ rest) = some (some v.render, rest) := by
  unfold decodeRaw
  rw [splitValue_render v p ps rest hv hdepth hrest]

theorem skipValue_render {σ : Type} (p : ParseState) (ps : List ParseState) (acc : σ)
    (v : JValue) (rest : GoString) (hv : v.valid = true)
    (hdepth : (p :: ps).length + v.depth ≤ maxNestingDepth) (hrest : EndsNumberHead rest) :
    skipValue (p :: ps) acc (v.render ++ rest) = some (acc, rest) := by
  unfold skipValue
  rw [splitValue_render v p ps rest hv hdepth hrest]

theorem skipSpace_nonSpace (t rest : GoString) (h : NonSpaceHead t) :
    skipSpace (t ++ rest) = t ++ rest := by
  obtain ⟨c, cs, rfl, hc⟩ := h
  simp [skipSpace, hc]

theorem skipSpace_cons (c : Char) (cs : GoString) (h : isSpace c = false) :
    skipSpace (c :: cs) = c :: cs := by
  simp [skipSpace, h]

theorem skipSpace_space (ws t : GoString) (h : allSpace ws = true) :
    skipSpace (ws ++ t) = skipSpace t := by
  induction ws with
  | nil => rfl
  | cons c ws ih =>
    simp only [allSpace, List.all_cons, Bool.and_eq_true] at h
    simp only [List.cons_append, skipSpace, h.1, if_true]
    exact ih h.2

theorem skipSpace_all (ws : GoString) (h : allSpace ws = true) : skipSpace ws = [] := by
  have := skipSpace_space ws [] h
  simpa [skipSpace] using this

theorem JValue.value_nonSpace (v : JValue) (hv : v.valid = true) : NonSpaceHead v.render := by
  cases v with
  | null => exact ⟨'n', _, rfl, by decide⟩
  | bool b => cases b <;> exact ⟨_, _, rfl, by decide⟩
  | number n =>
    simp only [JValue.valid, JNumber.valid, Bool.and_eq_true] at hv
    simp only [JValue.render, JNumber.render]
    by_cases hn : n.neg = true
    · rw [if_pos hn]
      exact ⟨'-', _, rfl, by decide⟩
    · rw [if_neg hn]
      exact ⟨n.lead, _, rfl, isDigit_not_space hv.1.1.1.1⟩
  | string items => exact ⟨'"', _, rfl, by decide⟩
  | emptyArray ws => exact ⟨'[', _, rfl, by decide⟩
  | array wsBefore first wsAfter others =>
    exact ⟨'[', wsBefore ++ first.render ++ wsAfter ++ others.render ++ [']'],
      by simp [JValue.render], by decide⟩
  | emptyObject ws => exact ⟨'{', _, rfl, by decide⟩
  | object wsBefore key wsKey wsColon first wsAfter others =>
    exact ⟨'{', wsBefore ++ '"' :: (renderItems key ++ '"' :: (wsKey ++ ':' :: (wsColon
      ++ first.render ++ wsAfter ++ others.render ++ ['}']))),
      by simp [JValue.render], by decide⟩

theorem JNumber.number_nonSpace (n : JNumber) (h : n.valid = true) : NonSpaceHead n.render :=
  JValue.value_nonSpace (.number n) (by simpa [JValue.valid] using h)

theorem renderString_nonSpace (s : List StrItem) : NonSpaceHead (renderString s) :=
  ⟨'"', _, rfl, by decide⟩

theorem renderObject_nonSpace (inner : GoString) (ms : List GoString) :
    NonSpaceHead (renderObject inner ms) := ⟨'{', _, rfl, by decide⟩

theorem renderArray_nonSpace (inner : GoString) (es : List GoString) :
    NonSpaceHead (renderArray inner es) := ⟨'[', _, rfl, by decide⟩

theorem commaJoin_cons_cons (x y : GoString) (rest : List GoString) :
    commaJoin (x :: y :: rest) = x ++ ',' :: commaJoin (y :: rest) := rfl

/-- The text of a member and what follows it, token by token. -/
theorem Entry.render_append {φ : Type} (text : φ → GoString) (e : Entry φ) (tail : GoString) :
    Entry.render text e ++ tail
      = e.gaps.beforeKey ++ (renderString e.key ++ (e.gaps.afterKey
          ++ ':' :: (e.gaps.beforeValue ++ (text e.field ++ (e.gaps.afterValue ++ tail))))) := by
  simp [Entry.render]

/-- One round of the member loop, the input standing at the key. -/
theorem decodeMembers_step {σ : Type} (ctx : List ParseState)
    (hctx : ctx.length + 1 ≤ maxNestingDepth)
    (field : GoString → σ → GoString → Option (σ × GoString))
    (fuel : Nat) (acc acc1 : σ) (g : Gaps) (key : List StrItem) (valueText tail : GoString)
    (hg : g.valid = true) (hkey : key.all StrItem.valid = true)
    (hns : NonSpaceHead valueText)
    (hfield : field (stringText key) acc (valueText ++ (g.afterValue ++ tail))
      = some (acc1, g.afterValue ++ tail)) :
    decodeMembers ctx field (fuel + 1) acc
        (renderString key ++ (g.afterKey
          ++ ':' :: (g.beforeValue ++ (valueText ++ (g.afterValue ++ tail)))))
      = match skipSpace tail with
        | ',' :: rest3 => decodeMembers ctx field fuel acc1 (skipSpace rest3)
        | '}' :: rest3 => some (acc1, rest3)
        | _ => none := by
  simp only [Gaps.valid, Bool.and_eq_true] at hg
  obtain ⟨⟨⟨-, hg2⟩, hg3⟩, hg4⟩ := hg
  have hsplit : splitValue (.objectKey :: ctx)
      (renderString key ++ (g.afterKey
        ++ ':' :: (g.beforeValue ++ (valueText ++ (g.afterValue ++ tail)))))
      = some (renderString key,
          g.afterKey ++ ':' :: (g.beforeValue ++ (valueText ++ (g.afterValue ++ tail)))) :=
    splitValue_render (.string key) .objectKey ctx _ (by simpa [JValue.valid] using hkey)
      (by simpa [JValue.depth] using hctx)
      (endsNumberHead_space _ _ hg2 (endsNumberHead_cons ':' _ (by decide)))
  have hhead : (renderString key ++ (g.afterKey
      ++ ':' :: (g.beforeValue ++ (valueText ++ (g.afterValue ++ tail))))).head? = some '"' := by
    simp [renderString]
  rw [decodeMembers, if_pos hhead, hsplit]
  simp only []
  rw [unquote_renderString key hkey]
  simp only []
  rw [skipSpace_space _ _ hg2, skipSpace_cons ':' _ (by decide)]
  simp only []
  rw [skipSpace_space _ _ hg3, skipSpace_nonSpace _ _ hns, hfield]
  simp only []
  rw [skipSpace_space _ _ hg4]

/-- The input once the whitespace before the first member is passed. -/
theorem skipSpace_members {φ : Type} (text : φ → GoString) (e : Entry φ)
    (es : List (Entry φ)) (tail : GoString) (hg : e.gaps.valid = true) :
    ∃ tl, commaJoin ((e :: es).map (Entry.render text)) ++ tail = Entry.render text e ++ tl
      ∧ skipSpace (commaJoin ((e :: es).map (Entry.render text)) ++ tail)
        = '"' :: (renderItems e.key ++ '"' :: (e.gaps.afterKey
            ++ ':' :: (e.gaps.beforeValue ++ (text e.field ++ (e.gaps.afterValue ++ tl))))) := by
  simp only [Gaps.valid, Bool.and_eq_true] at hg
  have hform : ∀ tl, skipSpace (Entry.render text e ++ tl)
      = '"' :: (renderItems e.key ++ '"' :: (e.gaps.afterKey
          ++ ':' :: (e.gaps.beforeValue ++ (text e.field ++ (e.gaps.afterValue ++ tl))))) := by
    intro tl
    rw [Entry.render_append, skipSpace_space _ _ hg.1.1.1]
    simp only [renderString, List.cons_append, List.append_assoc, List.nil_append]
    exact skipSpace_cons '"' _ (by decide)
  cases es with
  | nil =>
    refine ⟨tail, by simp [commaJoin], ?_⟩
    simp only [List.map_cons, List.map_nil, commaJoin]
    exact hform tail
  | cons e2 es2 =>
    refine ⟨',' :: (commaJoin ((e2 :: es2).map (Entry.render text)) ++ tail),
      by simp [commaJoin_cons_cons], ?_⟩
    simp only [List.map_cons, commaJoin_cons_cons, List.append_assoc, List.cons_append]
    exact hform _

/-- The loop over the members of an object: when `field` decodes the value of each member
into the struct built from the members before it, the members are decoded in order. -/
theorem decodeMembers_loop {σ φ : Type} (ctx : List ParseState)
    (hctx : ctx.length + 1 ≤ maxNestingDepth)
    (field : GoString → σ → GoString → Option (σ × GoString))
    (text : φ → GoString) (assign : σ → φ → σ) :
    ∀ (members : List (Entry φ)) (fuel : Nat) (acc : σ) (rest : GoString),
      members ≠ [] → members.length ≤ fuel →
      (∀ e ∈ members, e.gaps.valid = true ∧ e.key.all StrItem.valid = true
        ∧ NonSpaceHead (text e.field)) →
      (∀ pre e post, members = pre ++ e :: post → ∀ r, EndsNumberHead r →
        field (stringText e.key) (pre.foldl (fun a x => assign a x.field) acc)
            (text e.field ++ r)
          = some (assign (pre.foldl (fun a x => assign a x.field) acc) e.field, r)) →
      decodeMembers ctx field fuel acc
          (skipSpace (commaJoin (members.map (Entry.render text)) ++ '}' :: rest))
        = some (members.foldl (fun a x => assign a x.field) acc, rest) := by
  intro members
  induction members with
  | nil => intro fuel acc rest h; exact absurd rfl h
  | cons e es ih =>
    intro fuel acc rest _ hfuel hok hfield
    cases fuel with
    | zero => simp at hfuel
    | succ fuel =>
      obtain ⟨hg, hk, hns⟩ := hok e (List.mem_cons_self _ _)
      have he := hfield [] e es rfl
      simp only [List.foldl_nil] at he
      have hg' := hg
      simp only [Gaps.valid, Bool.and_eq_true] at hg'
      cases es with
      | nil =>
        simp only [List.map_cons, List.map_nil, commaJoin, List.foldl_cons, List.foldl_nil]
        rw [Entry.render_append, skipSpace_space _ _ hg'.1.1.1,
          skipSpace_nonSpace _ _ (renderString_nonSpace _)]
        rw [decodeMembers_step ctx hctx field fuel acc (assign acc e.field) e.gaps e.key
          (text e.field) _ hg hk hns
          (he _ (endsNumberHead_space _ _ hg'.2 (endsNumberHead_cons '}' rest (by decide))))]
        rw [skipSpace_cons '}' _ (by decide)]
        rfl
      | cons e2 es2 =>
        have hih := ih fuel (assign acc e.field) rest (by simp) (by simpa using hfuel)
          (fun x hx => hok x (List.mem_cons_of_mem _ hx))
          (fun pre x post hsplit r hr => by
            have := hfield (e :: pre) x post (by rw [hsplit]; rfl) r hr
            simpa only [List.foldl_cons] using this)
        simp only [List.map_cons, commaJoin_cons_cons, List.foldl_cons] at hih ⊢
        rw [List.append_assoc, List.cons_append, Entry.render_append,
          skipSpace_space _ _ hg'.1.1.1, skipSpace_nonSpace _ _ (renderString_nonSpace _)]
        rw [decodeMembers_step ctx hctx field fuel acc (assign acc e.field) e.gaps e.key
          (text e.field) _ hg hk hns
          (he _ (endsNumberHead_space _ _ hg'.2 (endsNumberHead_cons ',' _ (by decide))))]
        rw [skipSpace_cons ',' _ (by decide)]
        exact hih

/-- Decoding an object as written into a struct. -/
theorem decodeStruct_object {σ φ : Type} (ctx : List ParseState)
    (hctx : ctx.length + 1 ≤ maxNestingDepth)
    (field : GoString → σ → GoString → Option (σ × GoString))
    (text : φ → GoString) (assign : σ → φ → σ)
    (inner : GoString) (members : List (Entry φ)) (fuel : Nat) (acc : σ) (rest : GoString)
    (hinner : allSpace inner = true) (hfuel : members.length ≤ fuel)
    (hok : ∀ e ∈ members, e.gaps.valid = true ∧ e.key.all StrItem.valid = true
      ∧ NonSpaceHead (text e.field))
    (hfield : ∀ pre e post, members = pre ++ e :: post → ∀ r, EndsNumberHead r →
      field (stringText e.key) (pre.foldl (fun a x => assign a x.field) acc)
          (text e.field ++ r)
        = some (assign (pre.foldl (fun a x => assign a x.field) acc) e.field, r)) :
    decodeStruct ctx field fuel acc
        (renderObject inner (members.map (Entry.render text)) ++ rest)
      = some (members.foldl (fun a x => assign a x.field) acc, rest) := by
  cases members with
  | nil =>
    simp only [renderObject, List.map_nil, List.isEmpty_nil, if_true, List.cons_append,
      List.append_assoc, List.singleton_append, decodeStruct, List.foldl_nil, List.nil_append]
    rw [skipSpace_space _ _ hinner, skipSpace_cons '}' _ (by decide)]
    rfl
  | cons e es =>
    have hloop := decodeMembers_loop ctx hctx field text assign (e :: es) fuel acc rest
      (by simp) hfuel hok hfield
    obtain ⟨tl, -, hsk⟩ := skipSpace_members text e es ('}' :: rest)
      (hok e (List.mem_cons_self _ _)).1
    rw [hsk] at hloop
    simp only [renderObject, List.map_cons, List.isEmpty_cons, Bool.false_eq_true, if_false,
      List.cons_append, List.append_assoc, List.singleton_append, decodeStruct,
      List.nil_append]
    simp only [List.map_cons] at hsk
    rw [hsk]
    exact hloop

/-- The loop over the elements of an array decoded into a slice without a backing array:
every element is decoded from the zero value. -/
theorem decodeElems_loop {α : Type} (elem : α → GoString → Option (α × GoString)) (zero : α)
    (val : Block → α) :
    ∀ (bs : List Block) (fuel : Nat) (rest : GoString),
      bs ≠ [] → bs.length ≤ fuel →
      (∀ b ∈ bs, allSpace b.before = true ∧ allSpace b.after = true) →
      (∀ b ∈ bs, ∀ r, EndsNumberHead r → elem zero (b.object ++ r) = some (val b, r)) →
      decodeElems elem zero fuel []
          (skipSpace (commaJoin (bs.map Block.render) ++ ']' :: rest))
        = some (bs.map val, rest) := by
  intro bs
  induction bs with
  | nil => intro fuel rest h; exact absurd rfl h
  | cons b bs ih =>
    intro fuel rest _ hfuel hws helem
    cases fuel with
    | zero => simp at hfuel
    | succ fuel =>
      have hb := helem b (List.mem_cons_self _ _)
      obtain ⟨hw1, hw2⟩ := hws b (List.mem_cons_self _ _)
      have hns : NonSpaceHead b.object := renderObject_nonSpace _ _
      cases bs with
      | nil =>
        simp only [List.map_cons, List.map_nil, commaJoin, Block.render, List.append_assoc]
        rw [skipSpace_space _ _ hw1, skipSpace_nonSpace _ _ hns, decodeElems]
        simp only [List.headD_nil]
        rw [hb _ (endsNumberHead_space _ _ hw2 (endsNumberHead_cons ']' rest (by decide)))]
        simp only []
        rw [skipSpace_space _ _ hw2, skipSpace_cons ']' _ (by decide)]
        rfl
      | cons b2 bs2 =>
        have hih := ih fuel rest (by simp) (by simpa using hfuel)
          (fun x hx => hws x (List.mem_cons_of_mem _ hx))
          (fun x hx => helem x (List.mem_cons_of_mem _ hx))
        simp only [List.map_cons, commaJoin_cons_cons] at hih ⊢
        simp only [Block.render, List.append_assoc, List.cons_append] at hih ⊢
        rw [skipSpace_space _ _ hw1, skipSpace_nonSpace _ _ hns, decodeElems]
        simp only [List.headD_nil, List.tail_nil]
        rw [hb _ (endsNumberHead_space _ _ hw2 (endsNumberHead_cons ',' _ (by decide)))]
        simp only []
        rw [skipSpace_space _ _ hw2, skipSpace_cons ',' _ (by decide)]
        simp only []
        rw [hih]

/-- Decoding an array of blocks as written into a slice without a backing array. -/
theorem decodeSlice_array {α : Type} (ctx : List ParseState)
    (elem : α → GoString → Option (α × GoString)) (zero : α) (val : Block → α)
    (inner : GoString) (bs : List Block) (fuel : Nat) (rest : GoString)
    (hinner : allSpace inner = true) (hfuel : bs.length ≤ fuel)
    (hws : ∀ b ∈ bs, allSpace b.before = true ∧ allSpace b.after = true)
    (helem : ∀ b ∈ bs, ∀ r, EndsNumberHead r → elem zero (b.object ++ r) = some (val b, r)) :
    decodeSlice ctx elem zero fuel ⟨[], []⟩ (renderArray inner (bs.map Block.render) ++ rest)
      = some (⟨bs.map val, []⟩, rest) := by
  cases bs with
  | nil =>
    simp only [renderArray, List.map_nil, List.isEmpty_nil, if_true, List.cons_append,
      List.append_assoc, List.singleton_append, decodeSlice, List.nil_append]
    rw [skipSpace_space _ _ hinner, skipSpace_cons ']' _ (by decide)]
    rfl
  | cons b bs =>
    have hloop := decodeElems_loop elem zero val (b :: bs) fuel rest (by simp) hfuel hws helem
    obtain ⟨hw1, -⟩ := hws b (List.mem_cons_self _ _)
    have hsk : ∃ tl, skipSpace (commaJoin ((b :: bs).map Block.render) ++ ']' :: rest)
        = '{' :: tl := by
      cases bs with
      | nil =>
        simp only [List.map_cons, List.map_nil, commaJoin, Block.render, List.append_assoc]
        rw [skipSpace_space _ _ hw1]
        exact ⟨_, skipSpace_cons '{' _ (by decide)⟩
      | cons b2 bs2 =>
        simp only [List.map_cons, commaJoin_cons_cons, Block.render, List.append_assoc]
        rw [skipSpace_space _ _ hw1]
        exact ⟨_, skipSpace_cons '{' _ (by decide)⟩
    obtain ⟨tl, hsk⟩ := hsk
    rw [hsk] at hloop
    simp only [renderArray, List.isEmpty_cons, List.map_cons, Bool.false_eq_true, if_false,
      List.cons_append, List.append_assoc, List.singleton_append, decodeSlice,
      List.nil_append]
    simp only [List.map_cons] at hsk
    rw [hsk]
    show (match decodeElems elem zero fuel [] ('{' :: tl) with
      | none => none
      | some (as, rest2) => some ((⟨as, ([] : List α).drop as.length⟩ : Slice α), rest2)) = _
    rw [hloop]
    simp only [List.drop_nil, List.map_cons]

/-! ### Response bodies through the decoder -/

theorem keyMatches_fold {key name : GoString} (h : keyMatches key name = true) :
    foldName key = foldName name := by
  simp only [keyMatches, Bool.or_eq_true, decide_eq_true_eq] at h
  rcases h with rfl | h
  · rfl
  · exact h

/-- A key selects at most one field: names that fold differently exclude each other. -/
theorem keyMatches_ne {key a b : GoString} (h : keyMatches key a = true)
    (hab : foldName a ≠ foldName b) : keyMatches key b = false := by
  have hf := keyMatches_fold h
  by_contra hc
  simp only [Bool.not_eq_false] at hc
  exact hab (by rw [← hf, keyMatches_fold hc])

theorem BlockField.block_nonSpace (f : BlockField) (hf : f.valid = true) :
    NonSpaceHead f.render := by
  cases f with
  | typ s => exact renderString_nonSpace s
  | text s => exact renderString_nonSpace s
  | id s => exact renderString_nonSpace s
  | name s => exact renderString_nonSpace s
  | input v =>
    simp only [BlockField.valid, Bool.and_eq_true] at hf
    exact JValue.value_nonSpace v hf.1
  | other v =>
    simp only [BlockField.valid, Bool.and_eq_true] at hf
    exact JValue.value_nonSpace v hf.1

/-- The decoder on one member of a content block. -/
theorem contentField_member (f : BlockField) (key : GoString)
    (hkey : f.keyOK key = true) (hf : f.valid = true) (c : Content) (r : GoString)
    (hr : EndsNumberHead r) :
    contentField [.objectValue, .arrayValue, .objectValue] key c (f.render ++ r)
      = some (BlockField.assign c f, r) := by
  have hdepth : ([ParseState.objectValue, .arrayValue, .objectValue]).length ≤ maxNestingDepth := by
    decide
  have hstr : ∀ (old : GoString) (s : List StrItem), s.all StrItem.valid = true →
      decodeString [.objectValue, .arrayValue, .objectValue] old (renderString s ++ r)
        = some (stringText s, r) :=
    fun old s hs => decodeString_render _ _ old s r hs hdepth hr
  unfold contentField
  cases f with
  | typ s =>
    simp only [BlockField.keyOK] at hkey
    simp only [hkey, if_true, BlockField.render, hstr _ s hf]
    rfl
  | text s =>
    simp only [BlockField.keyOK] at hkey
    simp only [keyMatches_ne hkey (b := "type".toList) (by decide), hkey, if_true,
      Bool.false_eq_true, if_false, BlockField.render, hstr _ s hf]
    rfl
  | id s =>
    simp only [BlockField.keyOK] at hkey
    simp only [keyMatches_ne hkey (b := "type".toList) (by decide),
      keyMatches_ne hkey (b := "text".toList) (by decide), hkey, if_true,
      Bool.false_eq_true, if_false, BlockField.render, hstr _ s hf]
    rfl
  | name s =>
    simp only [BlockField.keyOK] at hkey
    simp only [keyMatches_ne hkey (b := "type".toList) (by decide),
      keyMatches_ne hkey (b := "text".toList) (by decide),
      keyMatches_ne hkey (b := "id".toList) (by decide), hkey, if_true,
      Bool.false_eq_true, if_false, BlockField.render, hstr _ s hf]
    rfl
  | input v =>
    simp only [BlockField.keyOK] at hkey
    simp only [BlockField.valid, Bool.and_eq_true, decide_eq_true_eq] at hf
    simp only [keyMatches_ne hkey (b := "type".toList) (by decide),
      keyMatches_ne hkey (b := "text".toList) (by decide),
      keyMatches_ne hkey (b := "id".toList) (by decide),
      keyMatches_ne hkey (b := "name".toList) (by decide), hkey, if_true,
      Bool.false_eq_true, if_false, BlockField.render]
    rw [decodeRaw_render _ _ v r hf.1
      (by simp only [List.length_cons, List.length_nil]; omega) hr]
    rfl
  | other v =>
    simp only [BlockField.keyOK, unknownBlockKey, Bool.and_eq_true, Bool.not_eq_true'] at hkey
    simp only [BlockField.valid, Bool.and_eq_true, decide_eq_true_eq] at hf
    obtain ⟨⟨⟨⟨h1, h2⟩, h3⟩, h4⟩, h5⟩ := hkey
    simp only [h1, h2, h3, h4, h5, Bool.false_eq_true, if_false, BlockField.render]
    rw [skipValue_render _ _ _ v r hf.1
      (by simp only [List.length_cons, List.length_nil]; omega) hr]
    rfl

theorem Entry.valid_parts {φ : Type} {keyOK : φ → GoString → Bool} {fieldOK : φ → Bool}
    {e : Entry φ} (h : e.valid keyOK fieldOK = true) :
    e.gaps.valid = true ∧ e.key.all StrItem.valid = true
      ∧ keyOK e.field (stringText e.key) = true ∧ fieldOK e.field = true := by
  simp only [Entry.valid, Bool.and_eq_true] at h
  exact ⟨h.1.1.1, h.1.1.2, h.1.2, h.2⟩

/-- Decoding a block as written into a `Content`: its members speak in order. -/
theorem decode_block (b : Block) (hb : b.wellFormed = true) (fuel : Nat)
    (hfuel : b.members.length ≤ fuel) (base : Content) (r : GoString) :
    decodeStruct [.arrayValue, .objectValue]
        (contentField [.objectValue, .arrayValue, .objectValue]) fuel base (b.object ++ r)
      = some (b.members.foldl (fun c e => BlockField.assign c e.field) base, r) := by
  simp only [Block.wellFormed, Bool.and_eq_true, List.all_eq_true] at hb
  obtain ⟨⟨⟨-, hinner⟩, -⟩, hms⟩ := hb
  exact decodeStruct_object [.arrayValue, .objectValue] (by decide) _ BlockField.render
    BlockField.assign b.inner b.members fuel base r hinner hfuel
    (fun e he => by
      obtain ⟨h1, h2, -, h4⟩ := Entry.valid_parts (hms e he)
      exact ⟨h1, h2, BlockField.block_nonSpace _ h4⟩)
    (fun pre e post hsplit r hr => by
      obtain ⟨-, -, h3, h4⟩ := Entry.valid_parts (hms e (by rw [hsplit]; simp))
      exact contentField_member e.field _ h3 h4 _ r hr)

theorem UsageField.usage_nonSpace (f : UsageField) (hf : f.valid = true) :
    NonSpaceHead f.render := by
  cases f with
  | inputTokens n =>
    simp only [UsageField.valid, JNumber.isInt, Bool.and_eq_true] at hf
    exact JNumber.number_nonSpace n hf.1.1.1.1
  | outputTokens n =>
    simp only [UsageField.valid, JNumber.isInt, Bool.and_eq_true] at hf
    exact JNumber.number_nonSpace n hf.1.1.1.1
  | other v =>
    simp only [UsageField.valid, Bool.and_eq_true] at hf
    exact JValue.value_nonSpace v hf.1

/-- The decoder on one member of the `usage` object. -/
theorem usageField_member (f : UsageField) (key : GoString)
    (hkey : f.keyOK key = true) (hf : f.valid = true) (u : Usage) (r : GoString)
    (hr : EndsNumberHead r) :
    usageField [.objectValue, .objectValue] key u (f.render ++ r)
      = some (UsageField.assign u f, r) := by
  have hdepth : ([ParseState.objectValue, .objectValue]).length ≤ maxNestingDepth := by decide
  unfold usageField
  cases f with
  | inputTokens n =>
    simp only [UsageField.keyOK] at hkey
    simp only [UsageField.valid] at hf
    simp only [hkey, if_true, UsageField.render, decodeInt_render _ _ _ n r hf hdepth hr]
    rfl
  | outputTokens n =>
    simp only [UsageField.keyOK] at hkey
    simp only [UsageField.valid] at hf
    simp only [keyMatches_ne hkey (b := "input_tokens".toList) (by decide), hkey, if_true,
      Bool.false_eq_true, if_false, UsageField.render,
      decodeInt_render _ _ _ n r hf hdepth hr]
    rfl
  | other v =>
    simp only [UsageField.keyOK, unknownUsageKey, Bool.and_eq_true, Bool.not_eq_true'] at hkey
    simp only [UsageField.valid, Bool.and_eq_true, decide_eq_true_eq] at hf
    simp only [hkey.1, hkey.2, Bool.false_eq_true, if_false, UsageField.render]
    rw [skipValue_render _ _ _ v r hf.1
      (by simp only [List.length_cons, List.length_nil]; omega) hr]
    rfl

/-- Decoding a `usage` object as written: its members speak in order. -/
theorem decode_usage (inner : GoString) (members : List (Entry UsageField))
    (hinner : allSpace inner = true)
    (hms : ∀ e ∈ members, e.valid UsageField.keyOK UsageField.valid = true)
    (fuel : Nat) (hfuel : members.length ≤ fuel) (base : Usage) (r : GoString) :
    decodeStruct [.objectValue] (usageField [.objectValue, .objectValue]) fuel base
        (renderObject inner (members.map (Entry.render UsageField.render)) ++ r)
      = some (members.foldl (fun u e => UsageField.assign u e.field) base, r) :=
  decodeStruct_object [.objectValue] (by decide) _ UsageField.render
    UsageField.assign inner members fuel base r hinner hfuel
    (fun e he => by
      obtain ⟨h1, h2, -, h4⟩ := Entry.valid_parts (hms e he)
      exact ⟨h1, h2, UsageField.usage_nonSpace _ h4⟩)
    (fun pre e post hsplit r hr => by
      obtain ⟨-, -, h3, h4⟩ := Entry.valid_parts (hms e (by rw [hsplit]; simp))
      exact usageField_member e.field _ h3 h4 _ r hr)

/-! ### Lengths: the fuel of the decoder suffices -/

theorem commaJoin_mem_length : ∀ (xs : List GoString) (x : GoString), x ∈ xs →
    x.length ≤ (commaJoin xs).length := by
  intro xs
  induction xs with
  | nil => intro x hx; simp at hx
  | cons y ys ih =>
    intro x hx
    cases ys with
    | nil =>
      simp only [List.mem_singleton] at hx
      subst hx
      simp [commaJoin]
    | cons z zs =>
      simp only [commaJoin_cons_cons, List.length_append, List.length_cons]
      rcases List.mem_cons.mp hx with rfl | hx
      · omega
      · have := ih x hx
        omega

theorem commaJoin_count (xs : List GoString) (hne : ∀ x ∈ xs, x ≠ []) :
    xs.length ≤ (commaJoin xs).length := by
  induction xs with
  | nil => simp
  | cons y ys ih =>
    cases ys with
    | nil =>
      have := List.length_pos.mpr (hne y (by simp))
      simpa [commaJoin] using this
    | cons z zs =>
      have := ih (fun x hx => hne x (List.mem_cons_of_mem _ hx))
      simp only [commaJoin_cons_cons, List.length_append, List.length_cons] at this ⊢
      omega

theorem renderObject_length (inner : GoString) (xs : List GoString)
    (hne : ∀ x ∈ xs, x ≠ []) :
    xs.length ≤ (renderObject inner xs).length
      ∧ ∀ x ∈ xs, x.length ≤ (renderObject inner xs).length := by
  cases xs with
  | nil => simp
  | cons y ys =>
    have h1 := commaJoin_count (y :: ys) hne
    refine ⟨?_, fun x hx => ?_⟩
    · simp only [renderObject, List.isEmpty_cons, Bool.false_eq_true, if_false,
        List.length_cons, List.length_append, List.length_nil] at h1 ⊢
      omega
    · have h2 := commaJoin_mem_length (y :: ys) x hx
      simp only [renderObject, List.isEmpty_cons, Bool.false_eq_true, if_false,
        List.length_cons, List.length_append, List.length_nil] at h2 ⊢
      omega

theorem renderArray_length (inner : GoString) (xs : List GoString)
    (hne : ∀ x ∈ xs, x ≠ []) :
    xs.length ≤ (renderArray inner xs).length
      ∧ ∀ x ∈ xs, x.length ≤ (renderArray inner xs).length := by
  cases xs with
  | nil => simp
  | cons y ys =>
    have h1 := commaJoin_count (y :: ys) hne
    refine ⟨?_, fun x hx => ?_⟩
    · simp only [renderArray, List.isEmpty_cons, Bool.false_eq_true, if_false,
        List.length_cons, List.length_append, List.length_nil] at h1 ⊢
      omega
    · have h2 := commaJoin_mem_length (y :: ys) x hx
      simp only [renderArray, List.isEmpty_cons, Bool.false_eq_true, if_false,
        List.length_cons, List.length_append, List.length_nil] at h2 ⊢
      omega

theorem Entry.render_length {φ : Type} (text : φ → GoString) (e : Entry φ) :
    Entry.render text e ≠ [] ∧ (text e.field).length ≤ (Entry.render text e).length := by
  constructor
  · intro h
    have := congrArg List.length h
    simp [Entry.render, renderString] at this
  · simp only [Entry.render, List.length_append, List.length_cons]
    omega

/-- An object as written is at least as long as the number of its members and as the text of
each member's value. -/
theorem entries_length {φ : Type} (text : φ → GoString) (inner : GoString)
    (members : List (Entry φ)) :
    members.length ≤ (renderObject inner (members.map (Entry.render text))).length
      ∧ ∀ e ∈ members,
          (text e.field).length ≤ (renderObject inner (members.map (Entry.render text))).length := by
  have h := renderObject_length inner (members.map (Entry.render text)) (by
    intro x hx
    simp only [List.mem_map] at hx
    obtain ⟨e, -, rfl⟩ := hx
    exact (Entry.render_length text e).1)
  rw [List.length_map] at h
  refine ⟨h.1, fun e he => ?_⟩
  have h1 := h.2 (Entry.render text e) (List.mem_map_of_mem _ he)
  have h2 := (Entry.render_length text e).2
  omega

theorem Block.object_length (b : Block) :
    b.members.length ≤ b.render.length ∧ b.render ≠ [] := by
  have h := (entries_length BlockField.render b.inner b.members).1
  constructor
  · simp only [Block.render, Block.object, List.length_append] at h ⊢
    omega
  · intro hnil
    have := congrArg List.length hnil
    simp [Block.render, Block.object, renderObject] at this

/-- The text of a `content` array is at least as long as the number of its blocks and as
the number of members of each block. -/
theorem blocks_length (inner : GoString) (blocks : List Block) :
    blocks.length ≤ (renderArray inner (blocks.map Block.render)).length
      ∧ ∀ b ∈ blocks,
          b.members.length ≤ (renderArray inner (blocks.map Block.render)).length := by
  have h := renderArray_length inner (blocks.map Block.render) (by
    intro x hx
    simp only [List.mem_map] at hx
    obtain ⟨b, -, rfl⟩ := hx
    exact (Block.object_length b).2)
  rw [List.length_map] at h
  refine ⟨h.1, fun b hb => ?_⟩
  have h1 := h.2 b.render (List.mem_map_of_mem _ hb)
  have h2 := (Block.object_length b).1
  omega

/-! ### The response object -/

theorem Field.field_nonSpace (f : Field) (hf : f.valid = true) : NonSpaceHead f.render := by
  cases f with
  | id s => exact renderString_nonSpace s
  | typ s => exact renderString_nonSpace s
  | role s => exact renderString_nonSpace s
  | content inner blocks => exact renderArray_nonSpace _ _
  | model s => exact renderString_nonSpace s
  | stopReason s => exact renderString_nonSpace s
  | usage inner members => exact renderObject_nonSpace _ _
  | other v =>
    simp only [Field.valid, Bool.and_eq_true] at hf
    exact JValue.value_nonSpace v hf.1

/-- The decoder on one member of the response object. A `content` array is decoded into a
slice that has no backing array yet. -/
theorem responseField_member (fuel : Nat) (f : Field) (key : GoString)
    (hkey : f.keyOK key = true) (hf : f.valid = true) (hfuel : f.render.length ≤ fuel)
    (d : Decoding) (hd : f.isContent = true → d.resp.Content = [] ∧ d.spare = [])
    (r : GoString) (hr : EndsNumberHead r) :
    responseField fuel key d (f.render ++ r) = some (d.assign f, r) := by
  have hdepth : ([ParseState.objectValue]).length ≤ maxNestingDepth := by decide
  have hstr : ∀ (old : GoString) (s : List StrItem), s.all StrItem.valid = true →
      decodeString [.objectValue] old (renderString s ++ r) = some (stringText s, r) :=
    fun old s hs => decodeString_render _ _ old s r hs hdepth hr
  unfold responseField
  cases f with
  | id s =>
    simp only [Field.keyOK] at hkey
    simp only [hkey, if_true, Field.render, hstr _ s hf]
    rfl
  | typ s =>
    simp only [Field.keyOK] at hkey
    simp only [keyMatches_ne hkey (b := "id".toList) (by decide), hkey, if_true,
      Bool.false_eq_true, if_false, Field.render, hstr _ s hf]
    rfl
  | role s =>
    simp only [Field.keyOK] at hkey
    simp only [keyMatches_ne hkey (b := "id".toList) (by decide),
      keyMatches_ne hkey (b := "type".toList) (by decide), hkey, if_true,
      Bool.false_eq_true, if_false, Field.render, hstr _ s hf]
    rfl
  | content inner blocks =>
    simp only [Field.keyOK] at hkey
    simp only [Field.valid, Bool.and_eq_true, List.all_eq_true] at hf
    obtain ⟨hc, hs⟩ := hd rfl
    have hlen := blocks_length inner blocks
    simp only [Field.render] at hfuel
    simp only [keyMatches_ne hkey (b := "id".toList) (by decide),
      keyMatches_ne hkey (b := "type".toList) (by decide),
      keyMatches_ne hkey (b := "role".toList) (by decide), hkey, if_true,
      Bool.false_eq_true, if_false, Field.render, hc, hs]
    rw [decodeSlice_array [.objectValue] _ {} Block.content inner blocks fuel r hf.1
      (by omega)
      (fun b hb => by
        have := hf.2 b hb
        simp only [Block.wellFormed, Bool.and_eq_true] at this
        exact ⟨this.1.1.1, this.1.2⟩)
      (fun b hb r _ => decode_block b (hf.2 b hb) fuel
        (by have := hlen.2 b hb; omega) {} r)]
    cases d
    simp only at hs
    subst hs
    rfl
  | model s =>
    simp only [Field.keyOK] at hkey
    simp only [keyMatches_ne hkey (b := "id".toList) (by decide),
      keyMatches_ne hkey (b := "type".toList) (by decide),
      keyMatches_ne hkey (b := "role".toList) (by decide),
      keyMatches_ne hkey (b := "content".toList) (by decide), hkey, if_true,
      Bool.false_eq_true, if_false, Field.render, hstr _ s hf]
    rfl
  | stopReason s =>
    simp only [Field.keyOK] at hkey
    simp only [keyMatches_ne hkey (b := "id".toList) (by decide),
      keyMatches_ne hkey (b := "type".toList) (by decide),
      keyMatches_ne hkey (b := "role".toList) (by decide),
      keyMatches_ne hkey (b := "content".toList) (by decide),
      keyMatches_ne hkey (b := "model".toList) (by decide), hkey, if_true,
      Bool.false_eq_true, if_false, Field.render, hstr _ s hf]
    rfl
  | usage inner members =>
    simp only [Field.keyOK] at hkey
    simp only [Field.valid, Bool.and_eq_true, List.all_eq_true] at hf
    have hlen := (entries_length UsageField.render inner members).1
    simp only [Field.render] at hfuel
    simp only [keyMatches_ne hkey (b := "id".toList) (by decide),
      keyMatches_ne hkey (b := "type".toList) (by decide),
      keyMatches_ne hkey (b := "role".toList) (by decide),
      keyMatches_ne hkey (b := "content".toList) (by decide),
      keyMatches_ne hkey (b := "model".toList) (by decide),
      keyMatches_ne hkey (b := "stop_reason".toList) (by decide), hkey, if_true,
      Bool.false_eq_true, if_false, Field.render]
    rw [decode_usage inner members hf.1 hf.2 fuel (by omega)]
    rfl
  | other v =>
    simp only [Field.keyOK, unknownKey, Bool.and_eq_true, Bool.not_eq_true'] at hkey
    simp only [Field.valid, Bool.and_eq_true, decide_eq_true_eq] at hf
    obtain ⟨⟨⟨⟨⟨⟨h1, h2⟩, h3⟩, h4⟩, h5⟩, h6⟩, h7⟩ := hkey
    simp only [h1, h2, h3, h4, h5, h6, h7, Bool.false_eq_true, if_false, Field.render]
    rw [skipValue_render _ _ _ v r hf.1
      (by simp only [List.length_cons, List.length_nil]; omega) hr]
    rfl

/-- Members other than `content` leave `Content` and its backing array as they are. -/
theorem foldl_assign_content (ms : List (Entry Field))
    (hms : ∀ x ∈ ms, x.field.isContent = false) (d : Decoding) :
    (ms.foldl (fun a x => Decoding.assign a x.field) d).resp.Content = d.resp.Content
      ∧ (ms.foldl (fun a x => Decoding.assign a x.field) d).spare = d.spare := by
  induction ms generalizing d with
  | nil => exact ⟨rfl, rfl⟩
  | cons m ms ih =>
    rw [List.foldl_cons]
    obtain ⟨h1, h2⟩ := ih (fun x hx => hms x (List.mem_cons_of_mem _ hx)) (d.assign m.field)
    rw [h1, h2]
    have hm := hms m (List.mem_cons_self _ _)
    cases hf : m.field <;> simp [hf, Field.isContent] at hm <;>
      exact ⟨rfl, rfl⟩

theorem foldl_assign_resp (ms : List (Entry Field)) (d : Decoding) :
    (ms.foldl (fun a x => Decoding.assign a x.field) d).resp
      = ms.foldl (fun r x => Field.assign r x.field) d.resp := by
  induction ms generalizing d with
  | nil => rfl
  | cons m ms ih =>
    rw [List.foldl_cons, List.foldl_cons, ih]
    rfl

/-- Where `content` is given at most once, no member before it is a `content` member. -/
theorem content_first (pre post : List (Entry Field)) (e : Entry Field)
    (hcount : ((pre ++ e :: post).filter fun x => x.field.isContent).length ≤ 1)
    (he : e.field.isContent = true) : ∀ x ∈ pre, x.field.isContent = false := by
  rw [List.filter_append, List.filter_cons_of_pos (by simpa using he)] at hcount
  simp only [List.length_append, List.length_cons] at hcount
  have hnil : (pre.filter fun x => x.field.isContent) = [] :=
    List.length_eq_zero.mp (by omega)
  intro x hx
  have := List.filter_eq_nil_iff.mp hnil x hx
  simpa using this

/-- Parsing a well-formed response body gives what the body says. -/
theorem Unmarshal_body (b : Body) (hb : b.wellFormed = true) :
    Unmarshal b.render = some b.response := by
  simp only [Body.wellFormed, Bool.and_eq_true, List.all_eq_true, decide_eq_true_eq] at hb
  obtain ⟨⟨⟨⟨hbefore, hinner⟩, hafter⟩, hms⟩, hcount⟩ := hb
  have hlen := entries_length Field.render b.inner b.members
  have htotal : (renderObject b.inner (b.members.map (Entry.render Field.render))).length
      ≤ b.render.length := by
    simp only [Body.render, List.length_append]
    omega
  have hstruct := decodeStruct_object [] (by decide) (responseField b.render.length)
    Field.render Decoding.assign b.inner b.members b.render.length {} b.after hinner
    (by omega)
    (fun e he => by
      obtain ⟨h1, h2, -, h4⟩ := Entry.valid_parts (hms e he)
      exact ⟨h1, h2, Field.field_nonSpace _ h4⟩)
    (fun pre e post hsplit r hr => by
      have he : e ∈ b.members := by rw [hsplit]; simp
      obtain ⟨-, -, h3, h4⟩ := Entry.valid_parts (hms e he)
      refine responseField_member _ e.field _ h3 h4 (by have := hlen.2 e he; omega) _
        (fun hc => ?_) r hr
      rw [hsplit] at hcount
      exact foldl_assign_content pre (content_first pre post e hcount hc) {})
  have hopen : ∃ tl, renderObject b.inner (b.members.map (Entry.render Field.render)) ++ b.after
      = '{' :: tl := ⟨_, rfl⟩
  obtain ⟨tl, htl⟩ := hopen
  have hsk : skipSpace b.render = '{' :: tl := by
    simp only [Body.render, List.append_assoc]
    rw [skipSpace_space _ _ hbefore, htl]
    exact skipSpace_cons '{' _ (by decide)
  unfold Unmarshal
  rw [hsk]
  simp only []
  rw [← htl, hstruct]
  simp only [skipSpace_all b.after hafter, if_true, foldl_assign_resp]
  rfl

/-! ### What a body says -/

/-- Members other than `content` say nothing about `Content` and carry no blocks. -/
theorem response_no_content (ms : List (Entry Field))
    (hms : ∀ x ∈ ms, x.field.isContent = false) (r : MessageResponse) :
    (ms.foldl (fun r e => Field.assign r e.field) r).Content = r.Content
      ∧ (ms.map fun e => e.field.blocks).flatten = [] := by
  induction ms generalizing r with
  | nil => exact ⟨rfl, rfl⟩
  | cons m ms ih =>
    obtain ⟨h1, h2⟩ := ih (fun x hx => hms x (List.mem_cons_of_mem _ hx))
      (Field.assign r m.field)
    rw [List.foldl_cons, h1, List.map_cons, List.flatten_cons, h2]
    have hm := hms m (List.mem_cons_self _ _)
    cases hf : m.field <;> simp [hf, Field.isContent] at hm <;>
      exact ⟨rfl, rfl⟩

/-- Where `content` is given at most once, the response has the blocks of that member, in
order. -/
theorem response_content (ms : List (Entry Field)) (r : MessageResponse)
    (hr : r.Content = [])
    (hcount : (ms.filter fun e => e.field.isContent).length ≤ 1) :
    (ms.foldl (fun r e => Field.assign r e.field) r).Content
      = ((ms.map fun e => e.field.blocks).flatten).map Block.content := by
  induction ms generalizing r with
  | nil => simpa using hr
  | cons m ms ih =>
    rw [List.foldl_cons, List.map_cons, List.flatten_cons]
    by_cases hm : m.field.isContent = true
    · rw [List.filter_cons_of_pos (by simpa using hm)] at hcount
      simp only [List.length_cons] at hcount
      have hnil : (ms.filter fun e => e.field.isContent) = [] :=
        List.length_eq_zero.mp (by omega)
      have hnone : ∀ x ∈ ms, x.field.isContent = false := fun x hx => by
        have := List.filter_eq_nil_iff.mp hnil x hx
        simpa using this
      obtain ⟨h1, h2⟩ := response_no_content ms hnone (Field.assign r m.field)
      rw [h1, h2, List.append_nil]
      cases hf : m.field <;> simp [hf, Field.isContent] at hm
      rfl
    · simp only [Bool.not_eq_true] at hm
      rw [List.filter_cons_of_neg (by simp [hm])] at hcount
      have hkeep : (Field.assign r m.field).Content = [] := by
        cases hf : m.field <;> simp [hf, Field.isContent] at hm <;> exact hr
      rw [ih _ hkeep hcount]
      cases hf : m.field <;> simp [hf, Field.isContent] at hm <;> rfl

theorem Body.response_blocks (b : Body) (hb : b.wellFormed = true) :
    b.response.Content = b.blocks.map Block.content := by
  simp only [Body.wellFormed, Bool.and_eq_true, decide_eq_true_eq] at hb
  exact response_content b.members {} rfl hb.2

/-- What a block says depends on the fields of its members only. -/
theorem Block.content_fields (b : Block) (fs : List BlockField)
    (h : b.members.map Entry.field = fs) :
    b.content = fs.foldl BlockField.assign {} := by
  rw [← h, List.foldl_map]
  rfl

/-- What a body says depends on the fields of its members only. -/
theorem Body.response_fields (b : Body) (fs : List Field)
    (h : b.members.map Entry.field = fs) :
    b.response = fs.foldl Field.assign {} := by
  rw [← h, List.foldl_map]
  rfl

/-- A `content` member given twice, which no well-formed body has: the second array is
decoded into the elements the first one left in the slice, so the block keeps the text the
first array gave it. -/
theorem Unmarshal_repeated_content :
    Unmarshal ("\x7b\"content\":[\x7b\"text\":\"a\"\x7d],".toList
        ++ "\"content\":[\x7b\"type\":\"text\"\x7d]\x7d".toList)
      = some { Content := [{ Typ := "text".toList, Text := "a".toList }] } := by
  decide

/-! ## The claims -/

/-- C1: whenever the client returns a response to `generatePlantUMLWithAnthropic`, an empty
content sequence makes the generator fail with "no content in response", and a non-empty one
makes it return the text of the first block unchanged, whatever blocks follow. -/
theorem generatePlantUML_returns_first_block (env : Env) (input : GoString) (w : World)
    (resp : MessageResponse)
    (hkey : env.getenv "ANTHROPIC_API_KEY".toList ≠ [])
    (hresp : (CreateMessage env (New (env.getenv "ANTHROPIC_API_KEY".toList))
        (messageRequestFor input) (w.log (.generatePlantUML input))).1 = .ok resp) :
    (resp.Content = [] →
        (generatePlantUMLWithAnthropic env input w).1 = .error "no content in response".toList)
      ∧ (∀ first rest, resp.Content = first :: rest →
        (generatePlantUMLWithAnthropic env input w).1 = .ok first.Text) := by
  unfold generatePlantUMLWithAnthropic
  simp only [hkey, if_false]
  rcases hcm : CreateMessage env (New (env.getenv "ANTHROPIC_API_KEY".toList))
      (messageRequestFor input) (w.log (.generatePlantUML input)) with ⟨r, w1⟩
  rw [hcm] at hresp
  simp only at hresp
  subst hresp
  refine ⟨fun h => ?_, fun first rest h => ?_⟩
  · simp only [h]
    rw [errorf_plain _ (by decide)]
  · simp only [h]

theorem generatePlantUML_returns_first_block_witness :
    (generatePlantUMLWithAnthropic stubEnv "A calls B".toList emptyWorld).1
        = .ok "@startuml\nA->B\n@enduml".toList
      ∧ (generatePlantUMLWithAnthropic emptyContentEnv "A calls B".toList emptyWorld).1
        = .error "no content in response".toList :=
  ⟨(generatePlantUML_returns_first_block stubEnv "A calls B".toList emptyWorld stubResponse
      (by decide) (by rfl)).2 _ [] rfl,
   (generatePlantUML_returns_first_block emptyContentEnv "A calls B".toList emptyWorld {}
      (by decide) (by rfl)).1 rfl⟩

/-- C2: for every description `d` (empty or not, with or without `%` characters), a call of
the generator with the credential set hands `CreateMessage` exactly one request; that request
has exactly one message, its role is "user", and its content is the prompt text followed by
`d`, so it contains `d` as a substring. -/
theorem generatePlantUML_request_single_user_message (env : Env) (d : GoString) (w : World)
    (hkey : env.getenv "ANTHROPIC_API_KEY".toList ≠ []) :
    createMessageCalls (generatePlantUMLWithAnthropic env d w).2.trace
        = createMessageCalls w.trace ++ [messageRequestFor d]
      ∧ (messageRequestFor d).Messages
        = [{ Role := "user".toList, Content := promptPrefix ++ d }]
      ∧ d <:+: promptPrefix ++ d := by
  refine ⟨?_, ?_, ⟨promptPrefix, [], by simp⟩⟩
  · exact (generate_trace env d w hkey).1
  · simp [messageRequestFor, sprintf_promptTemplate]

theorem generatePlantUML_request_single_user_message_witness :
    createMessageCalls
        (generatePlantUMLWithAnthropic stubEnv "100% of %s calls".toList emptyWorld).2.trace
        = createMessageCalls emptyWorld.trace ++ [messageRequestFor "100% of %s calls".toList]
      ∧ (messageRequestFor "100% of %s calls".toList).Messages
        = [{ Role := "user".toList, Content := promptPrefix ++ "100% of %s calls".toList }]
      ∧ "100% of %s calls".toList <:+: promptPrefix ++ "100% of %s calls".toList :=
  generatePlantUML_request_single_user_message stubEnv "100% of %s calls".toList emptyWorld
    (by decide)

/-- C3, as stated, fails: with the credential set, the generator called on the empty
description does hand a request to `CreateMessage`. -/
theorem generatePlantUML_empty_description_calls_client :
    ¬ (∀ (env : Env) (w : World),
        (∃ err, (generatePlantUMLWithAnthropic env [] w).1 = .error err)
          ∧ createMessageCalls (generatePlantUMLWithAnthropic env [] w).2.trace
              = createMessageCalls w.trace) := by
  intro h
  have h1 := (h stubEnv emptyWorld).2
  rw [(generate_trace stubEnv [] emptyWorld (by decide)).1] at h1
  simp [emptyWorld, createMessageCalls] at h1

/-- C3, amended: an empty description is rejected by the handler. A POST whose `input` field
is empty is answered with status 400 and "Input is required" and leaves the world as it was:
neither the generator nor `CreateMessage` is called. -/
theorem handler_rejects_empty_description (env : Env) (r : Request) (w : World)
    (hpost : r.Method = "POST".toList) (hin : r.FormValue "input".toList = []) :
    handleIndex env r w = (httpError "Input is required".toList 400, w)
      ∧ handleGenerate env r w = (httpError "Input is required".toList 400, w)
      ∧ generatePlantUMLCalls (handleIndex env r w).2.trace = generatePlantUMLCalls w.trace
      ∧ createMessageCalls (handleIndex env r w).2.trace = createMessageCalls w.trace := by
  have hg : handleGenerate env r w = (httpError "Input is required".toList 400, w) := by
    unfold handleGenerate
    rw [if_neg (not_not.mpr hpost)]
    simp only [hin, if_true]
    rfl
  have hi : handleIndex env r w = (httpError "Input is required".toList 400, w) := by
    rw [handleIndex_post env r w hpost, if_pos hin]
  exact ⟨hi, hg, by rw [hi], by rw [hi]⟩

theorem handler_rejects_empty_description_witness :
    handleIndex stubEnv ⟨"POST".toList, fun _ => []⟩ emptyWorld
        = (httpError "Input is required".toList 400, emptyWorld)
      ∧ handleGenerate stubEnv ⟨"POST".toList, fun _ => []⟩ emptyWorld
        = (httpError "Input is required".toList 400, emptyWorld)
      ∧ generatePlantUMLCalls
          (handleIndex stubEnv ⟨"POST".toList, fun _ => []⟩ emptyWorld).2.trace
        = generatePlantUMLCalls emptyWorld.trace
      ∧ createMessageCalls (handleIndex stubEnv ⟨"POST".toList, fun _ => []⟩ emptyWorld).2.trace
        = createMessageCalls emptyWorld.trace :=
  handler_rejects_empty_description stubEnv ⟨"POST".toList, fun _ => []⟩ emptyWorld rfl rfl

/-- C4: for every status code `s` outside 200..299 and every body `b` read in full,
`CreateMessage` returns no response but the error
"API request failed with status code <s>: <b>", which contains the decimal rendering of `s`
and the raw body `b`, whether or not `b` parses. -/
theorem CreateMessage_non2xx (env : Env) (c : Client) (req : MessageRequest) (w : World)
    (jsonBody : GoString) (s : Int) (b : GoString)
    (hm : Marshal env.fmtFloat req = some jsonBody)
    (hdo : env.httpDo (newMessagesRequest c jsonBody) = .ok ⟨s, .ok b⟩)
    (hs : s < 200 ∨ 299 < s) :
    (CreateMessage env c req w).1
        = .error ("API request failed with status code ".toList ++ itoa s ++ ": ".toList ++ b)
      ∧ itoa s <:+: "API request failed with status code ".toList ++ itoa s ++ ": ".toList ++ b
      ∧ b <:+: "API request failed with status code ".toList ++ itoa s ++ ": ".toList ++ b := by
  refine ⟨?_, ?_, ?_⟩
  · exact CreateMessage_status_ne_ok env c req w jsonBody s b hm hdo (by omega)
  · exact ⟨"API request failed with status code ".toList, ": ".toList ++ b, by simp⟩
  · exact ⟨"API request failed with status code ".toList ++ itoa s ++ ": ".toList, [], by simp⟩

theorem CreateMessage_non2xx_witness :
    (CreateMessage (statusEnv 401 "\x7b\"error\":\"unauthorized\"\x7d".toList)
        (New "test-key".toList) (messageRequestFor "A".toList) emptyWorld).1
        = .error ("API request failed with status code ".toList ++ "401".toList ++ ": ".toList
            ++ "\x7b\"error\":\"unauthorized\"\x7d".toList)
      ∧ "401".toList <:+: "API request failed with status code ".toList ++ "401".toList
            ++ ": ".toList ++ "\x7b\"error\":\"unauthorized\"\x7d".toList
      ∧ "\x7b\"error\":\"unauthorized\"\x7d".toList <:+:
          "API request failed with status code ".toList ++ "401".toList ++ ": ".toList
            ++ "\x7b\"error\":\"unauthorized\"\x7d".toList :=
  CreateMessage_non2xx (statusEnv 401 "\x7b\"error\":\"unauthorized\"\x7d".toList)
    (New "test-key".toList) (messageRequestFor "A".toList) emptyWorld _ 401
    "\x7b\"error\":\"unauthorized\"\x7d".toList rfl rfl (by decide)

/-- C5, as stated, fails: a 2xx status other than 200 is an error even when the body parses.
At status 201 with a parseable body `CreateMessage` returns the status-code error. -/
theorem CreateMessage_status_201_is_error :
    ¬ (∀ (env : Env) (c : Client) (req : MessageRequest) (w : World)
        (jsonBody body : GoString) (s : Int) (resp : MessageResponse),
        Marshal env.fmtFloat req = some jsonBody →
        env.httpDo (newMessagesRequest c jsonBody) = .ok ⟨s, .ok body⟩ →
        200 ≤ s ∧ s ≤ 299 →
        Unmarshal body = some resp →
        (CreateMessage env c req w).1 = .ok resp) := by
  intro h
  have h1 := h (statusEnv 201 stubBody) (New "test-key".toList) (messageRequestFor "A".toList)
    emptyWorld _ stubBody 201 stubResponse rfl rfl (by decide) (by rfl)
  have h2 := CreateMessage_status_ne_ok (statusEnv 201 stubBody) (New "test-key".toList)
    (messageRequestFor "A".toList) emptyWorld _ 201 stubBody rfl rfl (by decide)
  rw [h2] at h1
  cases h1

/-- C5, amended: `CreateMessage` succeeds whenever the service responds with status 200 and
a body that parses: it returns the parsed response and no error. A response with any other
status, other 2xx codes included, is an error. -/
theorem CreateMessage_succeeds_on_200 (env : Env) (c : Client) (req : MessageRequest)
    (w : World) (jsonBody body : GoString) (s : Int)
    (hm : Marshal env.fmtFloat req = some jsonBody)
    (hdo : env.httpDo (newMessagesRequest c jsonBody) = .ok ⟨s, .ok body⟩) :
    (∀ resp, s = 200 → Unmarshal body = some resp → (CreateMessage env c req w).1 = .ok resp)
      ∧ (s ≠ 200 → ∃ err, (CreateMessage env c req w).1 = .error err) := by
  refine ⟨fun resp hs hparse => ?_, fun hs => ⟨_, CreateMessage_status_ne_ok env c req w
    jsonBody s body hm hdo hs⟩⟩
  subst hs
  exact CreateMessage_ok env c req w jsonBody body resp hm hdo hparse

theorem CreateMessage_succeeds_on_200_witness :
    (CreateMessage stubEnv (New "test-key".toList) (messageRequestFor "A".toList)
        emptyWorld).1 = .ok stubResponse :=
  (CreateMessage_succeeds_on_200 stubEnv (New "test-key".toList) (messageRequestFor "A".toList)
    emptyWorld _ stubBody 200 rfl rfl).1 stubResponse rfl (by rfl)

/-- C6: over the explicit file state, after every call of `generateDiagram` the scratch file
of that call does not exist. When no scratch file could be created the files are untouched;
otherwise the scratch name was free before the call and is free again after it, on the
write-failure path, when the renderer cannot be started or exits with a failure, and on
success alike. If the renderer changes nothing but the image next to its input, the files
after the call differ from the files before it at most at that image path. -/
theorem generateDiagram_removes_scratch_file (env : Env) (code : GoString) (w : World) :
    (∀ err, CreateTemp env w.files "temp".toList "diagram-*.puml".toList = .error err →
        (generateDiagram env code w).2.files = w.files)
      ∧ (∀ name fs1, CreateTemp env w.files "temp".toList "diagram-*.puml".toList
            = .ok (name, fs1) →
          w.files name = none
            ∧ (generateDiagram env code w).2.files name = none
            ∧ (RendererWritesOnlyImage env →
                ∀ q, q ≠ replaceExt name ".png".toList →
                  (generateDiagram env code w).2.files q = w.files q)) := by
  refine ⟨fun err h => ?_, fun name fs1 h => ?_⟩
  · rw [generateDiagram_createTemp_error env code w err h]
    rfl
  · obtain ⟨_, hfree, hfs1⟩ := CreateTemp_scratch env w.files fs1 name h
    rw [generateDiagram_files env code w name fs1 h]
    refine ⟨hfree, ?_, fun hcontract q hq => ?_⟩
    · cases env.writeError <;> simp [Files.remove]
    · by_cases hqn : q = name
      · subst hqn
        cases env.writeError <;> simp [Files.remove, hfree]
      · cases env.writeError with
        | some err => simp [Files.remove, hqn, hfs1, Files.write]
        | none =>
          simp only [Files.remove, hqn, if_false]
          rw [hcontract _ name q hq]
          simp [hfs1, Files.write, hqn]

theorem generateDiagram_removes_scratch_file_witness :
    (generateDiagram stubEnv "@startuml\nA->B\n@enduml".toList emptyWorld).2.files
        "temp/diagram-1804289383.puml".toList = none
      ∧ (generateDiagram failingRendererEnv "@startuml\nA->B\n@enduml".toList emptyWorld).2.files
        "temp/diagram-1804289383.puml".toList = none
      ∧ (generateDiagram stubEnv "@startuml\nA->B\n@enduml".toList emptyWorld).2.files
        "temp/other.txt".toList = none :=
  ⟨((generateDiagram_removes_scratch_file stubEnv "@startuml\nA->B\n@enduml".toList
      emptyWorld).2 "temp/diagram-1804289383.puml".toList _ rfl).2.1,
   ((generateDiagram_removes_scratch_file failingRendererEnv "@startuml\nA->B\n@enduml".toList
      emptyWorld).2 "temp/diagram-1804289383.puml".toList _ rfl).2.1,
   ((generateDiagram_removes_scratch_file stubEnv "@startuml\nA->B\n@enduml".toList
      emptyWorld).2 "temp/diagram-1804289383.puml".toList _ rfl).2.2
      (fun fs name q hq => by
        show (if q = replaceExt name ".png".toList then _ else fs q) = fs q
        rw [if_neg hq])
      "temp/other.txt".toList (by decide)⟩

/-- C7: every scratch path the allocation in `generateDiagram` produces is
`temp/diagram-<digits>.puml` with a non-empty run of decimal digits; when the write succeeds
and the renderer exits successfully, `generateDiagram` returns `/temp/diagram-<digits>.png`.
On such a path replacing all occurrences of ".puml" coincides with replacing the extension:
the result keeps directory and base name, starts with "/temp/" and ends in ".png". -/
theorem generateDiagram_returns_image_path (env : Env) (code : GoString) (w : World)
    (name : GoString) (fs1 : Files)
    (h : CreateTemp env w.files "temp".toList "diagram-*.puml".toList = .ok (name, fs1))
    (hw : env.writeError = none)
    (hrun : (env.run (fs1.write name code) ["plantuml".toList, "-tpng".toList, name]).2 = none) :
    ∃ digits : GoString, digits ≠ [] ∧ (∀ c ∈ digits, isDigit c = true)
      ∧ name = "temp/diagram-".toList ++ digits ++ ".puml".toList
      ∧ (generateDiagram env code w).1 = .ok ('/' :: replaceExt name ".png".toList)
      ∧ ReplaceAll name ".puml".toList ".png".toList = replaceExt name ".png".toList
      ∧ '/' :: replaceExt name ".png".toList
          = "/temp/".toList ++ ("diagram-".toList ++ digits) ++ ".png".toList := by
  obtain ⟨⟨n, hname⟩, -, -⟩ := CreateTemp_scratch env w.files fs1 name h
  have hds := uitoa_digits n
  have hrepl : ReplaceAll name ".puml".toList ".png".toList = replaceExt name ".png".toList := by
    rw [hname, ReplaceAll_scratch _ hds, replaceExt_scratch]
  refine ⟨uitoa n, uitoa_ne_nil n, hds, hname, ?_, hrepl, ?_⟩
  · rcases hr : env.run (fs1.write name code) ["plantuml".toList, "-tpng".toList, name]
      with ⟨fs2, res⟩
    rw [hr] at hrun
    simp only at hrun
    subst hrun
    rw [generateDiagram_run env code w name fs1 fs2 none h hw hr, ← hrepl]
  · rw [hname, replaceExt_scratch]
    simp

theorem generateDiagram_returns_image_path_witness :
    ∃ digits : GoString, digits ≠ [] ∧ (∀ c ∈ digits, isDigit c = true)
      ∧ "temp/diagram-1804289383.puml".toList
          = "temp/diagram-".toList ++ digits ++ ".puml".toList
      ∧ (generateDiagram stubEnv "@startuml\nA->B\n@enduml".toList emptyWorld).1
          = .ok ('/' :: replaceExt "temp/diagram-1804289383.puml".toList ".png".toList)
      ∧ ReplaceAll "temp/diagram-1804289383.puml".toList ".puml".toList ".png".toList
          = replaceExt "temp/diagram-1804289383.puml".toList ".png".toList
      ∧ '/' :: replaceExt "temp/diagram-1804289383.puml".toList ".png".toList
          = "/temp/".toList ++ ("diagram-".toList ++ digits) ++ ".png".toList :=
  generateDiagram_returns_image_path stubEnv "@startuml\nA->B\n@enduml".toList emptyWorld
    "temp/diagram-1804289383.puml".toList _ rfl rfl rfl

/-- C9: the status of the handler's answer, for every request. A method other than GET or
POST gives 405. A POST with an empty `input` gives 400 and leaves the world untouched, so
neither the generator nor the render pipeline runs. A POST with a non-empty `input` gives 500
with the error's message as body (on a line of its own, as `http.Error` writes it) when the
generator fails, and then the render pipeline is not called, or when the render pipeline
fails. When both stages succeed the handler parses the page template: if that succeeds the
page, rendered from the input, the diagram reference and the generated markup, is returned
with status 200; if it fails the handler panics and no response is written. So a POST is
answered with status 200 only when both stages succeeded, and exactly when they succeeded
and the template could be parsed. -/
theorem handleIndex_status (env : Env) (r : Request) (w : World) :
    (r.Method ≠ "GET".toList → r.Method ≠ "POST".toList →
        (handleIndex env r w).1.Status = some 405 ∧ (handleIndex env r w).2 = w)
      ∧ (r.Method = "POST".toList → r.FormValue "input".toList = [] →
        (handleIndex env r w).1.Status = some 400 ∧ (handleIndex env r w).2 = w)
      ∧ (r.Method = "POST".toList → r.FormValue "input".toList ≠ [] →
        ∀ err, (generatePlantUMLWithAnthropic env (r.FormValue "input".toList) w).1 = .error err →
          (handleIndex env r w).1 = .written 500 (err ++ ['\n'])
            ∧ (handleIndex env r w).2
                = (generatePlantUMLWithAnthropic env (r.FormValue "input".toList) w).2
            ∧ generateDiagramCalls (handleIndex env r w).2.trace
                = generateDiagramCalls w.trace)
      ∧ (r.Method = "POST".toList → r.FormValue "input".toList ≠ [] →
        ∀ code err,
          (generatePlantUMLWithAnthropic env (r.FormValue "input".toList) w).1 = .ok code →
          (generateDiagram env code
            (generatePlantUMLWithAnthropic env (r.FormValue "input".toList) w).2).1
              = .error err →
          (handleIndex env r w).1 = .written 500 (err ++ ['\n']))
      ∧ (r.Method = "POST".toList → r.FormValue "input".toList ≠ [] →
        ∀ code path,
          (generatePlantUMLWithAnthropic env (r.FormValue "input".toList) w).1 = .ok code →
          (generateDiagram env code
            (generatePlantUMLWithAnthropic env (r.FormValue "input".toList) w).2).1
              = .ok path →
          (∀ page, env.template = .ok page →
            (handleIndex env r w).1
              = .written 200
                  (page { Input := r.FormValue "input".toList, DiagramURL := path,
                          PlantUMLCode := code }))
            ∧ (∀ err, env.template = .error err → (handleIndex env r w).1 = .aborted err))
      ∧ (r.Method = "POST".toList →
        ((handleIndex env r w).1.Status = some 200 ↔
          r.FormValue "input".toList ≠ []
            ∧ (∃ code path,
              (generatePlantUMLWithAnthropic env (r.FormValue "input".toList) w).1 = .ok code
              ∧ (generateDiagram env code
                  (generatePlantUMLWithAnthropic env (r.FormValue "input".toList) w).2).1
                    = .ok path)
            ∧ ∃ page, env.template = .ok page)) := by
  refine ⟨fun hget hpost => ?_, fun hpost hin => ?_, fun hpost hin err hgen => ?_,
    fun hpost hin code err hgen hren => ?_, fun hpost hin code path hgen hren => ?_,
    fun hpost => ?_⟩
  · rw [handleIndex_other env r w hget hpost]
    exact ⟨rfl, rfl⟩
  · rw [handleIndex_post env r w hpost, if_pos hin]
    exact ⟨rfl, rfl⟩
  · rw [handleIndex_post env r w hpost, if_neg hin]
    have hnr := generatePlantUML_no_render env (r.FormValue "input".toList) w
    rcases hg : generatePlantUMLWithAnthropic env (r.FormValue "input".toList) w with ⟨res, w1⟩
    rw [hg] at hgen hnr
    simp only at hgen hnr
    subst hgen
    exact ⟨rfl, rfl, hnr⟩
  · rw [handleIndex_post env r w hpost, if_neg hin]
    rcases hg : generatePlantUMLWithAnthropic env (r.FormValue "input".toList) w with ⟨res, w1⟩
    rw [hg] at hgen hren
    simp only at hgen hren
    subst hgen
    rcases hd : generateDiagram env code w1 with ⟨res2, w2⟩
    rw [hd] at hren
    simp only at hren
    subst hren
    simp only [hd]
    rfl
  · rw [handleIndex_post env r w hpost, if_neg hin]
    rcases hg : generatePlantUMLWithAnthropic env (r.FormValue "input".toList) w with ⟨res, w1⟩
    rw [hg] at hgen hren
    simp only at hgen hren
    subst hgen
    rcases hd : generateDiagram env code w1 with ⟨res2, w2⟩
    rw [hd] at hren
    simp only at hren
    subst hren
    simp only [hd]
    refine ⟨fun page hpage => ?_, fun err herr => ?_⟩
    · simp only [executeTemplate, hpage]
    · simp only [executeTemplate, herr]
  · rw [handleIndex_post env r w hpost]
    have h400 : ¬ (some (400 : Nat) = some 200) := by decide
    have h500 : ¬ (some (500 : Nat) = some 200) := by decide
    by_cases hin : r.FormValue "input".toList = []
    · rw [if_pos hin]
      exact ⟨fun h => absurd h h400, fun h => absurd hin h.1⟩
    · rw [if_neg hin]
      rcases hg : generatePlantUMLWithAnthropic env (r.FormValue "input".toList) w with ⟨res, w1⟩
      cases res with
      | error e =>
        refine ⟨fun h => absurd h h500, fun h => ?_⟩
        obtain ⟨-, ⟨code, path, h1, -⟩, -⟩ := h
        cases h1
      | ok code =>
        rcases hd : generateDiagram env code w1 with ⟨res2, w2⟩
        cases res2 with
        | error e =>
          simp only [hd]
          refine ⟨fun h => absurd h h500, fun h => ?_⟩
          obtain ⟨-, ⟨code2, path, h1, h2⟩, -⟩ := h
          simp only [Except.ok.injEq] at h1
          subst h1
          rw [hd] at h2
          cases h2
        | ok path =>
          simp only [hd]
          rw [executeTemplate_status]
          exact ⟨fun h => ⟨hin, ⟨code, path, rfl, by rw [hd]⟩, h⟩, fun h => h.2.2⟩

theorem handleIndex_status_witness :
    (handleIndex stubEnv ⟨"POST".toList, fun _ => "A calls B".toList⟩ emptyWorld).1
        = .written 200
            ("/temp/diagram-1804289383.png".toList ++ '\n' :: "@startuml\nA->B\n@enduml".toList)
      ∧ (handleIndex missingTemplateEnv ⟨"POST".toList, fun _ => "A calls B".toList⟩
          emptyWorld).1
        = .aborted "open templates/index.html: no such file or directory".toList
      ∧ (handleIndex failingRendererEnv ⟨"POST".toList, fun _ => "A calls B".toList⟩
          emptyWorld).1
        = .written 500 ("failed to generate diagram: exit status 1".toList ++ ['\n'])
      ∧ (handleIndex stubEnv ⟨"PUT".toList, fun _ => "A calls B".toList⟩ emptyWorld).1.Status
        = some 405 :=
  ⟨((handleIndex_status stubEnv ⟨"POST".toList, fun _ => "A calls B".toList⟩
      emptyWorld).2.2.2.2.1 rfl (by decide) _ _ rfl rfl).1 _ rfl,
   ((handleIndex_status missingTemplateEnv ⟨"POST".toList, fun _ => "A calls B".toList⟩
      emptyWorld).2.2.2.2.1 rfl (by decide) _ _ rfl rfl).2 _ rfl,
   (handleIndex_status failingRendererEnv ⟨"POST".toList, fun _ => "A calls B".toList⟩
      emptyWorld).2.2.2.1 rfl (by decide) _ _ rfl rfl,
   ((handleIndex_status stubEnv ⟨"PUT".toList, fun _ => "A calls B".toList⟩ emptyWorld).1
      (by decide) (by decide)).1⟩

/-- C8: parsing a success response body preserves the response. A well-formed response body
is any JSON text for the response object within the scanner's nesting limit: its members in
any order, under any spelling of their keys (escapes, other case), with members the contract
does not know among them, any whitespace between the tokens, every string in any spelling the
grammar admits (a `>` written as it is or as an escape, surrogate pairs), counters that fit a
Go `int`, blocks whose members likewise come in any order, and `content` given at most once.
For every such body the parse succeeds and returns what the body says: as many content
blocks as the `content` array has, in the same order; a text block keeps its text; a tool_use
block keeps its id and name and has as `Input` exactly the bytes of the `input` value as
written; id, type, role, model, stop_reason and both usage counters are preserved.
`CreateMessage` returns this response when the service answers 200 with that body. -/
theorem Unmarshal_preserves_response :
    (∀ b : Body, b.wellFormed = true →
      Unmarshal b.render = some b.response
        ∧ b.response.Content = b.blocks.map Block.content
        ∧ b.response.Content.length = b.blocks.length)
      ∧ (∀ (b : Block) (typ text : List StrItem),
          b.members.map Entry.field = [.typ typ, .text text] →
          b.content = { Typ := stringText typ, Text := stringText text })
      ∧ (∀ (b : Block) (typ id name : List StrItem) (input : JValue),
          b.members.map Entry.field = [.typ typ, .id id, .name name, .input input] →
          b.content
            = { Typ := stringText typ, ID := stringText id, Name := stringText name,
                Input := some input.render })
      ∧ (∀ (b : Body) (id typ role model stopReason : List StrItem) (inner : GoString)
          (blocks : List Block) (usageInner : GoString) (usage : List (Entry UsageField))
          (inputTokens outputTokens : JNumber),
          b.members.map Entry.field
            = [.id id, .typ typ, .role role, .content inner blocks, .model model,
               .stopReason stopReason, .usage usageInner usage] →
          usage.map Entry.field = [.inputTokens inputTokens, .outputTokens outputTokens] →
          b.response
            = { ID := stringText id, Typ := stringText typ, Role := stringText role,
                Content := blocks.map Block.content, Model := stringText model,
                StopReason := stringText stopReason,
                Usage := { InputTokens := inputTokens.intValue,
                           OutputTokens := outputTokens.intValue } })
      ∧ (∀ (env : Env) (c : Client) (req : MessageRequest) (w : World) (jsonBody : GoString)
          (b : Body), b.wellFormed = true →
          Marshal env.fmtFloat req = some jsonBody →
          env.httpDo (newMessagesRequest c jsonBody) = .ok ⟨200, .ok b.render⟩ →
          (CreateMessage env c req w).1 = .ok b.response) := by
  refine ⟨fun b hb => ⟨Unmarshal_body b hb, Body.response_blocks b hb, ?_⟩,
    fun b typ text h => ?_, fun b typ id name input h => ?_,
    fun b id typ role model stopReason inner blocks usageInner usage inputTokens outputTokens
      h hu => ?_,
    fun env c req w jsonBody b hb hm hdo => ?_⟩
  · rw [Body.response_blocks b hb, List.length_map]
  · rw [Block.content_fields b _ h]
    rfl
  · rw [Block.content_fields b _ h]
    rfl
  · rw [Body.response_fields b _ h]
    simp only [List.foldl_cons, List.foldl_nil, Field.assign]
    rw [← List.foldl_map, hu]
    rfl
  · exact CreateMessage_ok env c req w jsonBody b.render _ hm hdo (Unmarshal_body b hb)

theorem Unmarshal_preserves_response_witness :
    (Unmarshal sampleBody.render = some sampleBody.response
        ∧ sampleBody.response.Content = sampleBody.blocks.map Block.content
        ∧ sampleBody.response.Content.length = sampleBody.blocks.length)
      ∧ sampleBody.render
        = (" \x7b\n \"usage\" : \x7b \"output_tokens\":34 ,\"cache_creation\":[0.5],".toList
          ++ " \"Input_Tokens\":\t12 \x7d,\n \"stop_sequence\": null,\n".toList
          ++ " \"MODEL\":\"claude-3-5-sonnet-20241022\",\n \"content\": [ ".toList
          ++ "\x7b\"type\":\"text\",\"citations\":null, \"text\" : ".toList
          ++ "\"@startuml\\nA->B \\ud83d\\uDE00\\n@enduml\"\x7d ,\n  ".toList
          ++ "\x7b \"input\" : \x7b \"a\" : [1, -2.5e+3, \"x\\u00e9\"] ,\"b\":null\x7d,".toList
          ++ "\"name\":\"render\",\"id\":\"toolu_01\",\"type\":\"tool\\u005fuse\" \x7d ]\r\n,".toList
          ++ "\"i\\u0064\":\"msg_01\",\"role\":\"assistant\",\"type\":\"message\",".toList
          ++ "\"stop_reason\":\"tool_use\"\n\x7d\n".toList)
      ∧ sampleBody.response
        = { ID := "msg_01".toList, Typ := "message".toList, Role := "assistant".toList,
            Content :=
              [{ Typ := "text".toList,
                 Text := "@startuml\nA->B ".toList ++ Char.ofNat 0x1F600 :: "\n@enduml".toList },
               { Typ := "tool_use".toList, ID := "toolu_01".toList, Name := "render".toList,
                 Input := some
                   "\x7b \"a\" : [1, -2.5e+3, \"x\\u00e9\"] ,\"b\":null\x7d".toList }],
            Model := "claude-3-5-sonnet-20241022".toList, StopReason := "tool_use".toList,
            Usage := { InputTokens := 12, OutputTokens := 34 } }
      ∧ (Unmarshal stubBody = some stubResponse ∧ fixtureBody.render = stubBody
          ∧ fixtureBody.response = stubResponse) :=
  ⟨Unmarshal_preserves_response.1 sampleBody (by decide), by decide, by decide,
    (show fixtureBody.render = stubBody by decide) ▸
      (show fixtureBody.response = stubResponse by decide) ▸
        (Unmarshal_preserves_response.1 fixtureBody (by decide)).1,
    by decide, by decide⟩

end LLMDiagrams
